import Mathlib

/-!
# Verification of the Unit-of-Work change-tracking core

A shallow embedding, in Lean 4, of the change-tracking and commit-ordering
engine of this repository (`lib/unit-of-work/UnitOfWork.ts` and the relation
collection class), together with proofs about the embedded operations.

Modelling conventions:

* Entities are identified by a numeric instance token (`EntityId`, playing the
  role of the `__uuid` / object identity of a live TS object); the object heap
  is an association list `store : List (EntityId × Entity)`.  Mutating a field
  of a live object is modelled by `updEntity`, a point update of the heap.
* Primary keys are modelled by their serialized form (`String`,
  `__serializedPrimaryKey`); identity-map keys are the source's
  `entityName ++ "-" ++ serializedPrimaryKey` strings.
* Relation-valued properties always hold either an entity reference
  (`PropValue.toOne`) or a relation collection (`PropValue.toMany`); the
  raw-identifier / raw-array fix-up paths of `fixMissingReference` can
  therefore never fire and the function is the identity on this state space.
* Asynchronous driver calls are modelled by a `Driver` record of pure
  functions returning `Except DriverErr _`; a thrown exception is modelled by
  an `Option DriverErr` result paired with the state at the throw point
  (a TS object keeps its state when a method on it throws).
* The recursive graph walks are defined with an explicit fuel parameter and
  return `none` when the fuel runs out; every recursive call decreases the
  fuel, making the definitions structurally recursive and kernel-reducible.
* `UoWState.opLog` is ghost instrumentation: `cascade` records there which
  entities the cascaded operation was dispatched to.  No modelled function
  reads it.
* `ChangeSetComputer`, `CommitOrderCalculator`, `Utils` and the
  `EntityManager` are not part of the analysed sources; where their behaviour
  matters it is either modelled from the specification (marked
  `Modelled from the spec:`) or passed in as a parameter (the commit-order
  list handed to `reorderChangeSets`).
-/

/-- An entity instance token (the `__uuid` / object identity of a live object). -/
abbrev EntityId := Nat

/-- Relation kinds (`ReferenceType` enum of the source). -/
inductive ReferenceType where
  | scalar
  | manyToOne
  | oneToOne
  | oneToMany
  | manyToMany
deriving DecidableEq, Repr

/-- Cascade kinds (`Cascade` enum of the source). -/
inductive Cascade where
  | persist
  | merge
  | remove
  | all
deriving DecidableEq, Repr

/-- Lock modes (`LockMode` enum of the source). -/
inductive LockMode where
  | optimistic
  | pessimisticRead
  | pessimisticWrite
  | lockNone
deriving DecidableEq, Repr

/-- The state of a relation collection (`Collection` fields used by the
unit of work: current items, `initialized`, `dirty`, membership `snapshot`). -/
structure Coll where
  items : List EntityId
  initialized : Bool
  dirty : Bool
  snapshot : List EntityId
deriving DecidableEq, Repr

/-- A property value held by an entity: a scalar, a to-one entity reference
(possibly null), or a to-many relation collection. -/
inductive PropValue where
  | scalar (v : Nat)
  | toOne (target : Option EntityId)
  | toMany (c : Coll)
deriving DecidableEq, Repr

/-- A live entity: its type name, serialized primary key (if assigned),
`initialized` flag, the `__em` back-reference flag, and its property values. -/
structure Entity where
  typeName : String
  pk : Option String
  initialized : Bool
  em : Bool
  props : List (String × PropValue)
deriving DecidableEq, Repr

/-- Relation/property metadata (the `EntityProperty` fields the unit of work
reads). -/
structure EntityProperty where
  name : String
  reference : ReferenceType
  cascade : List Cascade
  owner : Bool
  nullable : Bool
  orphanRemoval : Bool
  type : String
  mappedBy : String
deriving DecidableEq, Repr

/-- Per-type metadata (`EntityMetadata` fields the unit of work reads). -/
structure EntityMetadata where
  name : String
  collection : String
  properties : List EntityProperty
  versionProperty : Option String
deriving DecidableEq, Repr

/-- The metadata provider: type name to metadata. -/
abbrev Metadata := String → EntityMetadata

/-- Change-set kinds (`ChangeSetType` enum). -/
inductive ChangeSetType where
  | create
  | update
  | delete
deriving DecidableEq, Repr

/-- One pending write (`ChangeSet`): kind, entity type name, storage name,
the entity, the changed-field payload, and the persisted flag set once the
physical write completed. -/
structure ChangeSet where
  type : ChangeSetType
  name : String
  collection : String
  entity : EntityId
  payload : List (String × PropValue)
  persisted : Bool
deriving DecidableEq, Repr

/-- The mutable state of one `UnitOfWork` instance plus the object heap it
operates on.  `opLog` is ghost instrumentation (see the file header). -/
structure UoWState where
  store : List (EntityId × Entity)
  identityMap : List (String × EntityId)
  originalEntityData : List (EntityId × List (String × PropValue))
  identifierMap : List EntityId
  persistStack : List EntityId
  removeStack : List EntityId
  orphanRemoveStack : List EntityId
  changeSets : List ChangeSet
  collectionUpdates : List (EntityId × String)
  extraUpdates : List (EntityId × String × PropValue)
  opLog : List (Cascade × EntityId)
deriving DecidableEq, Repr

/-- Association-list lookup (JS object property read). -/
def alookup {α β : Type} [DecidableEq α] : List (α × β) → α → Option β
  | [], _ => none
  | p :: l, k => if p.1 = k then some p.2 else alookup l k

/-- Association-list write (JS object property assignment: updates in place,
else appends, preserving key insertion order). -/
def aset {α β : Type} [DecidableEq α] : List (α × β) → α → β → List (α × β)
  | [], k, v => [(k, v)]
  | p :: l, k, v => if p.1 = k then (k, v) :: l else p :: aset l k v

/-- Association-list key deletion (JS `delete obj[k]`, preserving the order of
the remaining keys). -/
def aerase {α β : Type} [DecidableEq α] : List (α × β) → α → List (α × β)
  | [], _ => []
  | p :: l, k => if p.1 = k then aerase l k else p :: aerase l k

/-- Read an entity from the heap. -/
def UoWState.getEntity (st : UoWState) (e : EntityId) : Option Entity :=
  alookup st.store e

/-- Point update of an already-present entity in the heap (mutation of a live
object; ids absent from the heap are untouched). -/
def UoWState.updEntity (st : UoWState) (e : EntityId) (f : Entity → Entity) : UoWState :=
  { st with store := st.store.map fun p => if p.1 = e then (p.1, f p.2) else p }

/-- Read one property value of an entity. -/
def UoWState.getProp (st : UoWState) (e : EntityId) (pn : String) : Option PropValue :=
  (st.getEntity e).bind fun ent => alookup ent.props pn

/-- Assign one property value of an entity (`entity[prop] = v`). -/
def UoWState.setProp (st : UoWState) (e : EntityId) (pn : String) (v : PropValue) : UoWState :=
  st.updEntity e fun ent => { ent with props := aset ent.props pn v }

/-- Delete one property of an entity (`delete entity[prop]`). -/
def UoWState.delProp (st : UoWState) (e : EntityId) (pn : String) : UoWState :=
  st.updEntity e fun ent => { ent with props := aerase ent.props pn }

/-- Set the `__em` back-reference flag of an entity
(`Object.defineProperty(wrapped, '__em', ...)`). -/
def UoWState.setEm (st : UoWState) (e : EntityId) : UoWState :=
  st.updEntity e fun ent => { ent with em := true }

/-- Identity-map key: `entityTypeName ++ "-" ++ serializedPrimaryKey`. -/
def keyOf (typeName pk : String) : String := typeName ++ "-" ++ pk

/-- `getById`: identity-map lookup by type name and primary key. -/
def UoWState.getById (st : UoWState) (typeName pk : String) : Option EntityId :=
  alookup st.identityMap (keyOf typeName pk)

/-- `cleanUpStack`: remove an entity from a pending-operation stack. -/
def cleanUpStack (stack : List EntityId) (e : EntityId) : List EntityId :=
  stack.filter fun x => decide (x ≠ e)

/-- `unsetIdentity`: drop the identity-map entry, identifier placeholder and
baseline snapshot of an entity. -/
def UoWState.unsetIdentity (st : UoWState) (e : EntityId) : UoWState :=
  match st.getEntity e with
  | none => st
  | some ent =>
    let st1 :=
      match ent.pk with
      | some p => { st with identityMap := aerase st.identityMap (keyOf ent.typeName p) }
      | none => st
    { st1 with
      identifierMap := st1.identifierMap.filter fun x => decide (x ≠ e)
      originalEntityData := aerase st1.originalEntityData e }

/-- Add an identifier placeholder for an entity
(`identifierMap[uuid] = new EntityIdentifier()`). -/
def insertIdentifier (l : List EntityId) (e : EntityId) : List EntityId :=
  if e ∈ l then l else l ++ [e]

/-- `shouldCascade`: a remove always cascades over orphan-removal relations;
otherwise the relation's declared cascade set must contain the operation or
the wildcard. -/
def shouldCascade (prop : EntityProperty) (type : Cascade) : Bool :=
  (decide (type = Cascade.remove) && prop.orphanRemoval) ||
    (prop.cascade.contains type || prop.cascade.contains Cascade.all)

/-- `Collection.isInitialized(fully)`: the collection's own flag, and when
`fully` is requested additionally every current item's entity must be
initialized. -/
def collIsInitialized (st : UoWState) (c : Coll) (fully : Bool) : Bool :=
  if fully then
    c.initialized && c.items.all fun i => ((alookup st.store i).map (·.initialized)).getD false
  else c.initialized

/-- `fixMissingReference`: in this embedding relation values always hold
entity references or collections (see the file header), so the raw-key and
raw-array replacement branches of the source can never fire and the state is
returned unchanged. -/
def fixMissingReference (st : UoWState) (_e : EntityId) (_prop : EntityProperty) : UoWState :=
  st

/-- `unwrapReference`: read the relation value; `Reference` wrappers are not
modelled separately, so unwrapping is the plain property read. -/
def unwrapReference (st : UoWState) (e : EntityId) (prop : EntityProperty) : Option PropValue :=
  st.getProp e prop.name

/-! ## Change-set reordering (`reorderChangeSets`) -/

/-- JS `Array.prototype.indexOf`: index of the first occurrence, `-1` when
absent. -/
def jsIndexOf {α : Type} [DecidableEq α] (l : List α) (a : α) : Int :=
  if a ∈ l then (l.indexOf a : Int) else -1

/-- The fixed operation-kind order of `reorderChangeSets`:
CREATE, then UPDATE, then DELETE. -/
def typeOrder : List ChangeSetType :=
  [ChangeSetType.create, ChangeSetType.update, ChangeSetType.delete]

/-- The `compare` closure of `reorderChangeSets`: compare two change sets by
the index of their key in `arr`, falling back to the original list position
for a stable order.  Here `ia`/`ib` are the original positions of the two
change sets (in the source, `base.indexOf` on the pre-sort copy). -/
def csCompareBy {κ : Type} [DecidableEq κ] (arr : List κ) (ka kb : κ) (ia ib : Nat) : Int :=
  if jsIndexOf arr ka = jsIndexOf arr kb then (ia : Int) - (ib : Int)
  else jsIndexOf arr ka - jsIndexOf arr kb

/-- The comparator passed to the sort in `reorderChangeSets`, acting on
position-annotated change sets: by operation kind first; within DELETE by the
reversed commit order of the type names; otherwise by the forward commit
order. -/
def csCompare (commitOrder : List String) (a b : Nat × ChangeSet) : Int :=
  if a.2.type ≠ b.2.type then csCompareBy typeOrder a.2.type b.2.type a.1 b.1
  else if a.2.type = ChangeSetType.delete then
    csCompareBy commitOrder.reverse a.2.name b.2.name a.1 b.1
  else csCompareBy commitOrder a.2.name b.2.name a.1 b.1

/-- The (total, antisymmetric on distinct positions) order induced by the
comparator. -/
def csLE (commitOrder : List String) (a b : Nat × ChangeSet) : Prop :=
  csCompare commitOrder a b ≤ 0

instance (commitOrder : List String) : DecidableRel (csLE commitOrder) :=
  fun a b => inferInstanceAs (Decidable (csCompare commitOrder a b ≤ 0))

/-- `reorderChangeSets`, position-annotated: sort the change-set list with the
source's comparator.  The comparator never returns `0` on two distinct
annotated elements (positions tie-break), so every comparison-sorted
permutation is the same list; insertion sort computes it. -/
def reorderIndexed (commitOrder : List String) (css : List ChangeSet) :
    List (Nat × ChangeSet) :=
  css.enum.insertionSort (csLE commitOrder)

/-- `reorderChangeSets`: the reordered change-set list. -/
def reorderChangeSets (commitOrder : List String) (css : List ChangeSet) : List ChangeSet :=
  (reorderIndexed commitOrder css).map Prod.snd

/-! ## The cascade walker (`persist`, `remove`, `merge`, `cascade`) -/

mutual

/-- `UnitOfWork.persist(entity, visited, checkRemoveStack)`: no-op when the
entity is already on the persist stack (or, when requested, on the remove
stack); otherwise create an identifier placeholder when the entity has no
primary key, push it on the persist stack, remove it from the remove stack,
and cascade the persist over the graph. -/
def UnitOfWork.persist (M : Metadata) (fuel : Nat) (st : UoWState) (e : EntityId)
    (visited : List EntityId) (checkRemoveStack : Bool) :
    Option (UoWState × List EntityId) :=
  match fuel with
  | 0 => none
  | f + 1 =>
    if e ∈ st.persistStack then some (st, visited)
    else if checkRemoveStack ∧ e ∈ st.removeStack then some (st, visited)
    else
      match st.getEntity e with
      | none => some (st, visited)
      | some ent =>
        let st1 :=
          if ent.pk = none then
            { st with identifierMap := insertIdentifier st.identifierMap e }
          else st
        let st2 :=
          { st1 with
            persistStack := st1.persistStack ++ [e]
            removeStack := cleanUpStack st1.removeStack e }
        UnitOfWork.cascade M f st2 e Cascade.persist visited checkRemoveStack
termination_by structural fuel

/-- `UnitOfWork.remove(entity, visited)`: no-op when the entity is already on
the remove stack; otherwise push it on the remove stack when it has a primary
key, remove it from the persist stack, immediately drop its identity, and
cascade the remove over the graph. -/
def UnitOfWork.remove (M : Metadata) (fuel : Nat) (st : UoWState) (e : EntityId)
    (visited : List EntityId) : Option (UoWState × List EntityId) :=
  match fuel with
  | 0 => none
  | f + 1 =>
    if e ∈ st.removeStack then some (st, visited)
    else
      match st.getEntity e with
      | none => some (st, visited)
      | some ent =>
        let st1 :=
          if ent.pk.isSome then { st with removeStack := st.removeStack ++ [e] } else st
        let st2 := { st1 with persistStack := cleanUpStack st1.persistStack e }
        let st3 := st2.unsetIdentity e
        UnitOfWork.cascade M f st3 e Cascade.remove visited false
termination_by structural fuel

/-- `UnitOfWork.merge(entity, visited, mergeData)`: set the `__em`
back-reference; stop when the entity has no primary key; otherwise register it
in the identity map, capture its baseline snapshot when `mergeData` is set,
and cascade the merge over the graph. -/
def UnitOfWork.merge (M : Metadata) (fuel : Nat) (st : UoWState) (e : EntityId)
    (visited : List EntityId) (mergeData : Bool) : Option (UoWState × List EntityId) :=
  match fuel with
  | 0 => none
  | f + 1 =>
    match st.getEntity e with
    | none => some (st, visited)
    | some ent =>
      let st1 := st.setEm e
      match ent.pk with
      | none => some (st1, visited)
      | some p =>
        let st2 := { st1 with identityMap := aset st1.identityMap (keyOf ent.typeName p) e }
        let st3 :=
          if mergeData then { st2 with originalEntityData := aset st2.originalEntityData e ent.props }
          else st2
        UnitOfWork.cascade M f st3 e Cascade.merge visited false
termination_by structural fuel

/-- `UnitOfWork.cascade(entity, type, visited, checkRemoveStack)`: stop when
the entity was already visited in this pass; otherwise mark it visited,
dispatch the operation (recorded in the ghost `opLog`), and walk every
non-scalar relation property. -/
def UnitOfWork.cascade (M : Metadata) (fuel : Nat) (st : UoWState) (e : EntityId)
    (type : Cascade) (visited : List EntityId) (checkRemoveStack : Bool) :
    Option (UoWState × List EntityId) :=
  match fuel with
  | 0 => none
  | f + 1 =>
    if e ∈ visited then some (st, visited)
    else
      let vis1 := visited ++ [e]
      let step :=
        match type with
        | Cascade.persist =>
          UnitOfWork.persist M f { st with opLog := st.opLog ++ [(type, e)] } e vis1 checkRemoveStack
        | Cascade.merge =>
          UnitOfWork.merge M f { st with opLog := st.opLog ++ [(type, e)] } e vis1 true
        | Cascade.remove =>
          UnitOfWork.remove M f { st with opLog := st.opLog ++ [(type, e)] } e vis1
        | Cascade.all => some (st, vis1)
      match step with
      | none => none
      | some (st1, vis2) =>
        match st1.getEntity e with
        | none => some (st1, vis2)
        | some ent =>
          UnitOfWork.cascadeReferences M f st1
            ((M ent.typeName).properties.filter fun p => decide (p.reference ≠ ReferenceType.scalar))
            e type vis2 checkRemoveStack
termination_by structural fuel

/-- The loop of `cascade` over the entity's non-scalar relation properties. -/
def UnitOfWork.cascadeReferences (M : Metadata) (fuel : Nat) (st : UoWState)
    (props : List EntityProperty) (e : EntityId) (type : Cascade)
    (visited : List EntityId) (checkRemoveStack : Bool) :
    Option (UoWState × List EntityId) :=
  match fuel with
  | 0 => none
  | f + 1 =>
    match props with
    | [] => some (st, visited)
    | prop :: rest =>
      match UnitOfWork.cascadeReference M f st e prop type visited checkRemoveStack with
      | none => none
      | some (st1, vis1) =>
        UnitOfWork.cascadeReferences M f st1 rest e type vis1 checkRemoveStack
termination_by structural fuel

/-- `UnitOfWork.cascadeReference`: run the reference fix-up, check the
relation's cascade policy, then recurse into a to-one reference or into every
current item of a sufficiently initialized collection. -/
def UnitOfWork.cascadeReference (M : Metadata) (fuel : Nat) (st : UoWState) (e : EntityId)
    (prop : EntityProperty) (type : Cascade) (visited : List EntityId)
    (checkRemoveStack : Bool) : Option (UoWState × List EntityId) :=
  match fuel with
  | 0 => none
  | f + 1 =>
    let st0 := fixMissingReference st e prop
    if shouldCascade prop type then
      match unwrapReference st0 e prop with
      | some (PropValue.toOne (some t)) =>
        if prop.reference = ReferenceType.manyToOne ∨ prop.reference = ReferenceType.oneToOne then
          UnitOfWork.cascade M f st0 t type visited checkRemoveStack
        else some (st0, visited)
      | some (PropValue.toMany c) =>
        if (prop.reference = ReferenceType.oneToMany ∨ prop.reference = ReferenceType.manyToMany)
            ∧ collIsInitialized st0 c (type = Cascade.persist) then
          UnitOfWork.cascadeItems M f st0 c.items type visited checkRemoveStack
        else some (st0, visited)
      | _ => some (st0, visited)
    else some (st0, visited)
termination_by structural fuel

/-- The loop of `cascadeReference` over a collection's current items. -/
def UnitOfWork.cascadeItems (M : Metadata) (fuel : Nat) (st : UoWState)
    (items : List EntityId) (type : Cascade) (visited : List EntityId)
    (checkRemoveStack : Bool) : Option (UoWState × List EntityId) :=
  match fuel with
  | 0 => none
  | f + 1 =>
    match items with
    | [] => some (st, visited)
    | i :: rest =>
      match UnitOfWork.cascade M f st i type visited checkRemoveStack with
      | none => none
      | some (st1, vis1) => UnitOfWork.cascadeItems M f st1 rest type vis1 checkRemoveStack
termination_by structural fuel

end

/-! ## Change-set discovery (`computeChangeSets`, `findNewEntities`) -/

/-- Modelled from the spec: `ChangeSetComputer.computeChangeSet` (not among
the analysed sources).  Diff the entity's current field values against its
baseline snapshot, or treat every persistable field as changed when no
snapshot exists; when no snapshot existed or some field differs, build a
change set — CREATE when no primary key is assigned, else UPDATE — whose
payload contains only the changed fields. -/
def computeChangeSet (M : Metadata) (st : UoWState) (e : EntityId) (ent : Entity) :
    Option ChangeSet :=
  match alookup st.originalEntityData e with
  | none =>
    some { type := if ent.pk = none then ChangeSetType.create else ChangeSetType.update
           name := ent.typeName, collection := (M ent.typeName).collection
           entity := e, payload := ent.props, persisted := false }
  | some snap =>
    let payload := ent.props.filter fun kv => decide (alookup snap kv.1 ≠ some kv.2)
    if payload.isEmpty then none
    else
      some { type := if ent.pk = none then ChangeSetType.create else ChangeSetType.update
             name := ent.typeName, collection := (M ent.typeName).collection
             entity := e, payload := payload, persisted := false }

/-- `isCollectionSelfReferenced`: some current item without a baseline
snapshot is already in the visited set of this discovery pass. -/
def isCollectionSelfReferenced (st : UoWState) (c : Coll) (visited : List EntityId) : Bool :=
  (c.items.filter fun i => (alookup st.originalEntityData i).isNone).any
    fun i => visited.contains i

/-- The fresh empty collection `new Collection(parent)` assigned by
`processToManyReference`. -/
def emptyCollection : Coll :=
  { items := [], initialized := true, dirty := false, snapshot := [] }

mutual

/-- `UnitOfWork.findNewEntities(entity, visited)`: skip already-visited or
uninitialized entities; ensure an identifier placeholder when no primary key
is assigned; process every property's reference; then compute the entity's
change set and, when one exists, append it, drop the entity from the persist
stack and refresh its baseline snapshot. -/
def UnitOfWork.findNewEntities (M : Metadata) (fuel : Nat) (st : UoWState) (e : EntityId)
    (visited : List EntityId) : Option (UoWState × List EntityId) :=
  match fuel with
  | 0 => none
  | f + 1 =>
    if e ∈ visited then some (st, visited)
    else
      let vis1 := visited ++ [e]
      match st.getEntity e with
      | none => some (st, vis1)
      | some ent =>
        if ¬ ent.initialized then some (st, vis1)
        else
          let st1 :=
            if ent.pk = none ∧ e ∉ st.identifierMap then
              { st with identifierMap := insertIdentifier st.identifierMap e }
            else st
          match UnitOfWork.processReferences M f st1 (M ent.typeName).properties e vis1 with
          | none => none
          | some (st2, vis2) =>
            match st2.getEntity e with
            | none => some (st2, vis2)
            | some ent2 =>
              match computeChangeSet M st2 e ent2 with
              | none => some (st2, vis2)
              | some cs =>
                some ({ st2 with
                        changeSets := st2.changeSets ++ [cs]
                        persistStack := cleanUpStack st2.persistStack e
                        originalEntityData := aset st2.originalEntityData e ent2.props }, vis2)
termination_by structural fuel

/-- The loop of `findNewEntities` over the entity's properties. -/
def UnitOfWork.processReferences (M : Metadata) (fuel : Nat) (st : UoWState)
    (props : List EntityProperty) (e : EntityId) (visited : List EntityId) :
    Option (UoWState × List EntityId) :=
  match fuel with
  | 0 => none
  | f + 1 =>
    match props with
    | [] => some (st, visited)
    | prop :: rest =>
      match UnitOfWork.processReference M f st e prop visited with
      | none => none
      | some (st1, vis1) => UnitOfWork.processReferences M f st1 rest e vis1
termination_by structural fuel

/-- `UnitOfWork.processReference`: recurse into a loaded to-one reference, or
hand a dirty many-to-many collection to `processToManyReference`.  (The
collection test is the source's `Utils.isCollection(reference, prop, MANY_TO_MANY)`:
the value is a collection and the property is a many-to-many relation.) -/
def UnitOfWork.processReference (M : Metadata) (fuel : Nat) (st : UoWState) (e : EntityId)
    (prop : EntityProperty) (visited : List EntityId) : Option (UoWState × List EntityId) :=
  match fuel with
  | 0 => none
  | f + 1 =>
    match unwrapReference st e prop with
    | some (PropValue.toOne (some t)) =>
      if prop.reference = ReferenceType.manyToOne ∨ prop.reference = ReferenceType.oneToOne then
        UnitOfWork.processToOneReference M f st t visited
      else some (st, visited)
    | some (PropValue.toMany c) =>
      if prop.reference = ReferenceType.manyToMany ∧ c.dirty then
        UnitOfWork.processToManyReference M f st c visited e prop
      else some (st, visited)
    | _ => some (st, visited)
termination_by structural fuel

/-- `UnitOfWork.processToOneReference`: recurse into the referenced entity
when it has no baseline snapshot yet. -/
def UnitOfWork.processToOneReference (M : Metadata) (fuel : Nat) (st : UoWState)
    (t : EntityId) (visited : List EntityId) : Option (UoWState × List EntityId) :=
  match fuel with
  | 0 => none
  | f + 1 =>
    if (alookup st.originalEntityData t).isNone then
      UnitOfWork.findNewEntities M f st t visited
    else some (st, visited)
termination_by structural fuel

/-- `UnitOfWork.processToManyReference`: when the collection closes a cycle
back into the graph being discovered (`isCollectionSelfReferenced`), queue
`(entity, relationName, collection)` on the extra-update queue and replace the
entity's live collection value with a fresh empty collection, without
recursing; otherwise recurse into every current item that has no baseline
snapshot. -/
def UnitOfWork.processToManyReference (M : Metadata) (fuel : Nat) (st : UoWState)
    (c : Coll) (visited : List EntityId) (parent : EntityId) (prop : EntityProperty) :
    Option (UoWState × List EntityId) :=
  match fuel with
  | 0 => none
  | f + 1 =>
    if isCollectionSelfReferenced st c visited then
      some ({ (st.setProp parent prop.name (PropValue.toMany emptyCollection)) with
              extraUpdates := st.extraUpdates ++ [(parent, prop.name, PropValue.toMany c)] },
            visited)
    else
      UnitOfWork.processItems M f st
        (c.items.filter fun i => (alookup st.originalEntityData i).isNone) visited
termination_by structural fuel

/-- The loop of `processToManyReference` over the not-yet-snapshotted items. -/
def UnitOfWork.processItems (M : Metadata) (fuel : Nat) (st : UoWState)
    (items : List EntityId) (visited : List EntityId) : Option (UoWState × List EntityId) :=
  match fuel with
  | 0 => none
  | f + 1 =>
    match items with
    | [] => some (st, visited)
    | i :: rest =>
      match UnitOfWork.findNewEntities M f st i visited with
      | none => none
      | some (st1, vis1) => UnitOfWork.processItems M f st1 rest vis1
termination_by structural fuel

end

/-- Build the DELETE change set of each entity on the remove stack
(empty payload; the identity suffices). -/
def deleteChangeSet (M : Metadata) (st : UoWState) (e : EntityId) : ChangeSet :=
  let tn := ((st.getEntity e).map (·.typeName)).getD ""
  { type := ChangeSetType.delete, name := tn, collection := (M tn).collection
    entity := e, payload := [], persisted := false }

/-- The loop at the top of `computeChangeSets`: call `persist` (with a fresh
visited set and `checkRemoveStack`) on each of the pre-filtered identity-map
entities (the source filters `Object.values(identityMap)` by remove/orphan
stack membership before the loop starts). -/
def UnitOfWork.persistManaged (M : Metadata) (fuel : Nat) (st : UoWState)
    (roots : List EntityId) : Option UoWState :=
  match roots with
  | [] => some st
  | e :: rest =>
    match UnitOfWork.persist M fuel st e [] true with
    | none => none
    | some (st1, _) => UnitOfWork.persistManaged M fuel st1 rest

/-- The drain loop of `computeChangeSets`: shift entities off the persist
stack one at a time and run `findNewEntities` on each (fresh visited set per
call, as in the source's default argument). -/
def UnitOfWork.drainPersistStack (M : Metadata) (fuel : Nat) (st : UoWState) :
    Option UoWState :=
  match fuel with
  | 0 => none
  | f + 1 =>
    match st.persistStack with
    | [] => some st
    | e :: rest =>
      match UnitOfWork.findNewEntities M fuel { st with persistStack := rest } e [] with
      | none => none
      | some (st1, _) => UnitOfWork.drainPersistStack M f st1

/-- The orphan-removal fold of `computeChangeSets`: `remove` every entity on
the orphan-removal stack. -/
def UnitOfWork.removeOrphans (M : Metadata) (fuel : Nat) (st : UoWState)
    (orphans : List EntityId) : Option UoWState :=
  match orphans with
  | [] => some st
  | e :: rest =>
    match UnitOfWork.remove M fuel st e [] with
    | none => none
    | some (st1, _) => UnitOfWork.removeOrphans M fuel st1 rest

/-- `UnitOfWork.computeChangeSets`: reset the change-set list; re-`persist`
every managed entity not pending removal; drain the persist stack through
`findNewEntities`; fold the orphan-removal stack into `remove`; finally emit a
DELETE change set for every entity on the remove stack. -/
def UnitOfWork.computeChangeSets (M : Metadata) (fuel : Nat) (st : UoWState) :
    Option UoWState :=
  let st0 := { st with changeSets := [] }
  let roots := (st0.identityMap.map (·.2)).filter fun e =>
    decide (e ∉ st0.removeStack) && decide (e ∉ st0.orphanRemoveStack)
  match UnitOfWork.persistManaged M fuel st0 roots with
  | none => none
  | some st1 =>
    match UnitOfWork.drainPersistStack M fuel st1 with
    | none => none
    | some st2 =>
      match UnitOfWork.removeOrphans M fuel st2 st2.orphanRemoveStack with
      | none => none
      | some st3 =>
        some { st3 with
               changeSets := st3.changeSets ++ st3.removeStack.map (deleteChangeSet M st3) }

/-! ## The commit coordinator (`commit`, `persistToDatabase`, `lock`) -/

/-- A driver-level write failure (constraint violation, connectivity, ...). -/
inductive DriverErr where
  | err
deriving DecidableEq, Repr

/-- The storage driver interface consumed by the coordinator: persist one
change set (returning a generated identifier, if any), and synchronize one
relation collection. -/
structure Driver where
  persistChangeSet : ChangeSet → Except DriverErr (Option String)
  syncCollection : EntityId → String → Except DriverErr Unit

/-- Mark the change set at position `loc` of the change-set list as persisted
(the source mutates the shared change-set object; a change set not stored in
the list — the recomputed ones of the extra-update drain — has no position). -/
def markPersisted (st : UoWState) (loc : Option Nat) : UoWState :=
  match loc with
  | none => st
  | some i => { st with changeSets := st.changeSets.modify (fun c => { c with persisted := true }) i }

/-- The payload/property stripping of `commitChangeSet` for one owning to-one
property of a CREATE change set: when the referenced entity's own CREATE
change set is not yet physically persisted, queue the deferred assignment,
delete the live property and drop it from the payload (also inside the stored
change-set list when the change set lives there). -/
def stripProp (st : UoWState) (cs : ChangeSet) (loc : Option Nat) (prop : EntityProperty) :
    UoWState × ChangeSet :=
  match st.getProp cs.entity prop.name with
  | some (PropValue.toOne (some t)) =>
    match st.changeSets.find? fun c => c.entity == t with
    | some c2 =>
      if c2.type = ChangeSetType.create ∧ ¬ c2.persisted then
        let st1 := { (st.delProp cs.entity prop.name) with
                     extraUpdates := st.extraUpdates ++ [(cs.entity, prop.name, PropValue.toOne (some t))] }
        let cs1 := { cs with payload := aerase cs.payload prop.name }
        let st2 :=
          match loc with
          | none => st1
          | some i => { st1 with changeSets := st1.changeSets.modify (fun c => { c with payload := aerase c.payload prop.name }) i }
        (st2, cs1)
      else (st, cs)
    | none => (st, cs)
  | _ => (st, cs)

/-- The owning to-one scan of `commitChangeSet` over a CREATE change set's
properties. -/
def stripPendingRefs (st : UoWState) (cs : ChangeSet) (loc : Option Nat) :
    List EntityProperty → UoWState × ChangeSet
  | [] => (st, cs)
  | prop :: rest =>
    if ((prop.reference = ReferenceType.oneToOne ∧ prop.owner) ∨
        prop.reference = ReferenceType.manyToOne) then
      let (st1, cs1) := stripProp st cs loc prop
      stripPendingRefs st1 cs1 loc rest
    else stripPendingRefs st cs loc rest

/-- Assign the driver-generated identifier after a successful CREATE write
(modelled from the spec: the persister folds the assigned identifier back
into the entity and resolves its identifier placeholder). -/
def assignPk (st : UoWState) (e : EntityId) (pk : Option String) : UoWState :=
  match pk with
  | none => st
  | some p => st.updEntity e fun ent => { ent with pk := some p }

/-- `UnitOfWork.commitChangeSet`: for a CREATE change set first strip owning
to-one references to entities whose own CREATE is not yet persisted; hand the
change set to the driver (a failure propagates, keeping the state reached so
far); on success fold the result back into the registry — CREATE/UPDATE
re-merge the entity, DELETE unsets its identity.  (Hooks are not modelled:
the metadata model declares none.) -/
def UnitOfWork.commitChangeSet (M : Metadata) (fuel : Nat) (st : UoWState) (cs : ChangeSet)
    (loc : Option Nat) (d : Driver) : Option (Option DriverErr × UoWState) :=
  let (st1, cs1) :=
    if cs.type = ChangeSetType.create then
      stripPendingRefs st cs loc (M cs.name).properties
    else (st, cs)
  match d.persistChangeSet cs1 with
  | Except.error e => some (some e, st1)
  | Except.ok newPk =>
    let st2 := if cs1.type = ChangeSetType.create then assignPk st1 cs1.entity newPk else st1
    let st3 := markPersisted st2 loc
    match cs1.type with
    | ChangeSetType.create =>
      (UnitOfWork.merge M fuel st3 cs1.entity [] true).map fun r => (none, r.1)
    | ChangeSetType.update =>
      (UnitOfWork.merge M fuel st3 cs1.entity [] true).map fun r => (none, r.1)
    | ChangeSetType.delete => some (none, st3.unsetIdentity cs1.entity)

/-- The collection-synchronization loop at the end of `persistToDatabase`:
ask the driver to synchronize each queued collection, then take its membership
snapshot and clear its dirty flag. -/
def UnitOfWork.syncCollections (st : UoWState) (d : Driver) :
    List (EntityId × String) → Option DriverErr × UoWState
  | [] => (none, st)
  | (o, pn) :: rest =>
    match d.syncCollection o pn with
    | Except.error e => (some e, st)
    | Except.ok _ =>
      let st1 := st.updEntity o fun ent =>
        { ent with props :=
            match alookup ent.props pn with
            | some (PropValue.toMany c) =>
              aset ent.props pn (PropValue.toMany { c with snapshot := c.items, dirty := false })
            | _ => ent.props }
      UnitOfWork.syncCollections st1 d rest

/-- The extra-update drain loop of `persistToDatabase`: shift one deferred
`(entity, field, value)` assignment, re-apply it to the live entity, recompute
that entity's change set and, when one exists, commit it like a main-pass
change set. -/
def UnitOfWork.drainExtraUpdates (M : Metadata) (fuel : Nat) (st : UoWState) (d : Driver) :
    Option (Option DriverErr × UoWState) :=
  match fuel with
  | 0 => none
  | f + 1 =>
    match st.extraUpdates with
    | [] => some (UnitOfWork.syncCollections st d st.collectionUpdates)
    | (e, pn, v) :: rest =>
      let st1 := { st with extraUpdates := rest }.setProp e pn v
      match st1.getEntity e with
      | none => UnitOfWork.drainExtraUpdates M f st1 d
      | some ent =>
        match computeChangeSet M st1 e ent with
        | none => UnitOfWork.drainExtraUpdates M f st1 d
        | some cs =>
          match UnitOfWork.commitChangeSet M fuel st1 cs none d with
          | none => none
          | some (some e1, st2) => some (some e1, st2)
          | some (none, st2) => UnitOfWork.drainExtraUpdates M f st2 d

/-- The main loop of `persistToDatabase` over the ordered change-set list
(by position: `commitChangeSet` mutates the stored change sets in place). -/
def UnitOfWork.persistMainLoop (M : Metadata) (fuel : Nat) (i : Nat) (st : UoWState)
    (d : Driver) : Option (Option DriverErr × UoWState) :=
  match fuel with
  | 0 => none
  | f + 1 =>
    match st.changeSets[i]? with
    | none => UnitOfWork.drainExtraUpdates M fuel st d
    | some cs =>
      match UnitOfWork.commitChangeSet M fuel st cs (some i) d with
      | none => none
      | some (some e1, st1) => some (some e1, st1)
      | some (none, st1) => UnitOfWork.persistMainLoop M f (i + 1) st1 d

/-- `UnitOfWork.persistToDatabase`: commit every ordered change set, drain the
extra-update queue, then synchronize the queued collections. -/
def UnitOfWork.persistToDatabase (M : Metadata) (fuel : Nat) (st : UoWState) (d : Driver) :
    Option (Option DriverErr × UoWState) :=
  UnitOfWork.persistMainLoop M fuel 0 st d

/-- `UnitOfWork.postCommitCleanup`: clear the identifier map, all three
pending-operation stacks, the change-set list, the collection-update list and
the extra-update queue. -/
def UnitOfWork.postCommitCleanup (st : UoWState) : UoWState :=
  { st with
    identifierMap := []
    persistStack := []
    removeStack := []
    orphanRemoveStack := []
    changeSets := []
    collectionUpdates := []
    extraUpdates := [] }

/-- `UnitOfWork.commit()`: compute the change sets; when there is nothing to
do, clean up and stop without touching the driver; otherwise reorder the
change sets (the commit order produced by the `CommitOrderCalculator` — not
among the analysed sources — is passed in as the function `ord`) and run the
database pass.  Cleanup runs after a successful pass; a driver error
propagates to the caller with the state as the throw left it. -/
def UnitOfWork.commit (M : Metadata) (fuel : Nat) (st : UoWState) (d : Driver)
    (ord : List ChangeSet → List String) : Option (Option DriverErr × UoWState) :=
  match UnitOfWork.computeChangeSets M fuel st with
  | none => none
  | some st1 =>
    if st1.changeSets.isEmpty ∧ st1.collectionUpdates.isEmpty ∧ st1.extraUpdates.isEmpty then
      some (none, UnitOfWork.postCommitCleanup st1)
    else
      let st2 := { st1 with changeSets := reorderChangeSets (ord st1.changeSets) st1.changeSets }
      match UnitOfWork.persistToDatabase M fuel st2 d with
      | none => none
      | some (some e1, st3) => some (some e1, st3)
      | some (none, st3) => some (none, UnitOfWork.postCommitCleanup st3)

/-! ## Locking -/

/-- The synchronous validation failures of `lock`. -/
inductive LockErr where
  | entityNotManaged
  | notVersioned
  | lockFailedVersionMismatch
  | transactionRequired
deriving DecidableEq, Repr

/-- Read the entity's live version value (`entity[meta.versionProperty]`). -/
def getVersion (ent : Entity) (vp : String) : Option Nat :=
  match alookup ent.props vp with
  | some (PropValue.scalar v) => some v
  | _ => none

/-- `UnitOfWork.lockOptimistic`: fail when the type declares no version
field; no-op when no comparison value is supplied; otherwise re-initialize the
entity when unloaded (through the external read path `initFn`), then compare
the live version with the supplied one and fail on mismatch without mutating
anything. -/
def UnitOfWork.lockOptimistic (st : UoWState) (e : EntityId) (ent : Entity)
    (meta : EntityMetadata) (version : Option Nat) (initFn : UoWState → EntityId → UoWState) :
    Option LockErr × UoWState :=
  match meta.versionProperty with
  | none => (some LockErr.notVersioned, st)
  | some vp =>
    match version with
    | none => (none, st)
    | some v =>
      let st1 := if ent.initialized then st else initFn st e
      let ent1 := (st1.getEntity e).getD ent
      if getVersion ent1 vp = some v then (none, st1)
      else (some LockErr.lockFailedVersionMismatch, st1)

/-- `UnitOfWork.lockPessimistic`: requires an active transaction; the
row-lock read itself goes through the external query layer and has no effect
on the unit-of-work state. -/
def UnitOfWork.lockPessimistic (st : UoWState) (inTransaction : Bool) :
    Option LockErr × UoWState :=
  if inTransaction then (none, st) else (some LockErr.transactionRequired, st)

/-- `UnitOfWork.lock(entity, mode, version)`: fail when the entity is not in
the identity map; dispatch to the optimistic or pessimistic path. -/
def UnitOfWork.lock (M : Metadata) (st : UoWState) (e : EntityId) (mode : LockMode)
    (version : Option Nat) (inTransaction : Bool)
    (initFn : UoWState → EntityId → UoWState) : Option LockErr × UoWState :=
  match st.getEntity e with
  | none => (some LockErr.entityNotManaged, st)
  | some ent =>
    match ent.pk.bind fun p => st.getById ent.typeName p with
    | none => (some LockErr.entityNotManaged, st)
    | some _ =>
      let meta := M ent.typeName
      if mode = LockMode.optimistic then
        UnitOfWork.lockOptimistic st e ent meta version initFn
      else UnitOfWork.lockPessimistic st inTransaction

/-! ## The relation collection (`Collection` of the entity package) -/

/-- The synchronous validation failures of `Collection` mutations. -/
inductive CollErr where
  | notEntity
  | notInitialized
  | cannotModifyInverseCollection
deriving DecidableEq, Repr

/-- The unit-of-work calls a collection mutation can issue
(`scheduleOrphanRemoval` / `cancelOrphanRemoval`), recorded as events. -/
inductive OrphanCmd where
  | schedule (e : EntityId)
  | cancel (e : EntityId)
deriving DecidableEq, Repr

/-- The state of one `Collection` object: its relation property, its owner,
whether the owner has an `__em` back-reference, the current items, and the
`initialized` / `dirty` / membership-snapshot bookkeeping. -/
structure CollectionState where
  property : EntityProperty
  owner : EntityId
  ownerEm : Bool
  items : List EntityId
  initialized : Bool
  dirty : Bool
  snapshot : List EntityId
deriving DecidableEq, Repr

namespace Collection

/-- `Utils.isEntity`, modelled on this heap: the value is an entity object. -/
def isEntity (store : List (EntityId × Entity)) (i : EntityId) : Bool :=
  (alookup store i).isSome

/-- Whether the owning side of the relation is loaded on an item:
`item[mappedBy]` holds an initialized collection.  (A missing or
non-collection value fails the source's
`item[mappedBy] && item[mappedBy].isInitialized()` test.) -/
def ownLoaded (store : List (EntityId × Entity)) (mappedBy : String) (i : EntityId) : Bool :=
  match alookup store i with
  | some ent =>
    match alookup ent.props mappedBy with
    | some (PropValue.toMany c) => c.initialized
    | _ => false
  | none => false

/-- `Collection.validateModification`: modifying the inverse side of a
many-to-many relation fails when some given item's owning-side collection is
missing or not initialized (such a change would be ignored when persisting). -/
def validateModification (store : List (EntityId × Entity)) (c : CollectionState)
    (items : List EntityId) : Option CollErr :=
  let manyToManyInverse :=
    c.property.reference = ReferenceType.manyToMany ∧ c.property.mappedBy ≠ ""
  if manyToManyInverse ∧ items.any (fun i => ¬ ownLoaded store c.property.mappedBy i) then
    some CollErr.cannotModifyInverseCollection
  else none

/-- `Collection.checkInitialized`. -/
def checkInitialized (c : CollectionState) : Option CollErr :=
  if c.initialized then none else some CollErr.notInitialized

/-- `Collection.setDirty(dirty)`: the dirty flag is only ever set on the
owning side of the relation. -/
def setDirty (c : CollectionState) (dirty : Bool) : CollectionState :=
  { c with dirty := dirty && c.property.owner }

/-- `Collection.isDirty()`. -/
def isDirty (c : CollectionState) : Bool := c.dirty

/-- `Collection.takeSnapshot()`: record the current membership and clear the
dirty flag. -/
def takeSnapshot (c : CollectionState) : CollectionState :=
  setDirty { c with snapshot := c.items } false

/-- Modelled from the spec: `ArrayCollection.add` (superclass, not among the
analysed sources) — append each given item not already contained. -/
def superAdd : List EntityId → List EntityId → List EntityId
  | cur, [] => cur
  | cur, i :: rest => superAdd (if i ∈ cur then cur else cur ++ [i]) rest

/-- Modelled from the spec: `ArrayCollection.set` — replace the membership
with the given items. -/
def superSet (items : List EntityId) : List EntityId :=
  superAdd [] items

/-- Modelled from the spec: `ArrayCollection.remove` — drop the given items
from the membership. -/
def superRemove (cur items : List EntityId) : List EntityId :=
  cur.filter fun i => decide (i ∉ items)

/-- One method kind accepted by `Collection.modify`. -/
inductive ModifyKind where
  | add
  | remove
deriving DecidableEq, Repr

/-- `Collection.modify(method, items)`: require the collection initialized,
validate the modification, apply the superclass mutation, mark dirty. -/
def modify (store : List (EntityId × Entity)) (c : CollectionState) (method : ModifyKind)
    (items : List EntityId) : Option CollErr × CollectionState :=
  match checkInitialized c with
  | some e => (some e, c)
  | none =>
    match validateModification store c items with
    | some e => (some e, c)
    | none =>
      let newItems :=
        match method with
        | ModifyKind.add => superAdd c.items items
        | ModifyKind.remove => superRemove c.items items
      (none, setDirty { c with items := newItems } true)

/-- `Collection.add(...items)`: validate the item types, run `modify('add')`,
then cancel any pending orphan removal of the added items. -/
def add (store : List (EntityId × Entity)) (c : CollectionState) (items : List EntityId) :
    (Option CollErr × CollectionState) × List OrphanCmd :=
  if items.any fun i => ¬ isEntity store i then ((some CollErr.notEntity, c), [])
  else
    match modify store c ModifyKind.add items with
    | (some e, c1) => ((some e, c1), [])
    | (none, c1) => ((none, c1), if c.ownerEm then items.map OrphanCmd.cancel else [])

/-- `Collection.set(items)`: validate the item types and the modification,
replace the membership, mark dirty, then cancel any pending orphan removal of
the items. -/
def set (store : List (EntityId × Entity)) (c : CollectionState) (items : List EntityId) :
    (Option CollErr × CollectionState) × List OrphanCmd :=
  if items.any fun i => ¬ isEntity store i then ((some CollErr.notEntity, c), [])
  else
    match validateModification store c items with
    | some e => ((some e, c), [])
    | none =>
      let c1 := setDirty { c with items := superSet items } true
      ((none, c1), if c.ownerEm then items.map OrphanCmd.cancel else [])

/-- `Collection.remove(...items)`: run `modify('remove')`, then schedule
orphan removal of the removed items when the relation declares it and the
owner is managed. -/
def rem (store : List (EntityId × Entity)) (c : CollectionState) (items : List EntityId) :
    (Option CollErr × CollectionState) × List OrphanCmd :=
  match modify store c ModifyKind.remove items with
  | (some e, c1) => ((some e, c1), [])
  | (none, c1) =>
    ((none, c1),
     if c.property.orphanRemoval && c.ownerEm then items.map OrphanCmd.schedule else [])

/-- One collection call of a mutation sequence. -/
inductive CollOp where
  | add (items : List EntityId)
  | set (items : List EntityId)
  | rem (items : List EntityId)
  | setDirty (b : Bool)
deriving DecidableEq, Repr

/-- Apply one call; a thrown validation error leaves the collection object in
the state it had reached when the throw happened. -/
def applyOp (store : List (EntityId × Entity)) (c : CollectionState) : CollOp → CollectionState
  | CollOp.add items => ((add store c items).1).2
  | CollOp.set items => ((set store c items).1).2
  | CollOp.rem items => ((rem store c items).1).2
  | CollOp.setDirty b => setDirty c b

/-- Apply a sequence of calls. -/
def applyOps (store : List (EntityId × Entity)) (c : CollectionState)
    (ops : List CollOp) : CollectionState :=
  ops.foldl (applyOp store) c

end Collection

/-! ## Shared concrete instances for witnesses -/

/-- A metadata provider with no properties and no version field. -/
def M0 : Metadata := fun _ =>
  { name := "", collection := "", properties := [], versionProperty := none }

/-- A driver whose every write fails. -/
def dFail : Driver :=
  { persistChangeSet := fun _ => Except.error DriverErr.err
    syncCollection := fun _ _ => Except.error DriverErr.err }

/-- A driver whose every write succeeds (no generated identifier). -/
def dOk : Driver :=
  { persistChangeSet := fun _ => Except.ok none
    syncCollection := fun _ _ => Except.ok () }

/-- A trivial commit-order function. -/
def ord0 : List ChangeSet → List String := fun _ => []

/-- An empty unit-of-work state. -/
def stEmpty : UoWState :=
  { store := [], identityMap := [], originalEntityData := [], identifierMap := []
    persistStack := [], removeStack := [], orphanRemoveStack := [], changeSets := []
    collectionUpdates := [], extraUpdates := [], opLog := [] }

/-! ## C9: merge on an entity without a primary key -/

/-- C9: for every entity whose primary key is not yet set,
`merge(entity, visited, mergeData)` returns without adding an identity-map
entry, without capturing a baseline snapshot and without cascading: the
resulting state is exactly the input state with only the entity's `__em`
back-reference set, and the visited list is untouched. -/
theorem merge_without_pk_frame (M : Metadata) (fuel : Nat) (st : UoWState) (e : EntityId)
    (vis : List EntityId) (mergeData : Bool) (ent : Entity)
    (hent : st.getEntity e = some ent) (hpk : ent.pk = none) :
    UnitOfWork.merge M (fuel + 1) st e vis mergeData = some (st.setEm e, vis) := by
  simp [UnitOfWork.merge, hent, hpk]

/-- Concrete entity for the C9 witness. -/
def entW9 : Entity :=
  { typeName := "A", pk := none, initialized := true, em := false, props := [] }

/-- Concrete state for the C9 witness. -/
def stW9 : UoWState := { stEmpty with store := [(0, entW9)] }

/-- Witness for C9 at a concrete input. -/
theorem merge_without_pk_frame_witness :
    stW9.getEntity 0 = some entW9 ∧ entW9.pk = none ∧
      UnitOfWork.merge M0 1 stW9 0 [] true = some (stW9.setEm 0, []) :=
  ⟨by decide, by decide, merge_without_pk_frame M0 0 stW9 0 [] true entW9 (by decide) (by decide)⟩

/-! ## C6: optimistic locking -/

/-- C6: for a registry-managed entity, optimistic `lock` fails with the
not-versioned error when the type declares no version field; is a no-op when
no comparison version is supplied; and when the supplied version differs from
the live version of an initialized entity it fails with the version-mismatch
error leaving the whole state (identity map, snapshots, registry) unchanged. -/
theorem lock_optimistic_checks (M : Metadata) (st : UoWState) (e : EntityId) (ent : Entity)
    (p : String) (m : EntityId) (inTxn : Bool) (initFn : UoWState → EntityId → UoWState)
    (hent : st.getEntity e = some ent) (hpk : ent.pk = some p)
    (hmanaged : st.getById ent.typeName p = some m) :
    ((M ent.typeName).versionProperty = none →
      ∀ version, UnitOfWork.lock M st e LockMode.optimistic version inTxn initFn =
        (some LockErr.notVersioned, st)) ∧
    ((M ent.typeName).versionProperty ≠ none →
      UnitOfWork.lock M st e LockMode.optimistic none inTxn initFn = (none, st)) ∧
    (∀ vp v pv, (M ent.typeName).versionProperty = some vp → ent.initialized = true →
      getVersion ent vp = some pv → pv ≠ v →
      UnitOfWork.lock M st e LockMode.optimistic (some v) inTxn initFn =
        (some LockErr.lockFailedVersionMismatch, st)) := by
  refine ⟨fun hvp version => ?_, fun hvp => ?_, fun vp v pv hvp hinit hver hne => ?_⟩
  · simp [UnitOfWork.lock, hent, hpk, hmanaged, UnitOfWork.lockOptimistic, hvp]
  · rcases h : (M ent.typeName).versionProperty with _ | vp
    · exact absurd h hvp
    · simp [UnitOfWork.lock, hent, hpk, hmanaged, UnitOfWork.lockOptimistic, h]
  · have hv : getVersion ent vp ≠ some v := by simp [hver]; omega
    simp [UnitOfWork.lock, hent, hpk, hmanaged, UnitOfWork.lockOptimistic, hvp, hinit, hent, hv]

/-- Concrete metadata for the C6 witness: type `A` is versioned by `v`. -/
def MW6 : Metadata := fun n =>
  if n = "A" then
    { name := "A", collection := "a", properties := [], versionProperty := some "v" }
  else M0 n

/-- Concrete entity for the C6 witness (live version 3). -/
def entW6 : Entity :=
  { typeName := "A", pk := some "1", initialized := true, em := true
    props := [("v", PropValue.scalar 3)] }

/-- Concrete state for the C6 witness. -/
def stW6 : UoWState :=
  { stEmpty with store := [(0, entW6)], identityMap := [(keyOf "A" "1", 0)] }

/-- Witness for C6 at a concrete input: locking with the stale version 2
fails with the version-mismatch error and leaves the state unchanged. -/
theorem lock_optimistic_checks_witness :
    stW6.getEntity 0 = some entW6 ∧ entW6.pk = some "1" ∧
      stW6.getById entW6.typeName "1" = some 0 ∧
      UnitOfWork.lock MW6 stW6 0 LockMode.optimistic (some 2) false (fun s _ => s) =
        (some LockErr.lockFailedVersionMismatch, stW6) :=
  ⟨by decide, by decide, by decide,
    (lock_optimistic_checks MW6 stW6 0 entW6 "1" 0 false (fun s _ => s)
      (by decide) (by decide) (by decide)).2.2 "v" 2 3 (by decide) (by decide)
      (by decide) (by decide)⟩

/-! ## C10: a non-owning collection is never dirty -/

/-- `modify` keeps the relation property, and on a non-owning, clean
collection it leaves the dirty flag clear. -/
theorem modify_nonOwner_clean (store : List (EntityId × Entity)) (c : CollectionState)
    (mk : Collection.ModifyKind) (items : List EntityId)
    (howner : c.property.owner = false) (hd : c.dirty = false) :
    (Collection.modify store c mk items).2.property = c.property ∧
      (Collection.modify store c mk items).2.dirty = false := by
  unfold Collection.modify
  split
  · exact ⟨rfl, hd⟩
  · split
    · exact ⟨rfl, hd⟩
    · simp [Collection.setDirty, howner]

/-- One mutation step keeps a non-owning, clean collection clean (and does
not change its relation property). -/
theorem applyOp_nonOwner_clean (store : List (EntityId × Entity)) (c : CollectionState)
    (op : Collection.CollOp) (howner : c.property.owner = false) (hd : c.dirty = false) :
    (Collection.applyOp store c op).property = c.property ∧
      (Collection.applyOp store c op).dirty = false := by
  cases op with
  | add items =>
    have h := modify_nonOwner_clean store c Collection.ModifyKind.add items howner hd
    simp only [Collection.applyOp, Collection.add]
    split
    · exact ⟨rfl, hd⟩
    · rcases hm : Collection.modify store c Collection.ModifyKind.add items with ⟨e?, c1⟩
      rw [hm] at h
      cases e? <;> simp_all
  | set items =>
    simp only [Collection.applyOp, Collection.set]
    split
    · exact ⟨rfl, hd⟩
    · split
      · exact ⟨rfl, hd⟩
      · simp [Collection.setDirty, howner]
  | rem items =>
    have h := modify_nonOwner_clean store c Collection.ModifyKind.remove items howner hd
    simp only [Collection.applyOp, Collection.rem]
    rcases hm : Collection.modify store c Collection.ModifyKind.remove items with ⟨e?, c1⟩
    rw [hm] at h
    cases e? <;> simp_all
  | setDirty b => simp [Collection.applyOp, Collection.setDirty, howner]

/-- C10: a collection whose property is not the owning side of its relation
is never marked dirty: after any sequence of `add`, `set`, `remove` and
`setDirty` calls on a clean such collection, `isDirty()` still returns
`false` (so it is never picked up for collection synchronization). -/
theorem inverse_side_never_dirty (store : List (EntityId × Entity)) (c : CollectionState)
    (ops : List Collection.CollOp) (howner : c.property.owner = false)
    (hd : c.dirty = false) :
    Collection.isDirty (Collection.applyOps store c ops) = false := by
  induction ops generalizing c with
  | nil => exact hd
  | cons op rest ih =>
    have h := applyOp_nonOwner_clean store c op howner hd
    exact ih (Collection.applyOp store c op) (h.1 ▸ howner) h.2

/-- Concrete non-owning many-to-many collection for the C10 witness. -/
def collW10 : CollectionState :=
  { property :=
      { name := "books", reference := ReferenceType.manyToMany, cascade := []
        owner := false, nullable := false, orphanRemoval := false, type := "B"
        mappedBy := "tags" }
    owner := 5, ownerEm := false, items := [], initialized := true, dirty := false
    snapshot := [] }

/-- Witness for C10 at a concrete input (an `add`, a `setDirty(true)` and a
`set` still leave the collection clean). -/
theorem inverse_side_never_dirty_witness :
    collW10.property.owner = false ∧ collW10.dirty = false ∧
      Collection.isDirty
        (Collection.applyOps [(1, entW9)] collW10
          [Collection.CollOp.setDirty true, Collection.CollOp.add [1],
           Collection.CollOp.set [1]]) = false :=
  ⟨by decide, by decide,
    inverse_side_never_dirty [(1, entW9)] collW10
      [Collection.CollOp.setDirty true, Collection.CollOp.add [1], Collection.CollOp.set [1]]
      (by decide) (by decide)⟩

/-! ## C7: modifying the inverse side of a many-to-many collection -/

/-- Concrete heap for C7: item `1` whose owning-side collection (`"o"`) is
loaded (initialized), and item `2` whose owning side is absent. -/
def storeW7 : List (EntityId × Entity) :=
  [(1, { typeName := "B", pk := some "1", initialized := true, em := true
         props := [("o", PropValue.toMany
           { items := [], initialized := true, dirty := false, snapshot := [] })] }),
   (2, { typeName := "B", pk := some "2", initialized := true, em := true
         props := [] })]

/-- Concrete inverse-side many-to-many collection for C7. -/
def collW7 : CollectionState :=
  { property :=
      { name := "items", reference := ReferenceType.manyToMany, cascade := []
        owner := false, nullable := false, orphanRemoval := false, type := "B"
        mappedBy := "o" }
    owner := 5, ownerEm := false, items := [], initialized := true, dirty := false
    snapshot := [] }

/-- Counterexample to C7 as stated: adding item `1` — whose owning-side
collection IS already loaded — to the inverse side raises no error at all,
while the claim predicts the inverse-collection-modification error exactly in
this situation.  (The source throws in the opposite situation: when the
owning side of some added item is missing or not initialized.) -/
theorem inverse_collection_counterexample :
    collW7.property.reference = ReferenceType.manyToMany ∧
      collW7.property.mappedBy = "o" ∧
      Collection.ownLoaded storeW7 "o" 1 = true ∧
      ((Collection.add storeW7 collW7 [1]).1).1 = none := by decide

/-- `validateModification` on an inverse many-to-many collection fails when
some given item's owning side is not loaded. -/
theorem validateModification_some (store : List (EntityId × Entity)) (c : CollectionState)
    (items : List EntityId) (hmn : c.property.reference = ReferenceType.manyToMany)
    (hmb : c.property.mappedBy ≠ "")
    (hex : ∃ i ∈ items, Collection.ownLoaded store c.property.mappedBy i = false) :
    Collection.validateModification store c items = some CollErr.cannotModifyInverseCollection := by
  unfold Collection.validateModification
  rw [if_pos]
  refine ⟨⟨hmn, hmb⟩, ?_⟩
  simp only [List.any_eq_true]
  obtain ⟨i, hi, hL⟩ := hex
  exact ⟨i, hi, by simp [hL]⟩

/-- `validateModification` on an inverse many-to-many collection passes when
every given item's owning side is loaded. -/
theorem validateModification_none (store : List (EntityId × Entity)) (c : CollectionState)
    (items : List EntityId)
    (hnex : ¬ ∃ i ∈ items, Collection.ownLoaded store c.property.mappedBy i = false) :
    Collection.validateModification store c items = none := by
  unfold Collection.validateModification
  rw [if_neg]
  rintro ⟨-, hany⟩
  simp only [List.any_eq_true] at hany
  obtain ⟨i, hi, hL⟩ := hany
  exact hnex ⟨i, hi, by simpa using hL⟩

/-- `validateModification` never fires on a collection that is not the
inverse side of a many-to-many relation. -/
theorem validateModification_notInverse (store : List (EntityId × Entity))
    (c : CollectionState) (items : List EntityId)
    (hnc : ¬ (c.property.reference = ReferenceType.manyToMany ∧ c.property.mappedBy ≠ "")) :
    Collection.validateModification store c items = none := by
  unfold Collection.validateModification
  rw [if_neg]
  rintro ⟨h, -⟩
  exact hnc h

/-- C7 (amended): mutating (`add` or `set`) the non-owning side of a
many-to-many relation collection raises the inverse-collection-modification
error exactly when some item being added has its owning-side collection
missing or not initialized; when the error is raised the collection's
membership is unchanged; and the error is never raised on a collection that
is not the inverse side of a many-to-many relation. -/
theorem inverse_collection_modification (store : List (EntityId × Entity))
    (c : CollectionState) (items : List EntityId)
    (hmn : c.property.reference = ReferenceType.manyToMany)
    (hmb : c.property.mappedBy ≠ "") (hinit : c.initialized = true)
    (hent : ∀ i ∈ items, Collection.isEntity store i = true) :
    (((Collection.add store c items).1).1 = some CollErr.cannotModifyInverseCollection ↔
      ∃ i ∈ items, Collection.ownLoaded store c.property.mappedBy i = false) ∧
    (((Collection.add store c items).1).1.isSome →
      ((Collection.add store c items).1).2.items = c.items) ∧
    (((Collection.set store c items).1).1 = some CollErr.cannotModifyInverseCollection ↔
      ∃ i ∈ items, Collection.ownLoaded store c.property.mappedBy i = false) ∧
    (((Collection.set store c items).1).1.isSome →
      ((Collection.set store c items).1).2.items = c.items) ∧
    (∀ c' : CollectionState,
      ¬ (c'.property.reference = ReferenceType.manyToMany ∧ c'.property.mappedBy ≠ "") →
      ((Collection.add store c' items).1).1 ≠ some CollErr.cannotModifyInverseCollection ∧
      ((Collection.set store c' items).1).1 ≠ some CollErr.cannotModifyInverseCollection) := by
  have hno : (items.any fun i => ¬ Collection.isEntity store i) = false := by
    simp only [List.any_eq_false]
    intro i hi
    simp [hent i hi]
  have hchk : Collection.checkInitialized c = none := by
    simp [Collection.checkInitialized, hinit]
  have hne : ¬ ∃ x ∈ items, Collection.isEntity store x = false := by
    rintro ⟨x, hx, hfalse⟩
    rw [hent x hx] at hfalse
    simp at hfalse
  by_cases hex : ∃ i ∈ items, Collection.ownLoaded store c.property.mappedBy i = false
  · have hvm := validateModification_some store c items hmn hmb hex
    refine ⟨?_, ?_, ?_, ?_, ?_⟩
    · simp [Collection.add, Collection.modify, hno, hchk, hvm, hex, hne]
    · simp [Collection.add, Collection.modify, hno, hchk, hvm, hne]
    · simp [Collection.set, hno, hvm, hex, hne]
    · simp [Collection.set, hno, hvm, hne]
    · intro c' hnc
      have hvm' := validateModification_notInverse store c' items hnc
      constructor
      · unfold Collection.add Collection.modify
        split
        · simp
        · rw [hvm']
          cases hci : Collection.checkInitialized c' with
          | none => simp
          | some e =>
            have : e = CollErr.notInitialized := by
              unfold Collection.checkInitialized at hci
              split at hci <;> simp_all
            simp [this]
      · unfold Collection.set
        split
        · simp
        · rw [hvm']
          simp
  · have hvm := validateModification_none store c items hex
    refine ⟨?_, ?_, ?_, ?_, ?_⟩
    · simp [Collection.add, Collection.modify, hno, hchk, hvm, hex, hne]
    · simp [Collection.add, Collection.modify, hno, hchk, hvm, hne]
    · simp [Collection.set, hno, hvm, hex, hne]
    · simp [Collection.set, hno, hvm, hne]
    · intro c' hnc
      have hvm' := validateModification_notInverse store c' items hnc
      constructor
      · unfold Collection.add Collection.modify
        split
        · simp
        · rw [hvm']
          cases hci : Collection.checkInitialized c' with
          | none => simp
          | some e =>
            have : e = CollErr.notInitialized := by
              unfold Collection.checkInitialized at hci
              split at hci <;> simp_all
            simp [this]
      · unfold Collection.set
        split
        · simp
        · rw [hvm']
          simp

/-- Witness for C7 (amended) at a concrete input: adding item `2`, whose
owning side is absent, raises the error and leaves the membership unchanged. -/
theorem inverse_collection_modification_witness :
    (collW7.property.reference = ReferenceType.manyToMany ∧ collW7.property.mappedBy ≠ "" ∧
      collW7.initialized = true ∧ ∀ i ∈ [2], Collection.isEntity storeW7 i = true) ∧
    ((Collection.add storeW7 collW7 [2]).1).1 = some CollErr.cannotModifyInverseCollection ∧
    ((Collection.add storeW7 collW7 [2]).1).2.items = collW7.items :=
  ⟨⟨by decide, by decide, by decide, by decide⟩,
   (inverse_collection_modification storeW7 collW7 [2] (by decide) (by decide) (by decide)
      (by decide)).1.mpr ⟨2, by decide, by decide⟩,
   (inverse_collection_modification storeW7 collW7 [2] (by decide) (by decide) (by decide)
      (by decide)).2.1 (by decide)⟩

/-! ## C3: per-cycle state after commit -/

/-- Concrete state for the C3 counterexample: one managed entity scheduled
for removal. -/
def stC3 : UoWState :=
  { stEmpty with
    store := [(0, { typeName := "A", pk := some "1", initialized := true, em := true
                    props := [] })]
    identityMap := [(keyOf "A" "1", 0)]
    removeStack := [0] }

/-- Counterexample to C3 as stated: when the driver write throws, `commit`
propagates the error without running `postCommitCleanup`, so the remove stack
and the change-set list are NOT empty after the call (there is no
try/finally around the database pass in `commit`). -/
theorem commit_cleanup_counterexample :
    (UnitOfWork.commit M0 5 stC3 dFail ord0).map
        (fun r => (r.1.isSome, r.2.removeStack.isEmpty, r.2.changeSets.isEmpty)) =
      some (true, false, false) := by decide

/-- C3 (amended): after a `commit()` call that completes without a driver
error — the database pass succeeded or there was nothing to do — the
identifier map, the persist/remove/orphan-removal stacks, the change-set
list, the collection-update list and the extra-update queue are all empty.
(When a driver call throws, the error propagates and this per-cycle state is
left in place.) -/
theorem commit_cleanup_on_success (M : Metadata) (fuel : Nat) (st : UoWState) (d : Driver)
    (ord : List ChangeSet → List String) (st' : UoWState)
    (h : UnitOfWork.commit M fuel st d ord = some (none, st')) :
    st'.identifierMap = [] ∧ st'.persistStack = [] ∧ st'.removeStack = [] ∧
      st'.orphanRemoveStack = [] ∧ st'.changeSets = [] ∧ st'.collectionUpdates = [] ∧
      st'.extraUpdates = [] := by
  unfold UnitOfWork.commit at h
  rcases h1 : UnitOfWork.computeChangeSets M fuel st with _ | st1 <;> rw [h1] at h
  · exact absurd h (by simp)
  · dsimp only [] at h
    split at h
    · rw [Option.some_inj, Prod.mk.injEq] at h
      rw [← h.2]
      simp [UnitOfWork.postCommitCleanup]
    · rcases h2 : UnitOfWork.persistToDatabase M fuel
          { st1 with changeSets := reorderChangeSets (ord st1.changeSets) st1.changeSets } d
        with _ | ⟨_ | e1, st3⟩ <;> rw [h2] at h
      · exact absurd h (by simp)
      · rw [Option.some_inj, Prod.mk.injEq] at h
        rw [← h.2]
        simp [UnitOfWork.postCommitCleanup]
      · exact absurd h (by simp)

/-- Witness for C3 (amended) at a concrete input (a commit with nothing to
do succeeds and leaves the per-cycle state empty). -/
theorem commit_cleanup_on_success_witness :
    UnitOfWork.commit M0 1 stEmpty dOk ord0 = some (none, stEmpty) ∧
      (stEmpty.identifierMap = [] ∧ stEmpty.persistStack = [] ∧ stEmpty.removeStack = [] ∧
        stEmpty.orphanRemoveStack = [] ∧ stEmpty.changeSets = [] ∧
        stEmpty.collectionUpdates = [] ∧ stEmpty.extraUpdates = []) :=
  ⟨by decide, commit_cleanup_on_success M0 1 stEmpty dOk ord0 stEmpty (by decide)⟩

/-! ## C1: the ordering produced by `reorderChangeSets` -/

/-- The kind-order key of an annotated change set. -/
def tIdx (a : Nat × ChangeSet) : Int := jsIndexOf typeOrder a.2.type

/-- The secondary key of an annotated change set: the index of its type name
in the reversed commit order for DELETE, in the forward commit order
otherwise. -/
def sIdx (co : List String) (a : Nat × ChangeSet) : Int :=
  jsIndexOf (if a.2.type = ChangeSetType.delete then co.reverse else co) a.2.name

/-- The kind order distinguishes all three change-set kinds. -/
theorem tIdx_type_inj : ∀ t u : ChangeSetType,
    jsIndexOf typeOrder t = jsIndexOf typeOrder u ↔ t = u := by
  intro t u
  cases t <;> cases u <;> decide

/-- The comparator order is the lexicographic order on
(kind index, commit-order index, original position). -/
theorem csLE_iff (co : List String) (a b : Nat × ChangeSet) :
    csLE co a b ↔
      (tIdx a < tIdx b ∨
        (a.2.type = b.2.type ∧
          (sIdx co a < sIdx co b ∨ (sIdx co a = sIdx co b ∧ (a.1 : Int) ≤ (b.1 : Int))))) := by
  by_cases ht : a.2.type = b.2.type
  · have htI : tIdx a = tIdx b := by unfold tIdx; rw [ht]
    by_cases hd : a.2.type = ChangeSetType.delete
    · have hd' : b.2.type = ChangeSetType.delete := ht ▸ hd
      have hsa : sIdx co a = jsIndexOf co.reverse a.2.name := by unfold sIdx; rw [if_pos hd]
      have hsb : sIdx co b = jsIndexOf co.reverse b.2.name := by unfold sIdx; rw [if_pos hd']
      unfold csLE csCompare csCompareBy
      rw [if_neg (not_not_intro ht), if_pos hd, ← hsa, ← hsb]
      simp only [ht, true_and]
      split <;> omega
    · have hd' : ¬ b.2.type = ChangeSetType.delete := ht ▸ hd
      have hsa : sIdx co a = jsIndexOf co a.2.name := by unfold sIdx; rw [if_neg hd]
      have hsb : sIdx co b = jsIndexOf co b.2.name := by unfold sIdx; rw [if_neg hd']
      unfold csLE csCompare csCompareBy
      rw [if_neg (not_not_intro ht), if_neg hd, ← hsa, ← hsb]
      simp only [ht, true_and]
      split <;> omega
  · have htne : tIdx a ≠ tIdx b := fun h => ht ((tIdx_type_inj _ _).mp h)
    unfold csLE csCompare csCompareBy
    rw [if_pos ht]
    show (if tIdx a = tIdx b then _ else tIdx a - tIdx b) ≤ 0 ↔ _
    rw [if_neg htne]
    simp only [ht, false_and, or_false]
    omega

/-- The comparator order is total. -/
theorem csLE_total (co : List String) (a b : Nat × ChangeSet) :
    csLE co a b ∨ csLE co b a := by
  rw [csLE_iff, csLE_iff]
  by_cases ht : a.2.type = b.2.type
  · have htI : tIdx a = tIdx b := by unfold tIdx; rw [ht]
    simp only [ht, true_and]
    omega
  · have ht' : ¬ b.2.type = a.2.type := fun h => ht h.symm
    have htne : tIdx a ≠ tIdx b := fun h => ht ((tIdx_type_inj _ _).mp h)
    simp only [ht, ht', false_and, or_false]
    omega

/-- The comparator order is transitive. -/
theorem csLE_trans (co : List String) (a b c : Nat × ChangeSet) :
    csLE co a b → csLE co b c → csLE co a c := by
  rw [csLE_iff, csLE_iff, csLE_iff]
  intro h1 h2
  by_cases hab : a.2.type = b.2.type <;> by_cases hbc : b.2.type = c.2.type
  · have hac : a.2.type = c.2.type := hab.trans hbc
    have e1 : tIdx a = tIdx b := by unfold tIdx; rw [hab]
    have e2 : tIdx b = tIdx c := by unfold tIdx; rw [hbc]
    have e3 : sIdx co a = jsIndexOf (if c.2.type = ChangeSetType.delete then co.reverse else co) a.2.name := by
      unfold sIdx; rw [hab, hbc]
    have e4 : sIdx co b = jsIndexOf (if c.2.type = ChangeSetType.delete then co.reverse else co) b.2.name := by
      unfold sIdx; rw [hbc]
    simp only [hab, hbc, hac, true_and] at h1 h2 ⊢
    rw [e3] at h1 ⊢
    rw [e4] at h1 h2
    omega
  · have hac : ¬ a.2.type = c.2.type := fun h => hbc (hab ▸ h)
    have e1 : tIdx a = tIdx b := by unfold tIdx; rw [hab]
    simp only [hab, hbc, hac, true_and, false_and, or_false] at h1 h2 ⊢
    have htne : tIdx b ≠ tIdx c := fun h => hbc ((tIdx_type_inj _ _).mp h)
    omega
  · have hac : ¬ a.2.type = c.2.type := fun h => hab (h ▸ hbc.symm)
    simp only [hab, hbc, hac, true_and, false_and, or_false] at h1 h2 ⊢
    have e2 : tIdx b = tIdx c := by unfold tIdx; rw [hbc]
    omega
  · simp only [hab, hbc, false_and, or_false] at h1 h2
    rcases eq_or_ne a.2.type c.2.type with hac | hac
    · have e : tIdx a = tIdx c := by unfold tIdx; rw [hac]
      omega
    · simp only [hac, false_and, or_false]
      omega

/-- The sort in `reorderChangeSets` is sorted for the comparator order. -/
theorem reorderIndexed_sorted (co : List String) (css : List ChangeSet) :
    List.Sorted (csLE co) (reorderIndexed co css) := by
  haveI : IsTotal (Nat × ChangeSet) (csLE co) := ⟨csLE_total co⟩
  haveI : IsTrans (Nat × ChangeSet) (csLE co) := ⟨fun a b c => csLE_trans co a b c⟩
  exact List.sorted_insertionSort _ _

/-- The second component of an enumerated-list element is a list element. -/
theorem snd_mem_of_mem_enumFrom {α : Type} :
    ∀ (l : List α) (n : Nat) (x : Nat × α), x ∈ l.enumFrom n → x.2 ∈ l := by
  intro l
  induction l with
  | nil => intro n x h; cases h
  | cons a t ih =>
    intro n x h
    rcases h with _ | h
    · exact List.mem_cons_self _ _
    · exact List.mem_cons_of_mem _ (ih (n + 1) x (by assumption))

/-- Elements of the sorted annotated list carry change sets of the input. -/
theorem reorderIndexed_mem (co : List String) (css : List ChangeSet) (x : Nat × ChangeSet)
    (hx : x ∈ reorderIndexed co css) : x.2 ∈ css := by
  have hp : List.Perm (reorderIndexed co css) css.enum := List.perm_insertionSort _ _
  exact snd_mem_of_mem_enumFrom css 0 x (hp.mem_iff.mp hx)

/-- The original positions in the sorted annotated list are pairwise
distinct. -/
theorem reorderIndexed_fst_nodup (co : List String) (css : List ChangeSet) :
    ((reorderIndexed co css).map Prod.fst).Nodup := by
  have hp : List.Perm (reorderIndexed co css) css.enum := List.perm_insertionSort _ _
  exact ((hp.map Prod.fst).nodup_iff).mpr (List.nodup_enum_map_fst css)

/-- `jsIndexOf` is injective on the members of a list. -/
theorem jsIndexOf_inj {l : List String} {x y : String}
    (hx : x ∈ l) (hy : y ∈ l) (h : jsIndexOf l x = jsIndexOf l y) : x = y := by
  unfold jsIndexOf at h
  rw [if_pos hx, if_pos hy] at h
  exact (List.indexOf_inj hx hy).mp (by exact_mod_cast h)

/-- On a duplicate-free list, the index in the reversed list is the mirrored
index in the forward list. -/
theorem jsIndexOf_reverse {l : List String} (hn : l.Nodup) {x : String} (hx : x ∈ l) :
    jsIndexOf l.reverse x = (l.length : Int) - 1 - jsIndexOf l x := by
  have hx' : x ∈ l.reverse := List.mem_reverse.mpr hx
  unfold jsIndexOf
  rw [if_pos hx', if_pos hx]
  have hlt : l.indexOf x < l.length := List.indexOf_lt_length.mpr hx
  have hrn : l.reverse.Nodup := List.nodup_reverse.mpr hn
  have hlt2 : l.length - 1 - l.indexOf x < l.reverse.length := by
    rw [List.length_reverse]; omega
  have hb : l.length - 1 - (l.length - 1 - l.indexOf x) < l.length := by omega
  have hget2 : l.reverse.get ⟨l.length - 1 - l.indexOf x, hlt2⟩ = x := by
    rw [List.get_reverse' l ⟨l.length - 1 - l.indexOf x, hlt2⟩ hb]
    have : l.length - 1 - (l.length - 1 - l.indexOf x) = l.indexOf x := by omega
    rw [show (⟨l.length - 1 - (l.length - 1 - l.indexOf x), hb⟩ : Fin l.length) =
        ⟨l.indexOf x, hlt⟩ from Fin.ext this]
    exact List.indexOf_get hlt
  have hidx : l.reverse.indexOf x = l.length - 1 - l.indexOf x := by
    have h2 := List.get_indexOf hrn ⟨l.length - 1 - l.indexOf x, hlt2⟩
    rw [hget2] at h2
    exact h2
  rw [hidx]
  omega

/-- The ordering C1 asserts between two position-annotated change sets `a`
before `b` in the sorted list: kinds in CREATE, UPDATE, DELETE order;
CREATE/UPDATE of different type names in forward commit order; DELETE of
different type names in exact reverse commit order; equal keys keep the
original relative positions. -/
def csOrderedPair (co : List String) (a b : Nat × ChangeSet) : Prop :=
  (a.2.type ≠ b.2.type →
    jsIndexOf typeOrder a.2.type < jsIndexOf typeOrder b.2.type) ∧
  (a.2.type = b.2.type → a.2.type ≠ ChangeSetType.delete → a.2.name ≠ b.2.name →
    jsIndexOf co a.2.name < jsIndexOf co b.2.name) ∧
  (a.2.type = ChangeSetType.delete → b.2.type = ChangeSetType.delete → a.2.name ≠ b.2.name →
    jsIndexOf co b.2.name < jsIndexOf co a.2.name) ∧
  (a.2.type = b.2.type → a.2.name = b.2.name → a.1 < b.1)

/-- C1: `reorderChangeSets` (shown on its position-annotated list
`reorderIndexed`, of which it returns the second projection) puts any two
change sets in the order `csOrderedPair`: primarily by operation kind in the
order CREATE, UPDATE, DELETE; two CREATE or UPDATE change sets of different
entity types by the forward commit order; two DELETE change sets of different
entity types by the exact reverse of the commit order; and any two change
sets equal under these keys keep their original relative positions (the sort
is stable). -/
theorem reorderChangeSets_ordering (co : List String) (css : List ChangeSet)
    (hnd : co.Nodup) (hmem : ∀ cs ∈ css, cs.name ∈ co) :
    ∀ i j (hi : i < (reorderIndexed co css).length)
      (hj : j < (reorderIndexed co css).length), i < j →
      csOrderedPair co ((reorderIndexed co css).get ⟨i, hi⟩)
        ((reorderIndexed co css).get ⟨j, hj⟩) := by
  intro i j hi hj hij
  have hsorted := reorderIndexed_sorted co css
  have hR : csLE co ((reorderIndexed co css).get ⟨i, hi⟩)
      ((reorderIndexed co css).get ⟨j, hj⟩) :=
    hsorted.rel_get_of_lt (by exact hij)
  set a := (reorderIndexed co css).get ⟨i, hi⟩ with ha
  set b := (reorderIndexed co css).get ⟨j, hj⟩ with hb
  have hma : a ∈ reorderIndexed co css := by rw [ha]; exact List.get_mem _ _ _
  have hmb : b ∈ reorderIndexed co css := by rw [hb]; exact List.get_mem _ _ _
  have hna : a.2.name ∈ co := hmem _ (reorderIndexed_mem co css a hma)
  have hnb : b.2.name ∈ co := hmem _ (reorderIndexed_mem co css b hmb)
  have hfst : a.1 ≠ b.1 := by
    intro hEq
    have hinj := List.nodup_iff_injective_get.mp (reorderIndexed_fst_nodup co css)
    have hlen : ((reorderIndexed co css).map Prod.fst).length =
        (reorderIndexed co css).length := List.length_map _ _
    have h1 : ((reorderIndexed co css).map Prod.fst).get ⟨i, by omega⟩ = a.1 := by
      rw [List.get_map]
    have h2 : ((reorderIndexed co css).map Prod.fst).get ⟨j, by omega⟩ = b.1 := by
      rw [List.get_map]
    have hgot := hinj (h1.trans (hEq.trans h2.symm))
    have hv := congrArg Fin.val hgot
    simp only [] at hv
    omega
  rw [csLE_iff] at hR
  refine ⟨?_, ?_, ?_, ?_⟩
  · intro htne
    rcases hR with h | ⟨hteq, -⟩
    · exact h
    · exact absurd hteq htne
  · intro hteq hnotdel hnne
    rcases hR with h | ⟨-, h2⟩
    · exfalso
      have : tIdx a = tIdx b := by unfold tIdx; rw [hteq]
      omega
    · have hsa : sIdx co a = jsIndexOf co a.2.name := by unfold sIdx; rw [if_neg hnotdel]
      have hsb : sIdx co b = jsIndexOf co b.2.name := by
        unfold sIdx; rw [if_neg (hteq ▸ hnotdel)]
      rcases h2 with h | ⟨hEq, -⟩
      · rw [hsa, hsb] at h; exact h
      · rw [hsa, hsb] at hEq
        exact absurd (jsIndexOf_inj hna hnb hEq) hnne
  · intro hda hdb hnne
    rcases hR with h | ⟨hteq, h2⟩
    · exfalso
      have : tIdx a = tIdx b := by unfold tIdx; rw [hda, hdb]
      omega
    · have hsa : sIdx co a = (co.length : Int) - 1 - jsIndexOf co a.2.name := by
        unfold sIdx; rw [if_pos hda]; exact jsIndexOf_reverse hnd hna
      have hsb : sIdx co b = (co.length : Int) - 1 - jsIndexOf co b.2.name := by
        unfold sIdx; rw [if_pos hdb]; exact jsIndexOf_reverse hnd hnb
      rcases h2 with h | ⟨hEq, -⟩
      · rw [hsa, hsb] at h; omega
      · exfalso
        rw [hsa, hsb] at hEq
        have : jsIndexOf co a.2.name = jsIndexOf co b.2.name := by omega
        exact absurd (jsIndexOf_inj hna hnb this) hnne
  · intro hteq hnameeq
    rcases hR with h | ⟨-, h2⟩
    · exfalso
      have : tIdx a = tIdx b := by unfold tIdx; rw [hteq]
      omega
    · have hs : sIdx co a = sIdx co b := by unfold sIdx; rw [hteq, hnameeq]
      rcases h2 with h | ⟨-, hle⟩
      · omega
      · have : (a.1 : Int) ≠ (b.1 : Int) := by exact_mod_cast hfst
        omega

/-- Concrete commit order for the C1 witness. -/
def co1 : List String := ["A", "B"]

/-- Concrete change sets for the C1 witness: mixed kinds, both type names,
and a stability pair (two UPDATE `B` change sets). -/
def cssW1 : List ChangeSet :=
  [{ type := ChangeSetType.update, name := "B", collection := "b", entity := 1
     payload := [], persisted := false },
   { type := ChangeSetType.create, name := "B", collection := "b", entity := 2
     payload := [], persisted := false },
   { type := ChangeSetType.create, name := "A", collection := "a", entity := 3
     payload := [], persisted := false },
   { type := ChangeSetType.delete, name := "A", collection := "a", entity := 4
     payload := [], persisted := false },
   { type := ChangeSetType.delete, name := "B", collection := "b", entity := 5
     payload := [], persisted := false },
   { type := ChangeSetType.update, name := "B", collection := "b", entity := 6
     payload := [], persisted := false }]

/-- Witness for C1 at a concrete input. -/
theorem reorderChangeSets_ordering_witness :
    co1.Nodup ∧ (cssW1.all fun cs => decide (cs.name ∈ co1)) = true ∧
      csOrderedPair co1 ((reorderIndexed co1 cssW1).get ⟨0, by decide⟩)
        ((reorderIndexed co1 cssW1).get ⟨1, by decide⟩) :=
  ⟨by decide, by decide,
   reorderChangeSets_ordering co1 cssW1 (by decide) (by decide) 0 1 (by decide) (by decide)
     (by decide)⟩

/-! ## C5: idempotence of persist/remove within one cycle -/

/-- State evolution under a PERSIST cascade: the remove stack only loses
elements, the persist stack only gains elements, and the change-set list is
untouched. -/
def PersExt (st st' : UoWState) : Prop :=
  (∀ x, x ∈ st'.removeStack → x ∈ st.removeStack) ∧
  (∀ x, x ∈ st.persistStack → x ∈ st'.persistStack) ∧
  st'.changeSets = st.changeSets

theorem persExt_refl (st : UoWState) : PersExt st st :=
  ⟨fun _ h => h, fun _ h => h, rfl⟩

theorem persExt_trans {s1 s2 s3 : UoWState} (h1 : PersExt s1 s2) (h2 : PersExt s2 s3) :
    PersExt s1 s3 :=
  ⟨fun x h => h1.1 x (h2.1 x h), fun x h => h2.2.1 x (h1.2.1 x h), h2.2.2.trans h1.2.2⟩

theorem mem_cleanUpStack {stack : List EntityId} {e x : EntityId}
    (h : x ∈ cleanUpStack stack e) : x ∈ stack :=
  List.mem_of_mem_filter h

theorem not_mem_cleanUpStack (stack : List EntityId) (e : EntityId) :
    e ∉ cleanUpStack stack e := by
  intro h
  have := List.of_mem_filter h
  simp at this

/-- Every function of the PERSIST cascade family evolves the state by
`PersExt`. -/
theorem persistFam (M : Metadata) : ∀ fuel : Nat,
    (∀ st e vis chk r, UnitOfWork.persist M fuel st e vis chk = some r → PersExt st r.1) ∧
    (∀ st e vis chk r,
      UnitOfWork.cascade M fuel st e Cascade.persist vis chk = some r → PersExt st r.1) ∧
    (∀ st props e vis chk r,
      UnitOfWork.cascadeReferences M fuel st props e Cascade.persist vis chk = some r →
        PersExt st r.1) ∧
    (∀ st e prop vis chk r,
      UnitOfWork.cascadeReference M fuel st e prop Cascade.persist vis chk = some r →
        PersExt st r.1) ∧
    (∀ st items vis chk r,
      UnitOfWork.cascadeItems M fuel st items Cascade.persist vis chk = some r →
        PersExt st r.1) := by
  intro fuel
  induction fuel with
  | zero =>
    refine ⟨?_, ?_, ?_, ?_, ?_⟩ <;> intro st
    · intro e vis chk r h; simp [UnitOfWork.persist] at h
    · intro e vis chk r h; simp [UnitOfWork.cascade] at h
    · intro props e vis chk r h; simp [UnitOfWork.cascadeReferences] at h
    · intro e prop vis chk r h; simp [UnitOfWork.cascadeReference] at h
    · intro items vis chk r h; simp [UnitOfWork.cascadeItems] at h
  | succ f ih =>
    obtain ⟨ihP, ihC, ihCRs, ihCR, ihCI⟩ := ih
    refine ⟨?_, ?_, ?_, ?_, ?_⟩
    · -- persist
      intro st e vis chk r h
      rw [UnitOfWork.persist] at h
      split at h
      · cases h; exact persExt_refl st
      · split at h
        · cases h; exact persExt_refl st
        · split at h
          · cases h; exact persExt_refl st
          · simp only [] at h
            refine persExt_trans ?_ (ihC _ _ _ _ _ h)
            refine ⟨?_, ?_, ?_⟩
            · intro x hx
              have hx2 := mem_cleanUpStack hx
              split at hx2 <;> exact hx2
            · intro x hx
              refine List.mem_append_left _ ?_
              split <;> exact hx
            · split <;> rfl
    · -- cascade
      intro st e vis chk r h
      rw [UnitOfWork.cascade] at h
      split at h
      · cases h; exact persExt_refl st
      · simp only [] at h
        split at h
        · exact absurd h (by simp)
        · rename_i st1 vis2 heq
          have h1 : PersExt st st1 :=
            persExt_trans ⟨fun _ hx => hx, fun _ hx => hx, rfl⟩ (ihP _ _ _ _ _ heq)
          split at h
          · cases h; exact h1
          · exact persExt_trans h1 (ihCRs _ _ _ _ _ _ h)
    · -- cascadeReferences
      intro st props e vis chk r h
      rw [UnitOfWork.cascadeReferences.eq_def] at h
      simp only [] at h
      split at h
      · cases h; exact persExt_refl st
      · split at h
        · exact absurd h (by simp)
        · rename_i st1 vis1 heq
          exact persExt_trans (ihCR _ _ _ _ _ _ heq) (ihCRs _ _ _ _ _ _ h)
    · -- cascadeReference
      intro st e prop vis chk r h
      rw [UnitOfWork.cascadeReference.eq_def] at h
      simp only [fixMissingReference] at h
      split at h
      · split at h
        · split at h
          · exact ihC _ _ _ _ _ h
          · cases h; exact persExt_refl st
        · split at h
          · exact ihCI _ _ _ _ _ h
          · cases h; exact persExt_refl st
        · cases h; exact persExt_refl st
      · cases h; exact persExt_refl st
    · -- cascadeItems
      intro st items vis chk r h
      rw [UnitOfWork.cascadeItems.eq_def] at h
      simp only [] at h
      split at h
      · cases h; exact persExt_refl st
      · split at h
        · exact absurd h (by simp)
        · rename_i st1 vis1 heq
          exact persExt_trans (ihC _ _ _ _ _ heq) (ihCI _ _ _ _ _ h)

/-- C5: `persist` and `remove` are idempotent within one commit cycle —
invoking `persist` on an entity already on the persist stack, or `remove` on
an entity already on the remove stack, returns with the whole state and the
visited list unchanged (in particular no additional change set is produced);
and a `persist` call on an entity object not yet on the persist stack removes
it from the remove stack (and never touches the change-set list). -/
theorem persist_remove_idempotent (M : Metadata) (fuel : Nat) (st : UoWState) (e : EntityId)
    (vis : List EntityId) (chk : Bool) :
    (e ∈ st.persistStack → UnitOfWork.persist M (fuel + 1) st e vis chk = some (st, vis)) ∧
    (e ∈ st.removeStack → UnitOfWork.remove M (fuel + 1) st e vis = some (st, vis)) ∧
    (∀ ent st' vis', st.getEntity e = some ent → e ∉ st.persistStack →
      UnitOfWork.persist M fuel st e vis false = some (st', vis') →
      e ∉ st'.removeStack ∧ e ∈ st'.persistStack ∧ st'.changeSets = st.changeSets) := by
  refine ⟨fun h => ?_, fun h => ?_, ?_⟩
  · rw [UnitOfWork.persist, if_pos h]
  · rw [UnitOfWork.remove, if_pos h]
  · intro ent st' vis' hent hnp h
    cases fuel with
    | zero => rw [UnitOfWork.persist] at h; cases h
    | succ g =>
      rw [UnitOfWork.persist, if_neg hnp] at h
      rw [if_neg (by simp)] at h
      rw [hent] at h
      simp only [] at h
      have hpe := (persistFam M g).2.1 _ _ _ _ _ h
      refine ⟨?_, ?_, ?_⟩
      · intro hx
        have hx2 := hpe.1 _ hx
        simp only [] at hx2
        split at hx2 <;> exact not_mem_cleanUpStack _ _ hx2
      · refine hpe.2.1 _ ?_
        exact List.mem_append_right _ (List.mem_singleton.mpr rfl)
      · rw [hpe.2.2]
        split <;> rfl

/-- Concrete entity for the C5 witness. -/
def entW5 : Entity :=
  { typeName := "A", pk := some "1", initialized := true, em := true, props := [] }

/-- Concrete state with `0` on the persist stack. -/
def stW5a : UoWState := { stEmpty with store := [(0, entW5)], persistStack := [0] }

/-- Concrete state with `0` on the remove stack. -/
def stW5b : UoWState := { stEmpty with store := [(0, entW5)], removeStack := [0] }

/-- The state `persist` produces from `stW5b` (entity pulled off the remove
stack, pushed on the persist stack, persist cascaded). -/
def stW5c : UoWState :=
  { stEmpty with
    store := [(0, entW5)]
    persistStack := [0]
    opLog := [(Cascade.persist, 0)] }

/-- Witness for C5 at concrete inputs. -/
theorem persist_remove_idempotent_witness :
    (0 ∈ stW5a.persistStack ∧
      UnitOfWork.persist M0 1 stW5a 0 [] false = some (stW5a, [])) ∧
    (0 ∈ stW5b.removeStack ∧
      UnitOfWork.remove M0 1 stW5b 0 [] = some (stW5b, [])) ∧
    (stW5b.getEntity 0 = some entW5 ∧ 0 ∉ stW5b.persistStack ∧
      UnitOfWork.persist M0 3 stW5b 0 [] false = some (stW5c, [0]) ∧
      0 ∉ stW5c.removeStack ∧ 0 ∈ stW5c.persistStack ∧
      stW5c.changeSets = stW5b.changeSets) :=
  ⟨⟨by decide, (persist_remove_idempotent M0 0 stW5a 0 [] false).1 (by decide)⟩,
   ⟨by decide, (persist_remove_idempotent M0 0 stW5b 0 [] false).2.1 (by decide)⟩,
   ⟨by decide, by decide, by decide,
    (persist_remove_idempotent M0 3 stW5b 0 [] false).2.2 entW5 stW5c [0]
      (by decide) (by decide) (by decide)⟩⟩

/-! ## C4: remove drops the identity immediately -/

/-- Erasing a key makes it absent. -/
theorem alookup_aerase_self {α β : Type} [DecidableEq α] (l : List (α × β)) (k : α) :
    alookup (aerase l k) k = none := by
  induction l with
  | nil => rfl
  | cons p t ih =>
    by_cases h : p.1 = k
    · simp [aerase, h, ih]
    · simp [aerase, alookup, h, ih]

/-- Erasing never makes a key present. -/
theorem alookup_aerase_none {α β : Type} [DecidableEq α] (l : List (α × β)) (k k' : α)
    (h : alookup l k' = none) : alookup (aerase l k) k' = none := by
  induction l with
  | nil => rfl
  | cons p t ih =>
    by_cases hp : p.1 = k
    · rw [alookup] at h
      split at h
      · cases h
      · simp [aerase, hp, ih h]
    · rw [alookup] at h
      split at h
      · cases h
      · rename_i hne
        simp [aerase, hp, alookup, hne, ih h]

/-- State evolution under a REMOVE cascade: the persist stack only loses
elements, and the identity map, identifier map and baseline snapshots only
lose entries. -/
def RemShrink (st st' : UoWState) : Prop :=
  (∀ x, x ∈ st'.persistStack → x ∈ st.persistStack) ∧
  (∀ k, alookup st.identityMap k = none → alookup st'.identityMap k = none) ∧
  (∀ x, x ∈ st'.identifierMap → x ∈ st.identifierMap) ∧
  (∀ k, alookup st.originalEntityData k = none → alookup st'.originalEntityData k = none)

theorem remShrink_refl (st : UoWState) : RemShrink st st :=
  ⟨fun _ h => h, fun _ h => h, fun _ h => h, fun _ h => h⟩

theorem remShrink_trans {s1 s2 s3 : UoWState} (h1 : RemShrink s1 s2) (h2 : RemShrink s2 s3) :
    RemShrink s1 s3 :=
  ⟨fun x h => h1.1 x (h2.1 x h), fun k h => h2.2.1 k (h1.2.1 k h),
   fun x h => h1.2.2.1 x (h2.2.2.1 x h), fun k h => h2.2.2.2 k (h1.2.2.2 k h)⟩

/-- `unsetIdentity` only shrinks the registry state. -/
theorem unsetIdentity_shrink (st : UoWState) (e : EntityId) :
    RemShrink st (st.unsetIdentity e) := by
  unfold UoWState.unsetIdentity
  split
  · exact remShrink_refl st
  · rename_i ent hent
    simp only []
    refine ⟨fun x hx => ?_, fun k hk => ?_, fun x hx => ?_, fun k hk => ?_⟩
    · split at hx <;> exact hx
    · split
      · exact alookup_aerase_none _ _ _ hk
      · exact hk
    · have hx2 := List.mem_of_mem_filter hx
      split at hx2 <;> exact hx2
    · refine alookup_aerase_none _ _ _ ?_
      split <;> exact hk

/-- Every function of the REMOVE cascade family evolves the state by
`RemShrink`. -/
theorem removeFam (M : Metadata) : ∀ fuel : Nat,
    (∀ st e vis r, UnitOfWork.remove M fuel st e vis = some r → RemShrink st r.1) ∧
    (∀ st e vis chk r,
      UnitOfWork.cascade M fuel st e Cascade.remove vis chk = some r → RemShrink st r.1) ∧
    (∀ st props e vis chk r,
      UnitOfWork.cascadeReferences M fuel st props e Cascade.remove vis chk = some r →
        RemShrink st r.1) ∧
    (∀ st e prop vis chk r,
      UnitOfWork.cascadeReference M fuel st e prop Cascade.remove vis chk = some r →
        RemShrink st r.1) ∧
    (∀ st items vis chk r,
      UnitOfWork.cascadeItems M fuel st items Cascade.remove vis chk = some r →
        RemShrink st r.1) := by
  intro fuel
  induction fuel with
  | zero =>
    refine ⟨?_, ?_, ?_, ?_, ?_⟩ <;> intro st
    · intro e vis r h; simp [UnitOfWork.remove] at h
    · intro e vis chk r h; simp [UnitOfWork.cascade] at h
    · intro props e vis chk r h; simp [UnitOfWork.cascadeReferences] at h
    · intro e prop vis chk r h; simp [UnitOfWork.cascadeReference] at h
    · intro items vis chk r h; simp [UnitOfWork.cascadeItems] at h
  | succ f ih =>
    obtain ⟨ihR, ihC, ihCRs, ihCR, ihCI⟩ := ih
    refine ⟨?_, ?_, ?_, ?_, ?_⟩
    · -- remove
      intro st e vis r h
      rw [UnitOfWork.remove] at h
      split at h
      · cases h; exact remShrink_refl st
      · split at h
        · cases h; exact remShrink_refl st
        · simp only [] at h
          refine remShrink_trans (remShrink_trans ?_ (unsetIdentity_shrink _ e))
            (ihC _ _ _ _ _ h)
          refine ⟨fun x hx => ?_, fun k hk => ?_, fun x hx => ?_, fun k hk => ?_⟩
          · have hx2 := mem_cleanUpStack hx
            split at hx2 <;> exact hx2
          · split <;> exact hk
          · split at hx <;> exact hx
          · split <;> exact hk
    · -- cascade
      intro st e vis chk r h
      rw [UnitOfWork.cascade] at h
      split at h
      · cases h; exact remShrink_refl st
      · simp only [] at h
        split at h
        · exact absurd h (by simp)
        · rename_i st1 vis2 heq
          have h1 : RemShrink st st1 :=
            remShrink_trans ⟨fun _ hx => hx, fun _ hx => hx, fun _ hx => hx, fun _ hx => hx⟩
              (ihR _ _ _ _ heq)
          split at h
          · cases h; exact h1
          · exact remShrink_trans h1 (ihCRs _ _ _ _ _ _ h)
    · -- cascadeReferences
      intro st props e vis chk r h
      rw [UnitOfWork.cascadeReferences.eq_def] at h
      simp only [] at h
      split at h
      · cases h; exact remShrink_refl st
      · split at h
        · exact absurd h (by simp)
        · rename_i st1 vis1 heq
          exact remShrink_trans (ihCR _ _ _ _ _ _ heq) (ihCRs _ _ _ _ _ _ h)
    · -- cascadeReference
      intro st e prop vis chk r h
      rw [UnitOfWork.cascadeReference.eq_def] at h
      simp only [fixMissingReference] at h
      split at h
      · split at h
        · split at h
          · exact ihC _ _ _ _ _ h
          · cases h; exact remShrink_refl st
        · split at h
          · exact ihCI _ _ _ _ _ h
          · cases h; exact remShrink_refl st
        · cases h; exact remShrink_refl st
      · cases h; exact remShrink_refl st
    · -- cascadeItems
      intro st items vis chk r h
      rw [UnitOfWork.cascadeItems.eq_def] at h
      simp only [] at h
      split at h
      · cases h; exact remShrink_refl st
      · split at h
        · exact absurd h (by simp)
        · rename_i st1 vis1 heq
          exact remShrink_trans (ihC _ _ _ _ _ heq) (ihCI _ _ _ _ _ h)

/-- `unsetIdentity` does not touch the persist stack. -/
theorem unsetIdentity_persistStack (st : UoWState) (e : EntityId) :
    (st.unsetIdentity e).persistStack = st.persistStack := by
  unfold UoWState.unsetIdentity
  split
  · rfl
  · simp only []
    split <;> rfl

/-- After `unsetIdentity`, the entity's identity-map key is absent. -/
theorem unsetIdentity_getById (st : UoWState) (e : EntityId) (ent : Entity) (p : String)
    (hent : st.getEntity e = some ent) (hpk : ent.pk = some p) :
    alookup (st.unsetIdentity e).identityMap (keyOf ent.typeName p) = none := by
  unfold UoWState.unsetIdentity
  rw [hent]
  simp only [hpk]
  exact alookup_aerase_self _ _

/-- After `unsetIdentity`, the entity's identifier placeholder is gone. -/
theorem unsetIdentity_identifierMap (st : UoWState) (e : EntityId) (ent : Entity)
    (hent : st.getEntity e = some ent) : e ∉ (st.unsetIdentity e).identifierMap := by
  unfold UoWState.unsetIdentity
  rw [hent]
  simp only []
  intro hx
  have := List.of_mem_filter hx
  simp at this

/-- After `unsetIdentity`, the entity's baseline snapshot is gone. -/
theorem unsetIdentity_originalEntityData (st : UoWState) (e : EntityId) (ent : Entity)
    (hent : st.getEntity e = some ent) :
    alookup (st.unsetIdentity e).originalEntityData e = none := by
  unfold UoWState.unsetIdentity
  rw [hent]
  simp only []
  exact alookup_aerase_self _ _

/-- The first step of `remove` on a keyed entity not yet on the remove stack:
it hands a state to the REMOVE cascade in which the entity is off the persist
stack and its identity-map entry, identifier placeholder and baseline
snapshot are already deleted. -/
theorem remove_step (M : Metadata) (g : Nat) (st : UoWState) (e : EntityId) (ent : Entity)
    (p : String) (vis : List EntityId) (r : UoWState × List EntityId)
    (hent : st.getEntity e = some ent) (hpk : ent.pk = some p)
    (hnot : e ∉ st.removeStack) (h : UnitOfWork.remove M (g + 1) st e vis = some r) :
    ∃ st3, UnitOfWork.cascade M g st3 e Cascade.remove vis false = some r ∧
      e ∉ st3.persistStack ∧ alookup st3.identityMap (keyOf ent.typeName p) = none ∧
      e ∉ st3.identifierMap ∧ alookup st3.originalEntityData e = none := by
  rw [UnitOfWork.remove, if_neg hnot, hent] at h
  simp only [hpk, Option.isSome_some, if_true] at h
  refine ⟨_, h, ?_, ?_, ?_, ?_⟩
  · rw [unsetIdentity_persistStack]
    exact not_mem_cleanUpStack _ _
  · exact unsetIdentity_getById _ _ ent p hent hpk
  · exact unsetIdentity_identifierMap _ _ ent hent
  · exact unsetIdentity_originalEntityData _ _ ent hent

/-- C4: for every entity with an assigned primary key (and not already
scheduled for removal), `remove(entity)` removes it from the persist stack
and immediately deletes its identity-map entry, identifier placeholder and
baseline snapshot — `getById` for its type and key already returns nothing
when `remove` returns, before any physical DELETE has run. -/
theorem remove_drops_identity (M : Metadata) (fuel : Nat) (st : UoWState) (e : EntityId)
    (ent : Entity) (p : String) (vis : List EntityId) (st' : UoWState) (vis' : List EntityId)
    (hent : st.getEntity e = some ent) (hpk : ent.pk = some p)
    (hnot : e ∉ st.removeStack)
    (h : UnitOfWork.remove M fuel st e vis = some (st', vis')) :
    e ∉ st'.persistStack ∧ st'.getById ent.typeName p = none ∧
      e ∉ st'.identifierMap ∧ alookup st'.originalEntityData e = none := by
  cases fuel with
  | zero => rw [UnitOfWork.remove] at h; cases h
  | succ g =>
    obtain ⟨st3, hc, h1, h2, h3, h4⟩ := remove_step M g st e ent p vis _ hent hpk hnot h
    have hrs := (removeFam M g).2.1 _ _ _ _ _ hc
    refine ⟨fun hx => h1 (hrs.1 _ hx), ?_, fun hx => h3 (hrs.2.2.1 _ hx), hrs.2.2.2 _ h4⟩
    exact hrs.2.1 _ h2

/-- Concrete managed state for the C4 witness: entity `0` (type `A`, key
`"1"`) with identity-map entry, snapshot, identifier placeholder and a
pending persist. -/
def stW4 : UoWState :=
  { stEmpty with
    store := [(0, entW5)]
    identityMap := [(keyOf "A" "1", 0)]
    originalEntityData := [(0, [])]
    identifierMap := [0]
    persistStack := [0] }

/-- The state `remove` produces from `stW4`. -/
def stW4r : UoWState :=
  { stEmpty with
    store := [(0, entW5)]
    removeStack := [0]
    opLog := [(Cascade.remove, 0)] }

/-- Witness for C4 at a concrete input. -/
theorem remove_drops_identity_witness :
    stW4.getEntity 0 = some entW5 ∧ entW5.pk = some "1" ∧ 0 ∉ stW4.removeStack ∧
      UnitOfWork.remove M0 3 stW4 0 [] = some (stW4r, [0]) ∧
      (0 ∉ stW4r.persistStack ∧ stW4r.getById entW5.typeName "1" = none ∧
        0 ∉ stW4r.identifierMap ∧ alookup stW4r.originalEntityData 0 = none) :=
  ⟨by decide, by decide, by decide, by decide,
   remove_drops_identity M0 3 stW4 0 entW5 "1" [] stW4r [0] (by decide) (by decide)
     (by decide) (by decide)⟩

/-! ## Frame lemmas shared by C2 and C8 -/

/-- The persistent part of an entity under cascade walks: everything but the
`__em` back-reference flag. -/
def entKey (en : Entity) : String × Option String × Bool × List (String × PropValue) :=
  (en.typeName, en.pk, en.initialized, en.props)

/-- The persistent part of the heap under cascade walks. -/
def stShape (st : UoWState) : List (EntityId × (String × Option String × Bool × List (String × PropValue))) :=
  st.store.map fun p => (p.1, entKey p.2)

/-- What every cascade-family call leaves untouched: the heap shape, the
extra-update queue and the collection-update list. -/
def CascFrame (st st' : UoWState) : Prop :=
  stShape st' = stShape st ∧ st'.extraUpdates = st.extraUpdates ∧
    st'.collectionUpdates = st.collectionUpdates

theorem cascFrame_refl (st : UoWState) : CascFrame st st := ⟨rfl, rfl, rfl⟩

theorem cascFrame_trans {s1 s2 s3 : UoWState} (h1 : CascFrame s1 s2)
    (h2 : CascFrame s2 s3) : CascFrame s1 s3 :=
  ⟨h2.1.trans h1.1, h2.2.1.trans h1.2.1, h2.2.2.trans h1.2.2⟩

/-- `setEm` does not change the heap shape. -/
theorem stShape_setEm (st : UoWState) (e : EntityId) : stShape (st.setEm e) = stShape st := by
  unfold stShape UoWState.setEm UoWState.updEntity
  rw [List.map_map]
  refine List.map_congr_left fun p _ => ?_
  by_cases h : p.1 = e <;> simp [h, entKey]

/-- `unsetIdentity` does not change the heap, the extra-update queue or the
collection-update list. -/
theorem cascFrame_unsetIdentity (st : UoWState) (e : EntityId) :
    CascFrame st (st.unsetIdentity e) := by
  unfold UoWState.unsetIdentity
  split
  · exact cascFrame_refl st
  · simp only []
    split <;> exact ⟨rfl, rfl, rfl⟩

/-- Every function of the cascade family (any operation kind) preserves
`CascFrame`. -/
theorem cascadeFamFrame (M : Metadata) : ∀ fuel : Nat,
    (∀ st e vis chk r, UnitOfWork.persist M fuel st e vis chk = some r → CascFrame st r.1) ∧
    (∀ st e vis r, UnitOfWork.remove M fuel st e vis = some r → CascFrame st r.1) ∧
    (∀ st e vis md r, UnitOfWork.merge M fuel st e vis md = some r → CascFrame st r.1) ∧
    (∀ st e ty vis chk r, UnitOfWork.cascade M fuel st e ty vis chk = some r → CascFrame st r.1) ∧
    (∀ st props e ty vis chk r,
      UnitOfWork.cascadeReferences M fuel st props e ty vis chk = some r → CascFrame st r.1) ∧
    (∀ st e prop ty vis chk r,
      UnitOfWork.cascadeReference M fuel st e prop ty vis chk = some r → CascFrame st r.1) ∧
    (∀ st items ty vis chk r,
      UnitOfWork.cascadeItems M fuel st items ty vis chk = some r → CascFrame st r.1) := by
  intro fuel
  induction fuel with
  | zero =>
    refine ⟨?_, ?_, ?_, ?_, ?_, ?_, ?_⟩ <;> intro st
    · intro e vis chk r h; simp [UnitOfWork.persist] at h
    · intro e vis r h; simp [UnitOfWork.remove] at h
    · intro e vis md r h; simp [UnitOfWork.merge] at h
    · intro e ty vis chk r h; simp [UnitOfWork.cascade] at h
    · intro props e ty vis chk r h; simp [UnitOfWork.cascadeReferences] at h
    · intro e prop ty vis chk r h; simp [UnitOfWork.cascadeReference] at h
    · intro items ty vis chk r h; simp [UnitOfWork.cascadeItems] at h
  | succ f ih =>
    obtain ⟨ihP, ihR, ihM, ihC, ihCRs, ihCR, ihCI⟩ := ih
    refine ⟨?_, ?_, ?_, ?_, ?_, ?_, ?_⟩
    · -- persist
      intro st e vis chk r h
      rw [UnitOfWork.persist] at h
      split at h
      · cases h; exact cascFrame_refl st
      · split at h
        · cases h; exact cascFrame_refl st
        · split at h
          · cases h; exact cascFrame_refl st
          · simp only [] at h
            refine cascFrame_trans ?_ (ihC _ _ _ _ _ _ h)
            refine ⟨?_, ?_, ?_⟩ <;>
              first
              | (simp only [stShape]; split <;> rfl)
              | (split <;> rfl)
    · -- remove
      intro st e vis r h
      rw [UnitOfWork.remove] at h
      split at h
      · cases h; exact cascFrame_refl st
      · split at h
        · cases h; exact cascFrame_refl st
        · simp only [] at h
          refine cascFrame_trans (cascFrame_trans ?_ (cascFrame_unsetIdentity _ e))
            (ihC _ _ _ _ _ _ h)
          refine ⟨?_, ?_, ?_⟩ <;>
              first
              | (simp only [stShape]; split <;> rfl)
              | (split <;> rfl)
    · -- merge
      intro st e vis md r h
      rw [UnitOfWork.merge] at h
      split at h
      · cases h; exact cascFrame_refl st
      · split at h
        · cases h
          exact ⟨stShape_setEm st e, rfl, rfl⟩
        · simp only [] at h
          refine cascFrame_trans ?_ (ihC _ _ _ _ _ _ h)
          have hse : CascFrame st (st.setEm e) := ⟨stShape_setEm st e, rfl, rfl⟩
          refine cascFrame_trans hse ?_
          refine ⟨?_, ?_, ?_⟩ <;>
              first
              | (simp only [stShape]; split <;> rfl)
              | (split <;> rfl)
    · -- cascade
      intro st e ty vis chk r h
      rw [UnitOfWork.cascade] at h
      split at h
      · cases h; exact cascFrame_refl st
      · simp only [] at h
        have hlog : CascFrame st { st with opLog := st.opLog ++ [(ty, e)] } := ⟨rfl, rfl, rfl⟩
        cases ty
        · -- persist
          split at h
          · exact absurd h (by simp)
          · rename_i st1 vis2 heq
            have h1 : CascFrame st st1 := cascFrame_trans hlog (ihP _ _ _ _ _ heq)
            split at h
            · cases h; exact h1
            · exact cascFrame_trans h1 (ihCRs _ _ _ _ _ _ _ h)
        · -- merge
          split at h
          · exact absurd h (by simp)
          · rename_i st1 vis2 heq
            have h1 : CascFrame st st1 := cascFrame_trans hlog (ihM _ _ _ _ _ heq)
            split at h
            · cases h; exact h1
            · exact cascFrame_trans h1 (ihCRs _ _ _ _ _ _ _ h)
        · -- remove
          split at h
          · exact absurd h (by simp)
          · rename_i st1 vis2 heq
            have h1 : CascFrame st st1 := cascFrame_trans hlog (ihR _ _ _ _ heq)
            split at h
            · cases h; exact h1
            · exact cascFrame_trans h1 (ihCRs _ _ _ _ _ _ _ h)
        · -- all
          split at h
          · exact absurd h (by simp)
          · rename_i st1 vis2 heq
            rw [Option.some_inj, Prod.mk.injEq] at heq
            have h1 : CascFrame st st1 := by
              rw [← heq.1]; exact cascFrame_refl st
            split at h
            · cases h; exact h1
            · exact cascFrame_trans h1 (ihCRs _ _ _ _ _ _ _ h)
    · -- cascadeReferences
      intro st props e ty vis chk r h
      rw [UnitOfWork.cascadeReferences.eq_def] at h
      simp only [] at h
      split at h
      · cases h; exact cascFrame_refl st
      · split at h
        · exact absurd h (by simp)
        · rename_i st1 vis1 heq
          exact cascFrame_trans (ihCR _ _ _ _ _ _ _ heq) (ihCRs _ _ _ _ _ _ _ h)
    · -- cascadeReference
      intro st e prop ty vis chk r h
      rw [UnitOfWork.cascadeReference.eq_def] at h
      simp only [fixMissingReference] at h
      split at h
      · split at h
        · split at h
          · exact ihC _ _ _ _ _ _ h
          · cases h; exact cascFrame_refl st
        · split at h
          · exact ihCI _ _ _ _ _ _ h
          · cases h; exact cascFrame_refl st
        · cases h; exact cascFrame_refl st
      · cases h; exact cascFrame_refl st
    · -- cascadeItems
      intro st items ty vis chk r h
      rw [UnitOfWork.cascadeItems.eq_def] at h
      simp only [] at h
      split at h
      · cases h; exact cascFrame_refl st
      · split at h
        · exact absurd h (by simp)
        · rename_i st1 vis1 heq
          exact cascFrame_trans (ihC _ _ _ _ _ _ heq) (ihCI _ _ _ _ _ _ h)

/-! ## Heap accessor lemmas -/

theorem alookup_aset_self {α β : Type} [DecidableEq α] (l : List (α × β)) (k : α) (v : β) :
    alookup (aset l k v) k = some v := by
  induction l with
  | nil => simp [aset, alookup]
  | cons p t ih =>
    by_cases h : p.1 = k
    · simp [aset, h, alookup]
    · simp [aset, h, alookup, ih]

theorem alookup_aset_other {α β : Type} [DecidableEq α] (l : List (α × β)) (k : α) (v : β)
    (k' : α) (h : k' ≠ k) : alookup (aset l k v) k' = alookup l k' := by
  induction l with
  | nil => simp [aset, alookup, Ne.symm h]
  | cons p t ih =>
    by_cases hp : p.1 = k
    · subst hp
      simp [aset, alookup, Ne.symm h]
    · simp only [aset, if_neg hp]
      by_cases hp' : p.1 = k'
      · simp [alookup, hp']
      · simp [alookup, hp', ih]

theorem alookup_aerase_other {α β : Type} [DecidableEq α] (l : List (α × β)) (k k' : α)
    (h : k' ≠ k) : alookup (aerase l k) k' = alookup l k' := by
  induction l with
  | nil => rfl
  | cons p t ih =>
    by_cases hp : p.1 = k
    · subst hp
      simp [aerase, alookup, Ne.symm h, ih]
    · by_cases hp' : p.1 = k'
      · simp [aerase, hp, alookup, hp', h]
      · simp [aerase, hp, alookup, hp', ih]

theorem alookup_map_update_self {α β : Type} [DecidableEq α]
    (l : List (α × β)) (e : α) (f : β → β) :
    alookup (l.map fun p => if p.1 = e then (p.1, f p.2) else p) e
      = (alookup l e).map f := by
  induction l with
  | nil => rfl
  | cons p t ih =>
    by_cases h : p.1 = e
    · simp [alookup, h]
    · simp [alookup, h, ih]

theorem alookup_map_update_other {α β : Type} [DecidableEq α]
    (l : List (α × β)) (e : α) (f : β → β) (e' : α) (h : e' ≠ e) :
    alookup (l.map fun p => if p.1 = e then (p.1, f p.2) else p) e'
      = alookup l e' := by
  induction l with
  | nil => rfl
  | cons p t ih =>
    by_cases hp : p.1 = e
    · subst hp
      simp [alookup, Ne.symm h, ih]
    · by_cases hp' : p.1 = e'
      · simp [alookup, hp, hp', h]
      · simp [alookup, hp, hp', ih]

theorem getEntity_updEntity_self (st : UoWState) (e : EntityId) (f : Entity → Entity) :
    (st.updEntity e f).getEntity e = (st.getEntity e).map f :=
  alookup_map_update_self st.store e f

theorem getEntity_updEntity_other (st : UoWState) (e : EntityId) (f : Entity → Entity)
    (e' : EntityId) (h : e' ≠ e) : (st.updEntity e f).getEntity e' = st.getEntity e' :=
  alookup_map_update_other st.store e f e' h

/-- A point update that keeps the properties keeps every property read. -/
theorem getProp_updEntity_propsEq (st : UoWState) (e : EntityId) (f : Entity → Entity)
    (hf : ∀ en, (f en).props = en.props) (e' : EntityId) (pn : String) :
    (st.updEntity e f).getProp e' pn = st.getProp e' pn := by
  unfold UoWState.getProp
  by_cases h : e' = e
  · subst h
    rw [getEntity_updEntity_self]
    cases st.getEntity e' <;> simp [hf]
  · rw [getEntity_updEntity_other _ _ _ _ h]

/-- A point update that keeps the type name keeps the managed-entity fact. -/
theorem getEntity_updEntity_typeName (st : UoWState) (e : EntityId) (f : Entity → Entity)
    (hf : ∀ en, (f en).typeName = en.typeName) (e' : EntityId) (en : Entity)
    (h : st.getEntity e' = some en) :
    ∃ en', (st.updEntity e f).getEntity e' = some en' ∧ en'.typeName = en.typeName := by
  by_cases he : e' = e
  · subst he
    refine ⟨f en, ?_, hf en⟩
    rw [getEntity_updEntity_self, h, Option.map_some']
  · exact ⟨en, by rw [getEntity_updEntity_other _ _ _ _ he]; exact h, rfl⟩

theorem getProp_setProp_self (st : UoWState) (e : EntityId) (pn : String) (v : PropValue)
    (en : Entity) (hent : st.getEntity e = some en) :
    (st.setProp e pn v).getProp e pn = some v := by
  unfold UoWState.setProp UoWState.getProp
  rw [getEntity_updEntity_self, hent]
  simp [alookup_aset_self]

theorem getProp_setProp_other (st : UoWState) (e : EntityId) (pn : String) (v : PropValue)
    (e' : EntityId) (pn' : String) (h : ¬ (e' = e ∧ pn' = pn)) :
    (st.setProp e pn v).getProp e' pn' = st.getProp e' pn' := by
  unfold UoWState.setProp UoWState.getProp
  by_cases he : e' = e
  · subst he
    have hp : pn' ≠ pn := fun hp => h ⟨rfl, hp⟩
    rw [getEntity_updEntity_self]
    cases st.getEntity e' <;> simp [alookup_aset_other _ _ _ _ hp]
  · rw [getEntity_updEntity_other _ _ _ _ he]

theorem getProp_delProp_other (st : UoWState) (e : EntityId) (pn : String)
    (e' : EntityId) (pn' : String) (h : ¬ (e' = e ∧ pn' = pn)) :
    (st.delProp e pn).getProp e' pn' = st.getProp e' pn' := by
  unfold UoWState.delProp UoWState.getProp
  by_cases he : e' = e
  · subst he
    have hp : pn' ≠ pn := fun hp => h ⟨rfl, hp⟩
    rw [getEntity_updEntity_self]
    cases st.getEntity e' <;> simp [alookup_aerase_other _ _ _ hp]
  · rw [getEntity_updEntity_other _ _ _ _ he]

/-- Association-list lookups agree on lists whose images under a key-value
projection agree. -/
theorem alookup_map_eq {α β γ : Type} [DecidableEq α] (f : β → γ) :
    ∀ (l1 l2 : List (α × β)),
      l1.map (fun p => (p.1, f p.2)) = l2.map (fun p => (p.1, f p.2)) →
      ∀ k, (alookup l1 k).map f = (alookup l2 k).map f := by
  intro l1
  induction l1 with
  | nil =>
    intro l2 h k
    cases l2 with
    | nil => rfl
    | cons q t2 => simp at h
  | cons p t1 ih =>
    intro l2 h k
    cases l2 with
    | nil => simp at h
    | cons q t2 =>
      simp only [List.map_cons, List.cons.injEq, Prod.mk.injEq] at h
      obtain ⟨⟨h1, h2⟩, h3⟩ := h
      by_cases hk : p.1 = k
      · simp [alookup, hk, h1 ▸ hk, h2]
      · rw [alookup, if_neg hk, alookup, if_neg (h1 ▸ hk)]
        exact ih t2 h3 k

/-- Equal heap shapes give equal entity projections. -/
theorem getEntity_of_shape_eq {st st' : UoWState} (h : stShape st' = stShape st)
    (e : EntityId) : (st'.getEntity e).map entKey = (st.getEntity e).map entKey :=
  alookup_map_eq entKey _ _ h e

/-- Equal heap shapes give equal property reads. -/
theorem getProp_of_shape_eq {st st' : UoWState} (h : stShape st' = stShape st)
    (e : EntityId) (pn : String) : st'.getProp e pn = st.getProp e pn := by
  have hm := getEntity_of_shape_eq h e
  unfold UoWState.getProp
  rcases h1 : st'.getEntity e with _ | en1 <;> rcases h2 : st.getEntity e with _ | en2 <;>
    rw [h1, h2] at hm <;> simp at hm ⊢
  have : en1.props = en2.props := by
    have := congrArg (fun q => q.2.2.2) hm
    simpa [entKey] using this
  rw [this]

/-- Equal heap shapes preserve the managed-entity fact. -/
theorem getEntity_typeName_of_shape_eq {st st' : UoWState} (h : stShape st' = stShape st)
    (e : EntityId) (en : Entity) (hent : st.getEntity e = some en) :
    ∃ en', st'.getEntity e = some en' ∧ en'.typeName = en.typeName := by
  have hm := getEntity_of_shape_eq h e
  rcases h1 : st'.getEntity e with _ | en1 <;> rw [h1, hent] at hm <;> simp at hm
  refine ⟨en1, rfl, ?_⟩
  have := congrArg (fun q => q.1) hm
  simpa [entKey] using this

/-! ## The extra-update drain re-applies a deferred collection -/

/-- The extra-update entries addressed to the field `(ent0, pn0)`. -/
def updTargets (ent0 : EntityId) (pn0 : String) (u : EntityId × String × PropValue) : Bool :=
  decide (u.1 = ent0 ∧ u.2.1 = pn0)

/-- What one step of the database pass may do to the state, seen from a fixed
field `(ent0, pn0)` it must not touch: the field read is preserved, the
extra-update queue only grows by entries for other fields, the
collection-update list is untouched, and the owning entity stays on the heap
with its type name. -/
def DrainStep (ent0 : EntityId) (pn0 : String) (st st' : UoWState) : Prop :=
  st'.getProp ent0 pn0 = st.getProp ent0 pn0 ∧
  (∃ l, st'.extraUpdates = st.extraUpdates ++ l ∧
      ∀ u ∈ l, ¬ (u.1 = ent0 ∧ u.2.1 = pn0)) ∧
  st'.collectionUpdates = st.collectionUpdates ∧
  (∀ en, st.getEntity ent0 = some en →
      ∃ en', st'.getEntity ent0 = some en' ∧ en'.typeName = en.typeName)

theorem drainStep_refl (ent0 : EntityId) (pn0 : String) (st : UoWState) :
    DrainStep ent0 pn0 st st :=
  ⟨rfl, ⟨[], by simp, by simp⟩, rfl, fun en h => ⟨en, h, rfl⟩⟩

theorem drainStep_trans {ent0 : EntityId} {pn0 : String} {s1 s2 s3 : UoWState}
    (h1 : DrainStep ent0 pn0 s1 s2) (h2 : DrainStep ent0 pn0 s2 s3) :
    DrainStep ent0 pn0 s1 s3 := by
  obtain ⟨g1, ⟨l1, e1, n1⟩, c1, t1⟩ := h1
  obtain ⟨g2, ⟨l2, e2, n2⟩, c2, t2⟩ := h2
  refine ⟨g2.trans g1, ⟨l1 ++ l2, ?_, ?_⟩, c2.trans c1, ?_⟩
  · rw [e2, e1, List.append_assoc]
  · intro u hu
    rcases List.mem_append.mp hu with h | h
    · exact n1 u h
    · exact n2 u h
  · intro en h
    obtain ⟨en1, h1', ht1⟩ := t1 en h
    obtain ⟨en2, h2', ht2⟩ := t2 en1 h1'
    exact ⟨en2, h2', ht2.trans ht1⟩

/-- A cascade-family call is a drain step for any field. -/
theorem cascFrame_drainStep {st st' : UoWState} (h : CascFrame st st')
    (ent0 : EntityId) (pn0 : String) : DrainStep ent0 pn0 st st' := by
  obtain ⟨hs, he, hc⟩ := h
  refine ⟨getProp_of_shape_eq hs ent0 pn0, ⟨[], by simp [he], by simp⟩, hc, ?_⟩
  intro en hen
  exact getEntity_typeName_of_shape_eq hs ent0 en hen

theorem drainStep_markPersisted (st : UoWState) (loc : Option Nat)
    (ent0 : EntityId) (pn0 : String) : DrainStep ent0 pn0 st (markPersisted st loc) := by
  cases loc <;>
    exact ⟨rfl, ⟨[], by simp [markPersisted], by simp⟩, rfl, fun en h => ⟨en, h, rfl⟩⟩

theorem drainStep_assignPk (st : UoWState) (e : EntityId) (pk : Option String)
    (ent0 : EntityId) (pn0 : String) : DrainStep ent0 pn0 st (assignPk st e pk) := by
  cases pk with
  | none => exact drainStep_refl _ _ _
  | some p =>
    show DrainStep ent0 pn0 st (st.updEntity e fun ent => { ent with pk := some p })
    refine ⟨getProp_updEntity_propsEq st e (fun ent => { ent with pk := some p })
        (fun en => rfl) ent0 pn0,
      ⟨[], by simp [UoWState.updEntity], by simp⟩, rfl, ?_⟩
    intro en h
    exact getEntity_updEntity_typeName st e (fun ent => { ent with pk := some p })
      (fun en => rfl) ent0 en h

theorem drainStep_setProp (st : UoWState) (e : EntityId) (pn : String) (v : PropValue)
    (ent0 : EntityId) (pn0 : String) (h : ¬ (e = ent0 ∧ pn = pn0)) :
    DrainStep ent0 pn0 st (st.setProp e pn v) := by
  refine ⟨getProp_setProp_other st e pn v ent0 pn0 (fun hh => h ⟨hh.1.symm, hh.2.symm⟩),
    ⟨[], by simp [UoWState.setProp, UoWState.updEntity], by simp⟩, rfl, ?_⟩
  intro en hen
  exact getEntity_updEntity_typeName st e
    (fun ent => { ent with props := aset ent.props pn v }) (fun en => rfl) ent0 en hen

/-- `stripProp` is a drain step for any field it is not allowed to touch, and
it never changes the change set's entity or kind. -/
theorem drainStep_stripProp (st : UoWState) (cs : ChangeSet) (loc : Option Nat)
    (prop : EntityProperty) (ent0 : EntityId) (pn0 : String)
    (h : ¬ (cs.entity = ent0 ∧ prop.name = pn0)) :
    DrainStep ent0 pn0 st (stripProp st cs loc prop).1 ∧
      (stripProp st cs loc prop).2.entity = cs.entity ∧
      (stripProp st cs loc prop).2.type = cs.type := by
  unfold stripProp
  split
  · rename_i t ht
    split
    · rename_i c2 hc2
      split
      · rename_i hc
        simp only []
        refine ⟨?_, ?_, ?_⟩
        · have hstep : DrainStep ent0 pn0 st
              { (st.delProp cs.entity prop.name) with
                extraUpdates := st.extraUpdates ++
                  [(cs.entity, prop.name, PropValue.toOne (some t))] } := by
            refine ⟨?_, ⟨[(cs.entity, prop.name, PropValue.toOne (some t))], rfl, ?_⟩, rfl, ?_⟩
            · exact getProp_delProp_other st cs.entity prop.name ent0 pn0
                (fun hh => h ⟨hh.1.symm, hh.2.symm⟩)
            · intro u hu
              rcases List.mem_singleton.mp hu with rfl
              exact fun hh => h ⟨hh.1, hh.2⟩
            · intro en hen
              exact getEntity_updEntity_typeName st cs.entity
                (fun en => { en with props := aerase en.props prop.name })
                (fun en => rfl) ent0 en hen
          cases loc with
          | none => exact hstep
          | some i =>
            exact drainStep_trans hstep
              ⟨rfl, ⟨[], by simp, by simp⟩, rfl, fun en hh => ⟨en, hh, rfl⟩⟩
        · cases loc <;> trivial
        · cases loc <;> trivial
      · exact ⟨drainStep_refl _ _ _, rfl, rfl⟩
    · exact ⟨drainStep_refl _ _ _, rfl, rfl⟩
  all_goals exact ⟨drainStep_refl _ _ _, rfl, rfl⟩

/-- `stripPendingRefs` is a drain step for any field no stripped property is
allowed to touch. -/
theorem drainStep_stripPendingRefs (ent0 : EntityId) (pn0 : String) :
    ∀ (props : List EntityProperty) (st : UoWState) (cs : ChangeSet) (loc : Option Nat),
      (∀ p ∈ props, ((p.reference = ReferenceType.oneToOne ∧ p.owner) ∨
          p.reference = ReferenceType.manyToOne) → ¬ (cs.entity = ent0 ∧ p.name = pn0)) →
      DrainStep ent0 pn0 st (stripPendingRefs st cs loc props).1 ∧
        (stripPendingRefs st cs loc props).2.entity = cs.entity ∧
        (stripPendingRefs st cs loc props).2.type = cs.type := by
  intro props
  induction props with
  | nil => exact fun st cs loc h => ⟨drainStep_refl _ _ _, rfl, rfl⟩
  | cons p rest ih =>
    intro st cs loc h
    unfold stripPendingRefs
    by_cases hp : ((p.reference = ReferenceType.oneToOne ∧ p.owner) ∨
        p.reference = ReferenceType.manyToOne)
    · rw [if_pos hp]
      rcases hsp : stripProp st cs loc p with ⟨st1, cs1⟩
      have hcore := drainStep_stripProp st cs loc p ent0 pn0 (h p (by simp) hp)
      rw [hsp] at hcore
      obtain ⟨hd, hent, hty⟩ := hcore
      have hrest : ∀ q ∈ rest, ((q.reference = ReferenceType.oneToOne ∧ q.owner) ∨
          q.reference = ReferenceType.manyToOne) → ¬ (cs1.entity = ent0 ∧ q.name = pn0) := by
        intro q hq hkq
        rw [hent]
        exact h q (by simp [hq]) hkq
      obtain ⟨hd2, he2, ht2⟩ := ih st1 cs1 loc hrest
      exact ⟨drainStep_trans hd hd2, he2.trans hent, ht2.trans hty⟩
    · rw [if_neg hp]
      exact ih st cs loc fun q hq hkq => h q (by simp [hq]) hkq

/-- The change set built by `computeChangeSet` records the entity and its type
name. -/
theorem computeChangeSet_name_entity (M : Metadata) (st : UoWState) (e : EntityId)
    (ent : Entity) (cs : ChangeSet) (h : computeChangeSet M st e ent = some cs) :
    cs.name = ent.typeName ∧ cs.entity = e := by
  unfold computeChangeSet at h
  split at h
  · cases h
    exact ⟨rfl, rfl⟩
  · rename_i snap hsnap
    simp only [] at h
    by_cases hemp : (ent.props.filter fun kv => decide (alookup snap kv.1 ≠ some kv.2)).isEmpty = true
    · rw [if_pos hemp] at h
      cases h
    · rw [if_neg hemp] at h
      cases h
      exact ⟨rfl, rfl⟩

/-- `commitChangeSet` is a drain step for any field that no owning to-one
property of the committed type may address. -/
theorem drainStep_commitChangeSet (M : Metadata) (fuel : Nat) (st : UoWState)
    (cs : ChangeSet) (loc : Option Nat) (d : Driver) (ent0 : EntityId) (pn0 : String)
    (e1 : Option DriverErr) (st' : UoWState)
    (hcs : ∀ p ∈ (M cs.name).properties, ((p.reference = ReferenceType.oneToOne ∧ p.owner) ∨
        p.reference = ReferenceType.manyToOne) → ¬ (cs.entity = ent0 ∧ p.name = pn0))
    (h : UnitOfWork.commitChangeSet M fuel st cs loc d = some (e1, st')) :
    DrainStep ent0 pn0 st st' := by
  rw [UnitOfWork.commitChangeSet] at h
  simp only [] at h
  rcases hsc : (if cs.type = ChangeSetType.create then
      stripPendingRefs st cs loc (M cs.name).properties else (st, cs)) with ⟨st1, cs1⟩
  rw [hsc] at h
  have hstrip : DrainStep ent0 pn0 st st1 ∧ cs1.entity = cs.entity ∧ cs1.type = cs.type := by
    by_cases hty : cs.type = ChangeSetType.create
    · rw [if_pos hty] at hsc
      have := drainStep_stripPendingRefs ent0 pn0 (M cs.name).properties st cs loc hcs
      rw [hsc] at this
      exact this
    · rw [if_neg hty] at hsc
      cases hsc
      exact ⟨drainStep_refl _ _ _, rfl, rfl⟩
  obtain ⟨hd1, hent1, hty1⟩ := hstrip
  rcases hdp : d.persistChangeSet cs1 with e | newPk <;> rw [hdp] at h
  · simp only [Option.some_inj, Prod.mk.injEq] at h
    rw [← h.2]
    exact hd1
  · simp only [] at h
    have hd2 : DrainStep ent0 pn0 st1
        (if cs1.type = ChangeSetType.create then assignPk st1 cs1.entity newPk else st1) := by
      split
      · exact drainStep_assignPk st1 cs1.entity newPk ent0 pn0
      · exact drainStep_refl _ _ _
    rcases hs2 : (if cs1.type = ChangeSetType.create then assignPk st1 cs1.entity newPk
        else st1) with st2
    rw [hs2] at hd2 h
    have hd3 : DrainStep ent0 pn0 st2 (markPersisted st2 loc) :=
      drainStep_markPersisted st2 loc ent0 pn0
    have hpre : DrainStep ent0 pn0 st (markPersisted st2 loc) :=
      drainStep_trans (drainStep_trans hd1 hd2) hd3
    rcases hct : cs1.type with _ | _ | _ <;> rw [hct] at h
    · rcases hm : UnitOfWork.merge M fuel (markPersisted st2 loc) cs1.entity [] true
        with _ | r <;> rw [hm] at h
      · cases h
      · simp only [Option.map_some', Option.some_inj, Prod.mk.injEq] at h
        rw [← h.2]
        exact drainStep_trans hpre
          (cascFrame_drainStep ((cascadeFamFrame M fuel).2.2.1 _ _ _ _ _ hm) ent0 pn0)
    · rcases hm : UnitOfWork.merge M fuel (markPersisted st2 loc) cs1.entity [] true
        with _ | r <;> rw [hm] at h
      · cases h
      · simp only [Option.map_some', Option.some_inj, Prod.mk.injEq] at h
        rw [← h.2]
        exact drainStep_trans hpre
          (cascFrame_drainStep ((cascadeFamFrame M fuel).2.2.1 _ _ _ _ _ hm) ent0 pn0)
    · simp only [Option.some_inj, Prod.mk.injEq] at h
      rw [← h.2]
      exact drainStep_trans hpre
        (cascFrame_drainStep (cascFrame_unsetIdentity (markPersisted st2 loc) cs1.entity) ent0 pn0)

/-- The collection-synchronization loop only refreshes snapshots and dirty
flags: a to-many field keeps its membership. -/
theorem syncCollections_pred (d : Driver) (ent0 : EntityId) (pn0 : String)
    (items0 : List EntityId) :
    ∀ (lst : List (EntityId × String)) (st : UoWState) (e1 : Option DriverErr)
      (st' : UoWState),
      UnitOfWork.syncCollections st d lst = (e1, st') →
      (∃ c, st.getProp ent0 pn0 = some (PropValue.toMany c) ∧ c.items = items0) →
      ∃ c, st'.getProp ent0 pn0 = some (PropValue.toMany c) ∧ c.items = items0 := by
  intro lst
  induction lst with
  | nil =>
    intro st e1 st' h hP
    rw [UnitOfWork.syncCollections] at h
    rw [Prod.mk.injEq] at h
    rw [← h.2]
    exact hP
  | cons u rest ih =>
    intro st e1 st' h hP
    rcases u with ⟨o, pnc⟩
    rw [UnitOfWork.syncCollections] at h
    rcases hdc : d.syncCollection o pnc with e | _ <;> rw [hdc] at h
    · rw [Prod.mk.injEq] at h
      rw [← h.2]
      exact hP
    · simp only [] at h
      refine ih _ _ _ h ?_
      obtain ⟨c, hc, hi⟩ := hP
      by_cases ho : o = ent0
      · subst ho
        rcases hge : st.getEntity o with _ | en
        · rw [UoWState.getProp, hge] at hc
          cases hc
        · have halk : alookup en.props pn0 = some (PropValue.toMany c) := by
            rw [UoWState.getProp, hge] at hc
            exact hc
          rw [UoWState.getProp, getEntity_updEntity_self, hge, Option.map_some']
          simp only [Option.bind]
          by_cases hpn : pnc = pn0
          · subst hpn
            rw [halk]
            refine ⟨{ c with snapshot := c.items, dirty := false }, ?_, hi⟩
            simp [alookup_aset_self]
          · rcases halk2 : alookup en.props pnc with _ | v
            · exact ⟨c, halk, hi⟩
            · rcases v with n | o2 | c2
              · exact ⟨c, halk, hi⟩
              · exact ⟨c, halk, hi⟩
              · refine ⟨c, ?_, hi⟩
                show alookup (aset en.props pnc (PropValue.toMany
                    { items := c2.items, initialized := c2.initialized, dirty := false,
                      snapshot := c2.items })) pn0 = some (PropValue.toMany c)
                rw [alookup_aset_other en.props pnc _ pn0 (fun hh => hpn hh.symm)]
                exact halk
      · refine ⟨c, ?_, hi⟩
        rw [UoWState.getProp, getEntity_updEntity_other _ _ _ _ (fun hh => ho hh.symm)]
        rw [UoWState.getProp] at hc
        exact hc

/-- The extra-update drain with a single pending deferred assignment for the
field `(ent0, pn0)` re-applies it: when the drain completes without a driver
error the live field holds a collection with the deferred membership. -/
theorem drainExtraUpdates_applies (M : Metadata) (d : Driver) (ent0 : EntityId)
    (pn0 tn0 : String) (coll0 : Coll)
    (H2 : ∀ p ∈ (M tn0).properties, p.name = pn0 → p.reference = ReferenceType.manyToMany) :
    ∀ (fuel : Nat) (st st' : UoWState),
      (∃ en, st.getEntity ent0 = some en ∧ en.typeName = tn0) →
      (st.extraUpdates.filter (updTargets ent0 pn0) = [(ent0, pn0, PropValue.toMany coll0)] ∨
        (st.extraUpdates.filter (updTargets ent0 pn0) = [] ∧
          ∃ c, st.getProp ent0 pn0 = some (PropValue.toMany c) ∧ c.items = coll0.items)) →
      UnitOfWork.drainExtraUpdates M fuel st d = some (none, st') →
      ∃ c, st'.getProp ent0 pn0 = some (PropValue.toMany c) ∧ c.items = coll0.items := by
  intro fuel
  induction fuel with
  | zero =>
    intro st st' hman hinv h
    rw [UnitOfWork.drainExtraUpdates] at h
    cases h
  | succ f ih =>
    intro st st' hman hinv h
    rw [UnitOfWork.drainExtraUpdates] at h
    rcases hq : st.extraUpdates with _ | ⟨⟨e, pn, v⟩, rest⟩ <;> rw [hq] at h <;>
      simp only [] at h
    · rcases hinv with hl | ⟨_, hr⟩
      · rw [hq] at hl
        exact absurd hl (by simp)
      · rw [Option.some_inj] at h
        rcases hsy : UnitOfWork.syncCollections st d st.collectionUpdates with ⟨e1, st1⟩
        rw [hsy] at h
        rw [Prod.mk.injEq] at h
        rw [← h.2]
        exact syncCollections_pred d ent0 pn0 coll0.items st.collectionUpdates st e1 st1 hsy hr
    · obtain ⟨en, hen, htn⟩ := hman
      have hen' : UoWState.getEntity { st with extraUpdates := rest } ent0 = some en := hen
      have hman1 : ∃ en1,
          (({ st with extraUpdates := rest } : UoWState).setProp e pn v).getEntity ent0
            = some en1 ∧ en1.typeName = tn0 := by
        obtain ⟨en1, h1, h2⟩ := getEntity_updEntity_typeName { st with extraUpdates := rest } e
          (fun ent => { ent with props := aset ent.props pn v }) (fun en => rfl) ent0 en hen'
        exact ⟨en1, h1, h2.trans htn⟩
      have hextra1 : (({ st with extraUpdates := rest } : UoWState).setProp e pn v).extraUpdates
          = rest := rfl
      have hinv1 :
          ((({ st with extraUpdates := rest } : UoWState).setProp e pn v).extraUpdates.filter
              (updTargets ent0 pn0) = [(ent0, pn0, PropValue.toMany coll0)] ∨
            ((({ st with extraUpdates := rest } : UoWState).setProp e pn v).extraUpdates.filter
                (updTargets ent0 pn0) = [] ∧
              ∃ c, (({ st with extraUpdates := rest } : UoWState).setProp e pn v).getProp ent0 pn0
                  = some (PropValue.toMany c) ∧ c.items = coll0.items)) := by
        rw [hextra1]
        by_cases htgt : e = ent0 ∧ pn = pn0
        · rcases hinv with hl | ⟨hr0, _⟩
          · rw [hq] at hl
            rw [List.filter_cons_of_pos (by simp [updTargets, htgt])] at hl
            rw [List.cons.injEq] at hl
            have hv : v = PropValue.toMany coll0 := by
              have := hl.1
              rw [Prod.mk.injEq, Prod.mk.injEq] at this
              exact this.2.2
            refine Or.inr ⟨hl.2, coll0, ?_, rfl⟩
            rw [htgt.1, htgt.2, hv] at *
            exact getProp_setProp_self { st with extraUpdates := rest } ent0 pn0
              (PropValue.toMany coll0) en hen'
          · rw [hq] at hr0
            rw [List.filter_cons_of_pos (by simp [updTargets, htgt])] at hr0
            cases hr0
        · have hfrest : rest.filter (updTargets ent0 pn0)
              = st.extraUpdates.filter (updTargets ent0 pn0) := by
            rw [hq, List.filter_cons_of_neg (by simp [updTargets]; intro h1 h2; exact htgt ⟨h1, h2⟩)]
          have hgp : (({ st with extraUpdates := rest } : UoWState).setProp e pn v).getProp ent0 pn0
              = st.getProp ent0 pn0 :=
            getProp_setProp_other { st with extraUpdates := rest } e pn v ent0 pn0
              (fun hh => htgt ⟨hh.1.symm, hh.2.symm⟩)
          rcases hinv with hl | ⟨hr0, c, hc, hi⟩
          · exact Or.inl (hfrest.trans hl)
          · exact Or.inr ⟨hfrest.trans hr0, c, hgp.trans hc, hi⟩
      split at h
      · exact ih _ _ hman1 hinv1 h
      · rename_i ent1 hge
        split at h
        · exact ih _ _ hman1 hinv1 h
        · rename_i cs hcc
          split at h
          · cases h
          · rename_i e2 st2 heq2
            rw [Option.some_inj, Prod.mk.injEq] at h
            exact absurd h.1 (by simp)
          · rename_i st2 hcm
            have hcsne := computeChangeSet_name_entity M _ e ent1 cs hcc
            have hcs : ∀ p ∈ (M cs.name).properties,
                ((p.reference = ReferenceType.oneToOne ∧ p.owner) ∨
                  p.reference = ReferenceType.manyToOne) →
                ¬ (cs.entity = ent0 ∧ p.name = pn0) := by
              intro p hp hk habs
              obtain ⟨en1, hge1, htn1⟩ := hman1
              have he0 : e = ent0 := hcsne.2 ▸ habs.1
              have : ent1 = en1 := by
                subst he0
                rw [hge] at hge1
                exact Option.some_inj.mp hge1
              have hname : cs.name = tn0 := by
                rw [hcsne.1, this, htn1]
              rw [hname] at hp
              have := H2 p hp habs.2
              rcases hk with ⟨h1, _⟩ | h1 <;> rw [this] at h1 <;> cases h1
            have hds := drainStep_commitChangeSet M _ _ cs none d ent0 pn0 none st2 hcs hcm
            obtain ⟨hgp2, ⟨l, hl, hnl⟩, _, htyp2⟩ := hds
            have hman2 : ∃ en2, st2.getEntity ent0 = some en2 ∧ en2.typeName = tn0 := by
              obtain ⟨en1, hge1, htn1⟩ := hman1
              obtain ⟨en2, hge2, htn2⟩ := htyp2 en1 hge1
              exact ⟨en2, hge2, htn2.trans htn1⟩
            have hfl : l.filter (updTargets ent0 pn0) = [] := by
              rw [List.filter_eq_nil]
              intro u hu
              simp only [updTargets, decide_eq_true_eq]
              exact hnl u hu
            have hf2 : st2.extraUpdates.filter (updTargets ent0 pn0)
                = (({ st with extraUpdates := rest } : UoWState).setProp e pn v).extraUpdates.filter
                    (updTargets ent0 pn0) := by
              rw [hl, List.filter_append, hfl, List.append_nil]
            have hinv2 :
                (st2.extraUpdates.filter (updTargets ent0 pn0)
                    = [(ent0, pn0, PropValue.toMany coll0)] ∨
                  (st2.extraUpdates.filter (updTargets ent0 pn0) = [] ∧
                    ∃ c, st2.getProp ent0 pn0 = some (PropValue.toMany c) ∧
                      c.items = coll0.items)) := by
              rcases hinv1 with hl1 | ⟨hr1, c, hc, hi⟩
              · exact Or.inl (hf2.trans hl1)
              · exact Or.inr ⟨hf2.trans hr1, c, hgp2.trans hc, hi⟩
            exact ih _ _ hman2 hinv2 h

/-- C2: during change-set discovery, a dirty many-to-many collection that
closes a cycle back into the graph being discovered (some not-yet-snapshotted
item already in the shared visited set) is not recursed into: the deferred
`(entity, relationName, collection)` assignment is queued on the extra-update
queue, the entity's live collection value is replaced by a fresh empty
collection, and the visited set is left unchanged; and every completed run of
the extra-update drain over the queued assignment re-applies the original
collection's membership to the live field. -/
theorem self_referenced_collection_deferred
    (M : Metadata) (f : Nat) (st : UoWState) (e : EntityId) (prop : EntityProperty)
    (visited : List EntityId) (c : Coll) (d : Driver) (en : Entity) (tn0 : String)
    (hent : st.getEntity e = some en) (htn : en.typeName = tn0)
    (href : unwrapReference st e prop = some (PropValue.toMany c))
    (hm2m : prop.reference = ReferenceType.manyToMany) (hdirty : c.dirty = true)
    (hself : isCollectionSelfReferenced st c visited = true)
    (hnp : st.extraUpdates.filter (updTargets e prop.name) = [])
    (H2 : ∀ p ∈ (M tn0).properties, p.name = prop.name →
        p.reference = ReferenceType.manyToMany) :
    ∃ st1,
      UnitOfWork.processReference M (f + 2) st e prop visited = some (st1, visited) ∧
      st1.extraUpdates = st.extraUpdates ++ [(e, prop.name, PropValue.toMany c)] ∧
      st1.getProp e prop.name = some (PropValue.toMany emptyCollection) ∧
      ∀ (fuel : Nat) (st' : UoWState),
        UnitOfWork.drainExtraUpdates M fuel st1 d = some (none, st') →
        ∃ c', st'.getProp e prop.name = some (PropValue.toMany c') ∧ c'.items = c.items := by
  refine ⟨{ (st.setProp e prop.name (PropValue.toMany emptyCollection)) with
      extraUpdates := st.extraUpdates ++ [(e, prop.name, PropValue.toMany c)] }, ?_, rfl, ?_, ?_⟩
  · rw [UnitOfWork.processReference, href]
    simp only []
    rw [if_pos ⟨hm2m, hdirty⟩, UnitOfWork.processToManyReference, if_pos hself]
  · exact getProp_setProp_self st e prop.name _ en hent
  · intro fuel st' h
    refine drainExtraUpdates_applies M d e prop.name tn0 c H2 fuel _ st' ?_ ?_ h
    · obtain ⟨en1, h1, h2⟩ := getEntity_updEntity_typeName st e
        (fun ent => { ent with
          props := aset ent.props prop.name (PropValue.toMany emptyCollection) })
        (fun en => rfl) e en hent
      exact ⟨en1, h1, h2.trans htn⟩
    · refine Or.inl ?_
      show (st.extraUpdates ++ [(e, prop.name, PropValue.toMany c)]).filter
          (updTargets e prop.name) = [(e, prop.name, PropValue.toMany c)]
      rw [List.filter_append, hnp, List.nil_append,
        List.filter_cons_of_pos (by simp [updTargets]), List.filter_nil]

/-- The many-to-many relation property of the deferred-collection scenario. -/
def propC2 : EntityProperty :=
  { name := "items", reference := ReferenceType.manyToMany, cascade := [], owner := true
    nullable := false, orphanRemoval := false, type := "A", mappedBy := "" }

/-- Metadata for the deferred-collection scenario: one type with one
many-to-many self-relation. -/
def MC2 : Metadata := fun t =>
  if t = "A" then
    { name := "A", collection := "a", properties := [propC2], versionProperty := none }
  else { name := "", collection := "", properties := [], versionProperty := none }

/-- A dirty collection containing the entity itself. -/
def cC2 : Coll := { items := [1], initialized := true, dirty := true, snapshot := [] }

/-- An entity whose collection refers back to itself. -/
def enC2 : Entity :=
  { typeName := "A", pk := some "1", initialized := true, em := false
    props := [("items", PropValue.toMany cC2)] }

/-- A state holding that entity, with it already in the visited set of the
running discovery pass. -/
def stC2 : UoWState := { stEmpty with store := [(1, enC2)] }

theorem self_referenced_collection_deferred_witness :
    ∃ st1,
      UnitOfWork.processReference MC2 2 stC2 1 propC2 [1] = some (st1, [1]) ∧
      st1.extraUpdates = stC2.extraUpdates ++ [(1, propC2.name, PropValue.toMany cC2)] ∧
      st1.getProp 1 propC2.name = some (PropValue.toMany emptyCollection) ∧
      ∀ (fuel : Nat) (st' : UoWState),
        UnitOfWork.drainExtraUpdates MC2 fuel st1 dOk = some (none, st') →
        ∃ c', st'.getProp 1 propC2.name = some (PropValue.toMany c') ∧
          c'.items = cC2.items :=
  self_referenced_collection_deferred MC2 0 stC2 1 propC2 [1] cC2 dOk enC2 "A"
    rfl rfl rfl rfl rfl (by decide) rfl (by decide)

/-! ## Termination and at-most-once dispatch of a cascade pass -/

/-- More fuel never changes a successful cascade-family result. -/
theorem cascadeFamMono (M : Metadata) : ∀ fuel : Nat,
    (∀ st e vis chk r, UnitOfWork.persist M fuel st e vis chk = some r →
      UnitOfWork.persist M (fuel + 1) st e vis chk = some r) ∧
    (∀ st e vis r, UnitOfWork.remove M fuel st e vis = some r →
      UnitOfWork.remove M (fuel + 1) st e vis = some r) ∧
    (∀ st e vis md r, UnitOfWork.merge M fuel st e vis md = some r →
      UnitOfWork.merge M (fuel + 1) st e vis md = some r) ∧
    (∀ st e ty vis chk r, UnitOfWork.cascade M fuel st e ty vis chk = some r →
      UnitOfWork.cascade M (fuel + 1) st e ty vis chk = some r) ∧
    (∀ st props e ty vis chk r,
      UnitOfWork.cascadeReferences M fuel st props e ty vis chk = some r →
      UnitOfWork.cascadeReferences M (fuel + 1) st props e ty vis chk = some r) ∧
    (∀ st e prop ty vis chk r,
      UnitOfWork.cascadeReference M fuel st e prop ty vis chk = some r →
      UnitOfWork.cascadeReference M (fuel + 1) st e prop ty vis chk = some r) ∧
    (∀ st items ty vis chk r,
      UnitOfWork.cascadeItems M fuel st items ty vis chk = some r →
      UnitOfWork.cascadeItems M (fuel + 1) st items ty vis chk = some r) := by
  intro fuel
  induction fuel with
  | zero =>
    refine ⟨?_, ?_, ?_, ?_, ?_, ?_, ?_⟩ <;> intro st
    · intro e vis chk r h; simp [UnitOfWork.persist] at h
    · intro e vis r h; simp [UnitOfWork.remove] at h
    · intro e vis md r h; simp [UnitOfWork.merge] at h
    · intro e ty vis chk r h; simp [UnitOfWork.cascade] at h
    · intro props e ty vis chk r h; simp [UnitOfWork.cascadeReferences] at h
    · intro e prop ty vis chk r h; simp [UnitOfWork.cascadeReference] at h
    · intro items ty vis chk r h; simp [UnitOfWork.cascadeItems] at h
  | succ f ih =>
    obtain ⟨ihP, ihR, ihM, ihC, ihCRs, ihCR, ihCI⟩ := ih
    refine ⟨?_, ?_, ?_, ?_, ?_, ?_, ?_⟩
    · -- persist
      intro st e vis chk r h
      rw [UnitOfWork.persist] at h ⊢
      by_cases h1 : e ∈ st.persistStack
      · rw [if_pos h1] at h ⊢
        exact h
      · rw [if_neg h1] at h ⊢
        by_cases h2 : chk = true ∧ e ∈ st.removeStack
        · rw [if_pos h2] at h ⊢
          exact h
        · rw [if_neg h2] at h ⊢
          rcases hge : st.getEntity e with _ | ent <;> rw [hge] at h
          · exact h
          · simp only [] at h ⊢
            exact ihC _ _ _ _ _ _ h
    · -- remove
      intro st e vis r h
      rw [UnitOfWork.remove] at h ⊢
      by_cases h1 : e ∈ st.removeStack
      · rw [if_pos h1] at h ⊢
        exact h
      · rw [if_neg h1] at h ⊢
        rcases hge : st.getEntity e with _ | ent <;> rw [hge] at h
        · exact h
        · simp only [] at h ⊢
          exact ihC _ _ _ _ _ _ h
    · -- merge
      intro st e vis md r h
      rw [UnitOfWork.merge] at h ⊢
      rcases hge : st.getEntity e with _ | ent <;> rw [hge] at h
      · exact h
      · simp only [] at h ⊢
        rcases hpk : ent.pk with _ | p <;> rw [hpk] at h
        · exact h
        · simp only [] at h ⊢
          exact ihC _ _ _ _ _ _ h
    · -- cascade
      intro st e ty vis chk r h
      rw [UnitOfWork.cascade] at h ⊢
      by_cases h1 : e ∈ vis
      · rw [if_pos h1] at h ⊢
        exact h
      · rw [if_neg h1] at h ⊢
        simp only [] at h ⊢
        cases ty
        · -- persist
          rcases hst : UnitOfWork.persist M f
              { st with opLog := st.opLog ++ [(Cascade.persist, e)] } e (vis ++ [e]) chk
              with _ | ⟨st1, vis2⟩ <;> rw [hst] at h
          · cases h
          · rw [ihP _ _ _ _ _ hst]
            simp only [] at h ⊢
            rcases hge : st1.getEntity e with _ | ent <;> rw [hge] at h
            · exact h
            · exact ihCRs _ _ _ _ _ _ _ h
        · -- merge
          rcases hst : UnitOfWork.merge M f
              { st with opLog := st.opLog ++ [(Cascade.merge, e)] } e (vis ++ [e]) true
              with _ | ⟨st1, vis2⟩ <;> rw [hst] at h
          · cases h
          · rw [ihM _ _ _ _ _ hst]
            simp only [] at h ⊢
            rcases hge : st1.getEntity e with _ | ent <;> rw [hge] at h
            · exact h
            · exact ihCRs _ _ _ _ _ _ _ h
        · -- remove
          rcases hst : UnitOfWork.remove M f
              { st with opLog := st.opLog ++ [(Cascade.remove, e)] } e (vis ++ [e])
              with _ | ⟨st1, vis2⟩ <;> rw [hst] at h
          · cases h
          · rw [ihR _ _ _ _ hst]
            simp only [] at h ⊢
            rcases hge : st1.getEntity e with _ | ent <;> rw [hge] at h
            · exact h
            · exact ihCRs _ _ _ _ _ _ _ h
        · -- all
          simp only [] at h ⊢
          rcases hge : st.getEntity e with _ | ent <;> rw [hge] at h
          · exact h
          · exact ihCRs _ _ _ _ _ _ _ h
    · -- cascadeReferences
      intro st props e ty vis chk r h
      rw [UnitOfWork.cascadeReferences.eq_def] at h ⊢
      simp only [] at h ⊢
      cases props with
      | nil => exact h
      | cons prop rest =>
        simp only [] at h ⊢
        rcases hcr : UnitOfWork.cascadeReference M f st e prop ty vis chk
            with _ | ⟨st1, vis1⟩ <;> rw [hcr] at h
        · cases h
        · rw [ihCR _ _ _ _ _ _ _ hcr]
          simp only [] at h ⊢
          exact ihCRs _ _ _ _ _ _ _ h
    · -- cascadeReference
      intro st e prop ty vis chk r h
      rw [UnitOfWork.cascadeReference] at h ⊢
      by_cases hsc : shouldCascade prop ty = true
      · rw [if_pos hsc] at h ⊢
        rcases hur : unwrapReference (fixMissingReference st e prop) e prop
            with _ | v <;> rw [hur] at h
        · exact h
        · rcases v with n | o | c
          · exact h
          · rcases o with _ | t
            · exact h
            · simp only [] at h ⊢
              by_cases hk : prop.reference = ReferenceType.manyToOne ∨
                  prop.reference = ReferenceType.oneToOne
              · rw [if_pos hk] at h ⊢
                exact ihC _ _ _ _ _ _ h
              · rw [if_neg hk] at h ⊢
                exact h
          · simp only [] at h ⊢
            by_cases hk : (prop.reference = ReferenceType.oneToMany ∨
                prop.reference = ReferenceType.manyToMany) ∧
                collIsInitialized (fixMissingReference st e prop) c
                  (ty = Cascade.persist) = true
            · rw [if_pos hk] at h ⊢
              exact ihCI _ _ _ _ _ _ h
            · rw [if_neg hk] at h ⊢
              exact h
      · rw [if_neg hsc] at h ⊢
        exact h
    · -- cascadeItems
      intro st items ty vis chk r h
      rw [UnitOfWork.cascadeItems.eq_def] at h ⊢
      simp only [] at h ⊢
      cases items with
      | nil => exact h
      | cons i rest =>
        simp only [] at h ⊢
        rcases hc : UnitOfWork.cascade M f st i ty vis chk
            with _ | ⟨st1, vis1⟩ <;> rw [hc] at h
        · cases h
        · rw [ihC _ _ _ _ _ _ hc]
          simp only [] at h ⊢
          exact ihCI _ _ _ _ _ _ h

/-- Fuel monotonicity, `≤` form. -/
theorem cascadeFamMonoLe (M : Metadata) : ∀ {f1 f2 : Nat}, f1 ≤ f2 →
    (∀ st e vis chk r, UnitOfWork.persist M f1 st e vis chk = some r →
      UnitOfWork.persist M f2 st e vis chk = some r) ∧
    (∀ st e vis r, UnitOfWork.remove M f1 st e vis = some r →
      UnitOfWork.remove M f2 st e vis = some r) ∧
    (∀ st e vis md r, UnitOfWork.merge M f1 st e vis md = some r →
      UnitOfWork.merge M f2 st e vis md = some r) ∧
    (∀ st e ty vis chk r, UnitOfWork.cascade M f1 st e ty vis chk = some r →
      UnitOfWork.cascade M f2 st e ty vis chk = some r) ∧
    (∀ st props e ty vis chk r,
      UnitOfWork.cascadeReferences M f1 st props e ty vis chk = some r →
      UnitOfWork.cascadeReferences M f2 st props e ty vis chk = some r) ∧
    (∀ st e prop ty vis chk r,
      UnitOfWork.cascadeReference M f1 st e prop ty vis chk = some r →
      UnitOfWork.cascadeReference M f2 st e prop ty vis chk = some r) ∧
    (∀ st items ty vis chk r,
      UnitOfWork.cascadeItems M f1 st items ty vis chk = some r →
      UnitOfWork.cascadeItems M f2 st items ty vis chk = some r) := by
  intro f1 f2 hle
  induction hle with
  | refl =>
    exact ⟨fun _ _ _ _ _ h => h, fun _ _ _ _ h => h, fun _ _ _ _ _ h => h,
      fun _ _ _ _ _ _ h => h, fun _ _ _ _ _ _ _ h => h, fun _ _ _ _ _ _ _ h => h,
      fun _ _ _ _ _ _ h => h⟩
  | step h2 ih =>
    obtain ⟨iP, iR, iM, iC, iCRs, iCR, iCI⟩ := ih
    obtain ⟨mP, mR, mM, mC, mCRs, mCR, mCI⟩ := cascadeFamMono M _
    exact ⟨fun st e vis chk r h => mP _ _ _ _ _ (iP _ _ _ _ _ h),
      fun st e vis r h => mR _ _ _ _ (iR _ _ _ _ h),
      fun st e vis md r h => mM _ _ _ _ _ (iM _ _ _ _ _ h),
      fun st e ty vis chk r h => mC _ _ _ _ _ _ (iC _ _ _ _ _ _ h),
      fun st props e ty vis chk r h => mCRs _ _ _ _ _ _ _ (iCRs _ _ _ _ _ _ _ h),
      fun st e prop ty vis chk r h => mCR _ _ _ _ _ _ _ (iCR _ _ _ _ _ _ _ h),
      fun st items ty vis chk r h => mCI _ _ _ _ _ _ (iCI _ _ _ _ _ _ h)⟩

/-- A cascade on an already-visited entity returns at once. -/
theorem cascade_visited (M : Metadata) (st : UoWState) (e : EntityId) (ty : Cascade)
    (vis : List EntityId) (chk : Bool) (h : e ∈ vis) :
    UnitOfWork.cascade M 1 st e ty vis chk = some (st, vis) := by
  rw [UnitOfWork.cascade, if_pos h]

/-- `persist` needs only two units of fuel once its entity is already in the
visited set of the pass (its inner cascade returns at once). -/
theorem persist_total_visited (M : Metadata) (st : UoWState) (e : EntityId)
    (vis : List EntityId) (chk : Bool) (h : e ∈ vis) :
    ∃ r, UnitOfWork.persist M 2 st e vis chk = some r := by
  rw [UnitOfWork.persist]
  by_cases h1 : e ∈ st.persistStack
  · rw [if_pos h1]
    exact ⟨_, rfl⟩
  · rw [if_neg h1]
    by_cases h2 : chk = true ∧ e ∈ st.removeStack
    · rw [if_pos h2]
      exact ⟨_, rfl⟩
    · rw [if_neg h2]
      rcases hge : st.getEntity e with _ | ent
      · exact ⟨_, rfl⟩
      · simp only []
        exact ⟨_, cascade_visited M _ e Cascade.persist vis chk h⟩

theorem remove_total_visited (M : Metadata) (st : UoWState) (e : EntityId)
    (vis : List EntityId) (h : e ∈ vis) :
    ∃ r, UnitOfWork.remove M 2 st e vis = some r := by
  rw [UnitOfWork.remove]
  by_cases h1 : e ∈ st.removeStack
  · rw [if_pos h1]
    exact ⟨_, rfl⟩
  · rw [if_neg h1]
    rcases hge : st.getEntity e with _ | ent
    · exact ⟨_, rfl⟩
    · simp only []
      exact ⟨_, cascade_visited M _ e Cascade.remove vis false h⟩

theorem merge_total_visited (M : Metadata) (st : UoWState) (e : EntityId)
    (vis : List EntityId) (md : Bool) (h : e ∈ vis) :
    ∃ r, UnitOfWork.merge M 2 st e vis md = some r := by
  rw [UnitOfWork.merge]
  rcases hge : st.getEntity e with _ | ent
  · exact ⟨_, rfl⟩
  · simp only []
    rcases hpk : ent.pk with _ | p
    · exact ⟨_, rfl⟩
    · simp only []
      exact ⟨_, cascade_visited M _ e Cascade.merge vis false h⟩

/-- A filter by a stronger predicate is no longer. -/
theorem length_filter_implies {α : Type} (p q : α → Bool)
    (h : ∀ a, p a = true → q a = true) :
    ∀ l : List α, (l.filter p).length ≤ (l.filter q).length := by
  intro l
  induction l with
  | nil => simp
  | cons a t ih =>
    by_cases hp : p a = true
    · rw [List.filter_cons_of_pos hp, List.filter_cons_of_pos (h a hp)]
      simpa using ih
    · rw [List.filter_cons_of_neg (by simpa using hp)]
      by_cases hq : q a = true
      · rw [List.filter_cons_of_pos hq]
        exact Nat.le_succ_of_le ih
      · rw [List.filter_cons_of_neg (by simpa using hq)]
        exact ih

/-- A filter by a strictly stronger predicate, witnessed inside the list, is
strictly shorter. -/
theorem length_filter_lt {α : Type} (p q : α → Bool)
    (h : ∀ a, p a = true → q a = true) (a0 : α) (hq0 : q a0 = true)
    (hp0 : p a0 = false) :
    ∀ l : List α, a0 ∈ l → (l.filter p).length < (l.filter q).length := by
  intro l
  induction l with
  | nil => intro h0; cases h0
  | cons a t ih =>
    intro h0
    rcases List.mem_cons.mp h0 with rfl | hmem
    · rw [List.filter_cons_of_neg (by simp [hp0]), List.filter_cons_of_pos hq0]
      exact Nat.lt_succ_of_le (length_filter_implies p q h t)
    · by_cases hp : p a = true
      · rw [List.filter_cons_of_pos hp, List.filter_cons_of_pos (h a hp)]
        simpa using ih hmem
      · rw [List.filter_cons_of_neg (by simpa using hp)]
        by_cases hq : q a = true
        · rw [List.filter_cons_of_pos hq]
          exact Nat.lt_succ_of_lt (ih hmem)
        · rw [List.filter_cons_of_neg (by simpa using hq)]
          exact ih hmem

/-- The number of heap entities not yet visited by the pass. -/
def pot (st : UoWState) (vis : List EntityId) : Nat :=
  ((st.store.map (·.1)).filter fun i => decide (i ∉ vis)).length

/-- A larger visited set never increases the potential. -/
theorem pot_le_of_subset (st : UoWState) {vis vis' : List EntityId}
    (h : ∀ i, i ∈ vis → i ∈ vis') : pot st vis' ≤ pot st vis := by
  refine length_filter_implies _ _ ?_ _
  intro a ha
  simp only [decide_eq_true_eq] at ha ⊢
  intro hmem
  exact ha (h a hmem)

/-- A successful heap lookup puts the key in the key list. -/
theorem alookup_some_mem {α β : Type} [DecidableEq α] :
    ∀ (l : List (α × β)) (k : α) (v : β), alookup l k = some v → k ∈ l.map (·.1) := by
  intro l
  induction l with
  | nil => intro k v h; cases h
  | cons p t ih =>
    intro k v h
    rw [alookup] at h
    by_cases hp : p.1 = k
    · simp [hp]
    · rw [if_neg hp] at h
      simp [ih _ _ h]

/-- Visiting an entity that is on the heap strictly decreases the potential. -/
theorem pot_dec (st : UoWState) (vis : List EntityId) (e : EntityId) (ent : Entity)
    (hge : st.getEntity e = some ent) (hnv : e ∉ vis) :
    pot st (vis ++ [e]) < pot st vis := by
  refine length_filter_lt _ _ ?_ e ?_ ?_ _ (alookup_some_mem _ _ _ hge)
  · intro a ha
    simp only [decide_eq_true_eq, List.mem_append] at ha ⊢
    intro hmem
    exact ha (Or.inl hmem)
  · simpa using hnv
  · simp

/-- Equal heap shapes give equal heap key lists. -/
theorem dom_eq_of_shape {st st' : UoWState} (h : stShape st' = stShape st) :
    st'.store.map (·.1) = st.store.map (·.1) := by
  have := congrArg (List.map Prod.fst) h
  simpa [stShape, List.map_map, Function.comp] using this

/-- Equal heap shapes preserve absence from the heap. -/
theorem getEntity_none_of_shape_eq {st st' : UoWState} (h : stShape st' = stShape st)
    (e : EntityId) (hn : st.getEntity e = none) : st'.getEntity e = none := by
  have hm := getEntity_of_shape_eq h e
  rw [hn] at hm
  rcases h1 : st'.getEntity e with _ | en1
  · rfl
  · rw [h1] at hm
    simp at hm

/-- Appending a fresh element preserves `Nodup`. -/
theorem nodup_append_singleton {α : Type} (l : List α) (a : α) (h1 : l.Nodup)
    (h2 : a ∉ l) : (l ++ [a]).Nodup := by
  rw [List.nodup_append]
  refine ⟨h1, List.nodup_singleton a, ?_⟩
  intro x hx hxa
  rw [List.mem_singleton] at hxa
  subst hxa
  exact h2 hx

/-- `unsetIdentity` never touches the ghost operation log. -/
theorem opLog_unsetIdentity (st : UoWState) (e : EntityId) :
    (st.unsetIdentity e).opLog = st.opLog := by
  unfold UoWState.unsetIdentity
  split
  · rfl
  · simp only []
    split <;> rfl

/-- Every cascade-family call extends the visited set with a block of fresh,
pairwise-distinct entities and logs exactly one operation dispatch per newly
visited entity (none when the walk type is `all`). -/
theorem cascadeFamVisLog (M : Metadata) : ∀ fuel : Nat,
    (∀ st e vis chk r, UnitOfWork.persist M fuel st e vis chk = some r →
      ∃ nv, r.2 = vis ++ nv ∧ (vis.Nodup → r.2.Nodup) ∧
        r.1.opLog = st.opLog ++ nv.map fun i => (Cascade.persist, i)) ∧
    (∀ st e vis r, UnitOfWork.remove M fuel st e vis = some r →
      ∃ nv, r.2 = vis ++ nv ∧ (vis.Nodup → r.2.Nodup) ∧
        r.1.opLog = st.opLog ++ nv.map fun i => (Cascade.remove, i)) ∧
    (∀ st e vis md r, UnitOfWork.merge M fuel st e vis md = some r →
      ∃ nv, r.2 = vis ++ nv ∧ (vis.Nodup → r.2.Nodup) ∧
        r.1.opLog = st.opLog ++ nv.map fun i => (Cascade.merge, i)) ∧
    (∀ st e ty vis chk r, UnitOfWork.cascade M fuel st e ty vis chk = some r →
      ∃ nv, r.2 = vis ++ nv ∧ (vis.Nodup → r.2.Nodup) ∧
        (ty ≠ Cascade.all → r.1.opLog = st.opLog ++ nv.map fun i => (ty, i)) ∧
        (ty = Cascade.all → r.1.opLog = st.opLog)) ∧
    (∀ st props e ty vis chk r,
      UnitOfWork.cascadeReferences M fuel st props e ty vis chk = some r →
      ∃ nv, r.2 = vis ++ nv ∧ (vis.Nodup → r.2.Nodup) ∧
        (ty ≠ Cascade.all → r.1.opLog = st.opLog ++ nv.map fun i => (ty, i)) ∧
        (ty = Cascade.all → r.1.opLog = st.opLog)) ∧
    (∀ st e prop ty vis chk r,
      UnitOfWork.cascadeReference M fuel st e prop ty vis chk = some r →
      ∃ nv, r.2 = vis ++ nv ∧ (vis.Nodup → r.2.Nodup) ∧
        (ty ≠ Cascade.all → r.1.opLog = st.opLog ++ nv.map fun i => (ty, i)) ∧
        (ty = Cascade.all → r.1.opLog = st.opLog)) ∧
    (∀ st items ty vis chk r,
      UnitOfWork.cascadeItems M fuel st items ty vis chk = some r →
      ∃ nv, r.2 = vis ++ nv ∧ (vis.Nodup → r.2.Nodup) ∧
        (ty ≠ Cascade.all → r.1.opLog = st.opLog ++ nv.map fun i => (ty, i)) ∧
        (ty = Cascade.all → r.1.opLog = st.opLog)) := by
  intro fuel
  induction fuel with
  | zero =>
    refine ⟨?_, ?_, ?_, ?_, ?_, ?_, ?_⟩ <;> intro st
    · intro e vis chk r h; simp [UnitOfWork.persist] at h
    · intro e vis r h; simp [UnitOfWork.remove] at h
    · intro e vis md r h; simp [UnitOfWork.merge] at h
    · intro e ty vis chk r h; simp [UnitOfWork.cascade] at h
    · intro props e ty vis chk r h; simp [UnitOfWork.cascadeReferences] at h
    · intro e prop ty vis chk r h; simp [UnitOfWork.cascadeReference] at h
    · intro items ty vis chk r h; simp [UnitOfWork.cascadeItems] at h
  | succ f ih =>
    obtain ⟨ihP, ihR, ihM, ihC, ihCRs, ihCR, ihCI⟩ := ih
    refine ⟨?_, ?_, ?_, ?_, ?_, ?_, ?_⟩
    · -- persist
      intro st e vis chk r h
      rw [UnitOfWork.persist] at h
      by_cases h1 : e ∈ st.persistStack
      · rw [if_pos h1, Option.some_inj] at h
        subst h
        exact ⟨[], by simp, fun hh => by simpa using hh, by simp⟩
      · rw [if_neg h1] at h
        by_cases h2 : chk = true ∧ e ∈ st.removeStack
        · rw [if_pos h2, Option.some_inj] at h
          subst h
          exact ⟨[], by simp, fun hh => by simpa using hh, by simp⟩
        · rw [if_neg h2] at h
          rcases hge : st.getEntity e with _ | ent <;> rw [hge] at h
          · rw [Option.some_inj] at h
            subst h
            exact ⟨[], by simp, fun hh => by simpa using hh, by simp⟩
          · simp only [] at h
            obtain ⟨nv, h2', hnd, hop⟩ := ihC _ _ _ _ _ _ h
            refine ⟨nv, h2', hnd, ?_⟩
            rw [hop.1 (by decide)]
            congr 1
            split <;> rfl
    · -- remove
      intro st e vis r h
      rw [UnitOfWork.remove] at h
      by_cases h1 : e ∈ st.removeStack
      · rw [if_pos h1, Option.some_inj] at h
        subst h
        exact ⟨[], by simp, fun hh => by simpa using hh, by simp⟩
      · rw [if_neg h1] at h
        rcases hge : st.getEntity e with _ | ent <;> rw [hge] at h
        · rw [Option.some_inj] at h
          subst h
          exact ⟨[], by simp, fun hh => by simpa using hh, by simp⟩
        · simp only [] at h
          obtain ⟨nv, h2', hnd, hop⟩ := ihC _ _ _ _ _ _ h
          refine ⟨nv, h2', hnd, ?_⟩
          rw [hop.1 (by decide), opLog_unsetIdentity]
          congr 1
          split <;> rfl
    · -- merge
      intro st e vis md r h
      rw [UnitOfWork.merge] at h
      rcases hge : st.getEntity e with _ | ent <;> rw [hge] at h
      · rw [Option.some_inj] at h
        subst h
        exact ⟨[], by simp, fun hh => by simpa using hh, by simp⟩
      · simp only [] at h
        rcases hpk : ent.pk with _ | p <;> rw [hpk] at h
        · rw [Option.some_inj] at h
          subst h
          exact ⟨[], by simp, fun hh => by simpa using hh,
            by simp [UoWState.setEm, UoWState.updEntity]⟩
        · simp only [] at h
          obtain ⟨nv, h2', hnd, hop⟩ := ihC _ _ _ _ _ _ h
          refine ⟨nv, h2', hnd, ?_⟩
          rw [hop.1 (by decide)]
          congr 1
          split <;> rfl
    · -- cascade
      intro st e ty vis chk r h
      rw [UnitOfWork.cascade] at h
      by_cases h1 : e ∈ vis
      · rw [if_pos h1, Option.some_inj] at h
        subst h
        exact ⟨[], by simp, fun hh => by simpa using hh, fun _ => by simp, fun _ => rfl⟩
      · rw [if_neg h1] at h
        simp only [] at h
        cases ty
        · -- persist
          rcases hst : UnitOfWork.persist M f
              { st with opLog := st.opLog ++ [(Cascade.persist, e)] } e (vis ++ [e]) chk
              with _ | ⟨st1, vis2⟩ <;> rw [hst] at h
          · cases h
          · obtain ⟨nv1, hv1, hnd1, hop1⟩ := ihP _ _ _ _ _ hst
            simp only [] at hv1 hnd1 hop1
            simp only [] at h
            rcases hge : st1.getEntity e with _ | ent <;> rw [hge] at h
            · rw [Option.some_inj] at h
              subst h
              refine ⟨e :: nv1, by simp [hv1, List.append_assoc], ?_,
                fun _ => by simp [hop1, List.append_assoc], fun hh => by cases hh⟩
              intro hh
              simp only []
              exact hnd1 (nodup_append_singleton vis e hh h1)
            · obtain ⟨nv2, hv2, hnd2, hop2⟩ := ihCRs _ _ _ _ _ _ _ h
              refine ⟨e :: (nv1 ++ nv2), by simp [hv2, hv1, List.append_assoc], ?_,
                fun _ => by simp [hop2.1 (by decide), hop1, List.append_assoc],
                fun hh => by cases hh⟩
              intro hh
              exact hnd2 (hnd1 (nodup_append_singleton vis e hh h1))
        · -- merge
          rcases hst : UnitOfWork.merge M f
              { st with opLog := st.opLog ++ [(Cascade.merge, e)] } e (vis ++ [e]) true
              with _ | ⟨st1, vis2⟩ <;> rw [hst] at h
          · cases h
          · obtain ⟨nv1, hv1, hnd1, hop1⟩ := ihM _ _ _ _ _ hst
            simp only [] at hv1 hnd1 hop1
            simp only [] at h
            rcases hge : st1.getEntity e with _ | ent <;> rw [hge] at h
            · rw [Option.some_inj] at h
              subst h
              refine ⟨e :: nv1, by simp [hv1, List.append_assoc], ?_,
                fun _ => by simp [hop1, List.append_assoc], fun hh => by cases hh⟩
              intro hh
              simp only []
              exact hnd1 (nodup_append_singleton vis e hh h1)
            · obtain ⟨nv2, hv2, hnd2, hop2⟩ := ihCRs _ _ _ _ _ _ _ h
              refine ⟨e :: (nv1 ++ nv2), by simp [hv2, hv1, List.append_assoc], ?_,
                fun _ => by simp [hop2.1 (by decide), hop1, List.append_assoc],
                fun hh => by cases hh⟩
              intro hh
              exact hnd2 (hnd1 (nodup_append_singleton vis e hh h1))
        · -- remove
          rcases hst : UnitOfWork.remove M f
              { st with opLog := st.opLog ++ [(Cascade.remove, e)] } e (vis ++ [e])
              with _ | ⟨st1, vis2⟩ <;> rw [hst] at h
          · cases h
          · obtain ⟨nv1, hv1, hnd1, hop1⟩ := ihR _ _ _ _ hst
            simp only [] at hv1 hnd1 hop1
            simp only [] at h
            rcases hge : st1.getEntity e with _ | ent <;> rw [hge] at h
            · rw [Option.some_inj] at h
              subst h
              refine ⟨e :: nv1, by simp [hv1, List.append_assoc], ?_,
                fun _ => by simp [hop1, List.append_assoc], fun hh => by cases hh⟩
              intro hh
              simp only []
              exact hnd1 (nodup_append_singleton vis e hh h1)
            · obtain ⟨nv2, hv2, hnd2, hop2⟩ := ihCRs _ _ _ _ _ _ _ h
              refine ⟨e :: (nv1 ++ nv2), by simp [hv2, hv1, List.append_assoc], ?_,
                fun _ => by simp [hop2.1 (by decide), hop1, List.append_assoc],
                fun hh => by cases hh⟩
              intro hh
              exact hnd2 (hnd1 (nodup_append_singleton vis e hh h1))
        · -- all
          simp only [] at h
          rcases hge : st.getEntity e with _ | ent <;> rw [hge] at h
          · rw [Option.some_inj] at h
            subst h
            refine ⟨[e], by simp, ?_, fun hh => absurd rfl hh, fun _ => rfl⟩
            intro hh
            simp only []
            exact nodup_append_singleton vis e hh h1
          · obtain ⟨nv2, hv2, hnd2, hop2⟩ := ihCRs _ _ _ _ _ _ _ h
            refine ⟨e :: nv2, by simp [hv2, List.append_assoc], ?_, fun hh => absurd rfl hh,
              fun _ => hop2.2 rfl⟩
            intro hh
            exact hnd2 (nodup_append_singleton vis e hh h1)
    · -- cascadeReferences
      intro st props e ty vis chk r h
      rw [UnitOfWork.cascadeReferences.eq_def] at h
      simp only [] at h
      cases props with
      | nil =>
        rw [Option.some_inj] at h
        subst h
        exact ⟨[], by simp, fun hh => by simpa using hh, fun _ => by simp, fun _ => rfl⟩
      | cons prop rest =>
        simp only [] at h
        rcases hcr : UnitOfWork.cascadeReference M f st e prop ty vis chk
            with _ | ⟨st1, vis1⟩ <;> rw [hcr] at h
        · cases h
        · obtain ⟨nv1, hv1, hnd1, hop1⟩ := ihCR _ _ _ _ _ _ _ hcr
          simp only [] at hv1 hnd1 hop1
          simp only [] at h
          obtain ⟨nv2, hv2, hnd2, hop2⟩ := ihCRs _ _ _ _ _ _ _ h
          refine ⟨nv1 ++ nv2, by simp [hv2, hv1, List.append_assoc], ?_, ?_, ?_⟩
          · intro hh
            exact hnd2 (hnd1 hh)
          · intro hty
            rw [hop2.1 hty, hop1.1 hty]
            simp [List.map_append, List.append_assoc]
          · intro hty
            rw [hop2.2 hty, hop1.2 hty]
    · -- cascadeReference
      intro st e prop ty vis chk r h
      rw [UnitOfWork.cascadeReference] at h
      by_cases hsc : shouldCascade prop ty = true
      · rw [if_pos hsc] at h
        rcases hur : unwrapReference (fixMissingReference st e prop) e prop
            with _ | v <;> rw [hur] at h
        · rw [Option.some_inj] at h
          subst h
          exact ⟨[], by simp, fun hh => by simpa using hh, fun _ => by simp [fixMissingReference], fun _ => rfl⟩
        · rcases v with n | o | c
          · rw [Option.some_inj] at h
            subst h
            exact ⟨[], by simp, fun hh => by simpa using hh, fun _ => by simp [fixMissingReference], fun _ => rfl⟩
          · rcases o with _ | t
            · rw [Option.some_inj] at h
              subst h
              exact ⟨[], by simp, fun hh => by simpa using hh, fun _ => by simp [fixMissingReference], fun _ => rfl⟩
            · simp only [] at h
              by_cases hk : prop.reference = ReferenceType.manyToOne ∨
                  prop.reference = ReferenceType.oneToOne
              · rw [if_pos hk] at h
                exact ihC _ _ _ _ _ _ h
              · rw [if_neg hk, Option.some_inj] at h
                subst h
                exact ⟨[], by simp, fun hh => by simpa using hh, fun _ => by simp [fixMissingReference], fun _ => rfl⟩
          · simp only [] at h
            by_cases hk : (prop.reference = ReferenceType.oneToMany ∨
                prop.reference = ReferenceType.manyToMany) ∧
                collIsInitialized (fixMissingReference st e prop) c
                  (ty = Cascade.persist) = true
            · rw [if_pos hk] at h
              exact ihCI _ _ _ _ _ _ h
            · rw [if_neg hk, Option.some_inj] at h
              subst h
              exact ⟨[], by simp, fun hh => by simpa using hh, fun _ => by simp [fixMissingReference], fun _ => rfl⟩
      · rw [if_neg hsc, Option.some_inj] at h
        subst h
        exact ⟨[], by simp, fun hh => by simpa using hh, fun _ => by simp [fixMissingReference], fun _ => rfl⟩
    · -- cascadeItems
      intro st items ty vis chk r h
      rw [UnitOfWork.cascadeItems.eq_def] at h
      simp only [] at h
      cases items with
      | nil =>
        rw [Option.some_inj] at h
        subst h
        exact ⟨[], by simp, fun hh => by simpa using hh, fun _ => by simp, fun _ => rfl⟩
      | cons i rest =>
        simp only [] at h
        rcases hc : UnitOfWork.cascade M f st i ty vis chk
            with _ | ⟨st1, vis1⟩ <;> rw [hc] at h
        · cases h
        · obtain ⟨nv1, hv1, hnd1, hop1⟩ := ihC _ _ _ _ _ _ hc
          simp only [] at hv1 hnd1 hop1
          simp only [] at h
          obtain ⟨nv2, hv2, hnd2, hop2⟩ := ihCI _ _ _ _ _ _ h
          refine ⟨nv1 ++ nv2, by simp [hv2, hv1, List.append_assoc], ?_, ?_, ?_⟩
          · intro hh
            exact hnd2 (hnd1 hh)
          · intro hty
            rw [hop2.1 hty, hop1.1 hty]
            simp [List.map_append, List.append_assoc]
          · intro hty
            rw [hop2.2 hty, hop1.2 hty]

/-- Equal heap shapes give equal potentials. -/
theorem pot_congr {st st' : UoWState} (h : stShape st' = stShape st)
    (vis : List EntityId) : pot st' vis = pot st vis := by
  unfold pot
  rw [dom_eq_of_shape h]

/-- `cascade` on an unvisited entity absent from the heap returns after the
operation dispatch, without walking any relation. -/
theorem cascade_unmanaged (M : Metadata) (st : UoWState) (e : EntityId) (ty : Cascade)
    (vis : List EntityId) (chk : Bool) (h1 : e ∉ vis) (hge : st.getEntity e = none) :
    ∃ fuel r, UnitOfWork.cascade M fuel st e ty vis chk = some r := by
  cases ty
  · obtain ⟨rop, hop⟩ := persist_total_visited M
      { st with opLog := st.opLog ++ [(Cascade.persist, e)] } e (vis ++ [e]) chk (by simp)
    rcases rop with ⟨st1, vis2⟩
    have hsh : stShape st1 = stShape st := ((cascadeFamFrame M 2).1 _ _ _ _ _ hop).1
    have hge1 : st1.getEntity e = none := getEntity_none_of_shape_eq hsh e hge
    refine ⟨3, (st1, vis2), ?_⟩
    rw [UnitOfWork.cascade, if_neg h1]
    simp only []
    rw [hop]
    simp only []
    rw [hge1]
  · obtain ⟨rop, hop⟩ := merge_total_visited M
      { st with opLog := st.opLog ++ [(Cascade.merge, e)] } e (vis ++ [e]) true (by simp)
    rcases rop with ⟨st1, vis2⟩
    have hsh : stShape st1 = stShape st := ((cascadeFamFrame M 2).2.2.1 _ _ _ _ _ hop).1
    have hge1 : st1.getEntity e = none := getEntity_none_of_shape_eq hsh e hge
    refine ⟨3, (st1, vis2), ?_⟩
    rw [UnitOfWork.cascade, if_neg h1]
    simp only []
    rw [hop]
    simp only []
    rw [hge1]
  · obtain ⟨rop, hop⟩ := remove_total_visited M
      { st with opLog := st.opLog ++ [(Cascade.remove, e)] } e (vis ++ [e]) (by simp)
    rcases rop with ⟨st1, vis2⟩
    have hsh : stShape st1 = stShape st := ((cascadeFamFrame M 2).2.1 _ _ _ _ hop).1
    have hge1 : st1.getEntity e = none := getEntity_none_of_shape_eq hsh e hge
    refine ⟨3, (st1, vis2), ?_⟩
    rw [UnitOfWork.cascade, if_neg h1]
    simp only []
    rw [hop]
    simp only []
    rw [hge1]
  · refine ⟨1, (st, vis ++ [e]), ?_⟩
    rw [UnitOfWork.cascade, if_neg h1]
    simp only []
    rw [hge]

/-- Any cascade succeeds with enough fuel: the shared visited set shrinks the
pool of unvisited heap entities at every true recursion step. -/
theorem cascadeTerm (M : Metadata) : ∀ (k : Nat) (st : UoWState) (e : EntityId)
    (ty : Cascade) (vis : List EntityId) (chk : Bool), pot st vis ≤ k →
    ∃ fuel r, UnitOfWork.cascade M fuel st e ty vis chk = some r := by
  intro k
  induction k with
  | zero =>
    intro st e ty vis chk hpot
    by_cases h1 : e ∈ vis
    · exact ⟨1, (st, vis), cascade_visited M st e ty vis chk h1⟩
    · rcases hge : st.getEntity e with _ | ent
      · exact cascade_unmanaged M st e ty vis chk h1 hge
      · have := pot_dec st vis e ent hge h1
        omega
  | succ k ihk =>
    intro st e ty vis chk hpot
    by_cases h1 : e ∈ vis
    · exact ⟨1, (st, vis), cascade_visited M st e ty vis chk h1⟩
    rcases hge : st.getEntity e with _ | ent
    · exact cascade_unmanaged M st e ty vis chk h1 hge
    have hk1 : pot st (vis ++ [e]) ≤ k :=
      Nat.lt_succ_iff.mp (Nat.lt_of_lt_of_le (pot_dec st vis e ent hge h1) hpot)
    have Hitems : ∀ (items : List EntityId) (st' : UoWState) (vis' : List EntityId)
        (ty' : Cascade) (chk' : Bool), stShape st' = stShape st → pot st vis' ≤ k →
        ∃ fuel r, UnitOfWork.cascadeItems M fuel st' items ty' vis' chk' = some r := by
      intro items
      induction items with
      | nil =>
        intro st' vis' ty' chk' hsh hp
        exact ⟨1, (st', vis'), rfl⟩
      | cons i rest ihrest =>
        intro st' vis' ty' chk' hsh hp
        obtain ⟨f1, r1, h1'⟩ := ihk st' i ty' vis' chk' (by rw [pot_congr hsh]; exact hp)
        rcases r1 with ⟨st1, vis1⟩
        have hsh1 : stShape st1 = stShape st :=
          (((cascadeFamFrame M f1).2.2.2.1) _ _ _ _ _ _ h1').1.trans hsh
        obtain ⟨nv, hnv, _, _⟩ := ((cascadeFamVisLog M f1).2.2.2.1) _ _ _ _ _ _ h1'
        simp only [] at hnv
        have hp1 : pot st vis1 ≤ k := by
          rw [hnv]
          exact Nat.le_trans
            (pot_le_of_subset st fun j hj => List.mem_append.mpr (Or.inl hj)) hp
        obtain ⟨f2, r2, h2'⟩ := ihrest st1 vis1 ty' chk' hsh1 hp1
        refine ⟨max f1 f2 + 1, r2, ?_⟩
        rw [UnitOfWork.cascadeItems.eq_def]
        simp only []
        rw [(cascadeFamMonoLe M (Nat.le_max_left f1 f2)).2.2.2.1 _ _ _ _ _ _ h1']
        simp only []
        exact (cascadeFamMonoLe M (Nat.le_max_right f1 f2)).2.2.2.2.2.2 _ _ _ _ _ _ h2'
    have Href : ∀ (prop : EntityProperty) (st' : UoWState) (e' : EntityId)
        (vis' : List EntityId) (ty' : Cascade) (chk' : Bool),
        stShape st' = stShape st → pot st vis' ≤ k →
        ∃ fuel r, UnitOfWork.cascadeReference M fuel st' e' prop ty' vis' chk' = some r := by
      intro prop st' e' vis' ty' chk' hsh hp
      by_cases hsc : shouldCascade prop ty' = true
      · rcases hur : unwrapReference (fixMissingReference st' e' prop) e' prop with _ | v
        · refine ⟨1, (fixMissingReference st' e' prop, vis'), ?_⟩
          rw [UnitOfWork.cascadeReference, if_pos hsc, hur]
        · rcases v with n | o | c
          · refine ⟨1, (fixMissingReference st' e' prop, vis'), ?_⟩
            rw [UnitOfWork.cascadeReference, if_pos hsc, hur]
          · rcases o with _ | t
            · refine ⟨1, (fixMissingReference st' e' prop, vis'), ?_⟩
              rw [UnitOfWork.cascadeReference, if_pos hsc, hur]
            · by_cases hk : prop.reference = ReferenceType.manyToOne ∨
                  prop.reference = ReferenceType.oneToOne
              · obtain ⟨f1, r1, h1'⟩ := ihk st' t ty' vis' chk'
                  (by rw [pot_congr hsh]; exact hp)
                refine ⟨f1 + 1, r1, ?_⟩
                rw [UnitOfWork.cascadeReference, if_pos hsc, hur]
                simp only []
                rw [if_pos hk]
                exact h1'
              · refine ⟨1, (fixMissingReference st' e' prop, vis'), ?_⟩
                rw [UnitOfWork.cascadeReference, if_pos hsc, hur]
                simp only []
                rw [if_neg hk]
          · by_cases hk : (prop.reference = ReferenceType.oneToMany ∨
                prop.reference = ReferenceType.manyToMany) ∧
                collIsInitialized (fixMissingReference st' e' prop) c
                  (ty' = Cascade.persist) = true
            · obtain ⟨f1, r1, h1'⟩ := Hitems c.items st' vis' ty' chk' hsh hp
              refine ⟨f1 + 1, r1, ?_⟩
              rw [UnitOfWork.cascadeReference, if_pos hsc, hur]
              simp only []
              rw [if_pos hk]
              exact h1'
            · refine ⟨1, (fixMissingReference st' e' prop, vis'), ?_⟩
              rw [UnitOfWork.cascadeReference, if_pos hsc, hur]
              simp only []
              rw [if_neg hk]
      · refine ⟨1, (fixMissingReference st' e' prop, vis'), ?_⟩
        rw [UnitOfWork.cascadeReference, if_neg hsc]
    have Hrefs : ∀ (props : List EntityProperty) (st' : UoWState) (e' : EntityId)
        (vis' : List EntityId) (ty' : Cascade) (chk' : Bool),
        stShape st' = stShape st → pot st vis' ≤ k →
        ∃ fuel r, UnitOfWork.cascadeReferences M fuel st' props e' ty' vis' chk' = some r := by
      intro props
      induction props with
      | nil =>
        intro st' e' vis' ty' chk' hsh hp
        exact ⟨1, (st', vis'), rfl⟩
      | cons prop rest ihrest =>
        intro st' e' vis' ty' chk' hsh hp
        obtain ⟨f1, r1, h1'⟩ := Href prop st' e' vis' ty' chk' hsh hp
        rcases r1 with ⟨st1, vis1⟩
        have hsh1 : stShape st1 = stShape st :=
          (((cascadeFamFrame M f1).2.2.2.2.2.1) _ _ _ _ _ _ _ h1').1.trans hsh
        obtain ⟨nv, hnv, _, _⟩ := ((cascadeFamVisLog M f1).2.2.2.2.2.1) _ _ _ _ _ _ _ h1'
        simp only [] at hnv
        have hp1 : pot st vis1 ≤ k := by
          rw [hnv]
          exact Nat.le_trans
            (pot_le_of_subset st fun j hj => List.mem_append.mpr (Or.inl hj)) hp
        obtain ⟨f2, r2, h2'⟩ := ihrest st1 e' vis1 ty' chk' hsh1 hp1
        refine ⟨max f1 f2 + 1, r2, ?_⟩
        rw [UnitOfWork.cascadeReferences.eq_def]
        simp only []
        rw [(cascadeFamMonoLe M (Nat.le_max_left f1 f2)).2.2.2.2.2.1 _ _ _ _ _ _ _ h1']
        simp only []
        exact (cascadeFamMonoLe M (Nat.le_max_right f1 f2)).2.2.2.2.1 _ _ _ _ _ _ _ h2'
    cases ty
    · -- persist
      obtain ⟨rop, hop⟩ := persist_total_visited M
        { st with opLog := st.opLog ++ [(Cascade.persist, e)] } e (vis ++ [e]) chk (by simp)
      rcases rop with ⟨st1, vis2⟩
      have hsh1 : stShape st1 = stShape st := ((cascadeFamFrame M 2).1 _ _ _ _ _ hop).1
      obtain ⟨nv1, hnv1, _, _⟩ := (cascadeFamVisLog M 2).1 _ _ _ _ _ hop
      simp only [] at hnv1
      have hp2 : pot st vis2 ≤ k := by
        rw [hnv1]
        exact Nat.le_trans
          (pot_le_of_subset st fun j hj => List.mem_append.mpr (Or.inl hj)) hk1
      rcases hge1 : st1.getEntity e with _ | ent1
      · refine ⟨3, (st1, vis2), ?_⟩
        rw [UnitOfWork.cascade, if_neg h1]
        simp only []
        rw [hop]
        simp only []
        rw [hge1]
      · obtain ⟨f3, r3, h3'⟩ := Hrefs
          ((M ent1.typeName).properties.filter fun p =>
            decide (p.reference ≠ ReferenceType.scalar)) st1 e vis2 Cascade.persist chk
          hsh1 hp2
        refine ⟨max 2 f3 + 1, r3, ?_⟩
        rw [UnitOfWork.cascade, if_neg h1]
        simp only []
        rw [(cascadeFamMonoLe M (Nat.le_max_left 2 f3)).1 _ _ _ _ _ hop]
        simp only []
        rw [hge1]
        exact (cascadeFamMonoLe M (Nat.le_max_right 2 f3)).2.2.2.2.1 _ _ _ _ _ _ _ h3'
    · -- merge
      obtain ⟨rop, hop⟩ := merge_total_visited M
        { st with opLog := st.opLog ++ [(Cascade.merge, e)] } e (vis ++ [e]) true (by simp)
      rcases rop with ⟨st1, vis2⟩
      have hsh1 : stShape st1 = stShape st := ((cascadeFamFrame M 2).2.2.1 _ _ _ _ _ hop).1
      obtain ⟨nv1, hnv1, _, _⟩ := (cascadeFamVisLog M 2).2.2.1 _ _ _ _ _ hop
      simp only [] at hnv1
      have hp2 : pot st vis2 ≤ k := by
        rw [hnv1]
        exact Nat.le_trans
          (pot_le_of_subset st fun j hj => List.mem_append.mpr (Or.inl hj)) hk1
      rcases hge1 : st1.getEntity e with _ | ent1
      · refine ⟨3, (st1, vis2), ?_⟩
        rw [UnitOfWork.cascade, if_neg h1]
        simp only []
        rw [hop]
        simp only []
        rw [hge1]
      · obtain ⟨f3, r3, h3'⟩ := Hrefs
          ((M ent1.typeName).properties.filter fun p =>
            decide (p.reference ≠ ReferenceType.scalar)) st1 e vis2 Cascade.merge chk
          hsh1 hp2
        refine ⟨max 2 f3 + 1, r3, ?_⟩
        rw [UnitOfWork.cascade, if_neg h1]
        simp only []
        rw [(cascadeFamMonoLe M (Nat.le_max_left 2 f3)).2.2.1 _ _ _ _ _ hop]
        simp only []
        rw [hge1]
        exact (cascadeFamMonoLe M (Nat.le_max_right 2 f3)).2.2.2.2.1 _ _ _ _ _ _ _ h3'
    · -- remove
      obtain ⟨rop, hop⟩ := remove_total_visited M
        { st with opLog := st.opLog ++ [(Cascade.remove, e)] } e (vis ++ [e]) (by simp)
      rcases rop with ⟨st1, vis2⟩
      have hsh1 : stShape st1 = stShape st := ((cascadeFamFrame M 2).2.1 _ _ _ _ hop).1
      obtain ⟨nv1, hnv1, _, _⟩ := (cascadeFamVisLog M 2).2.1 _ _ _ _ hop
      simp only [] at hnv1
      have hp2 : pot st vis2 ≤ k := by
        rw [hnv1]
        exact Nat.le_trans
          (pot_le_of_subset st fun j hj => List.mem_append.mpr (Or.inl hj)) hk1
      rcases hge1 : st1.getEntity e with _ | ent1
      · refine ⟨3, (st1, vis2), ?_⟩
        rw [UnitOfWork.cascade, if_neg h1]
        simp only []
        rw [hop]
        simp only []
        rw [hge1]
      · obtain ⟨f3, r3, h3'⟩ := Hrefs
          ((M ent1.typeName).properties.filter fun p =>
            decide (p.reference ≠ ReferenceType.scalar)) st1 e vis2 Cascade.remove chk
          hsh1 hp2
        refine ⟨max 2 f3 + 1, r3, ?_⟩
        rw [UnitOfWork.cascade, if_neg h1]
        simp only []
        rw [(cascadeFamMonoLe M (Nat.le_max_left 2 f3)).2.1 _ _ _ _ hop]
        simp only []
        rw [hge1]
        exact (cascadeFamMonoLe M (Nat.le_max_right 2 f3)).2.2.2.2.1 _ _ _ _ _ _ _ h3'
    · -- all
      obtain ⟨f3, r3, h3'⟩ := Hrefs
        ((M ent.typeName).properties.filter fun p =>
          decide (p.reference ≠ ReferenceType.scalar)) st e (vis ++ [e]) Cascade.all chk
        rfl hk1
      refine ⟨f3 + 1, r3, ?_⟩
      rw [UnitOfWork.cascade, if_neg h1]
      simp only []
      rw [hge]
      exact h3'

/-- C8: a single top-level cascade invocation (the graph walk dispatched by
persist, remove or merge) terminates on every object graph, cyclic ones
included — some finite fuel makes it return — and applies the cascaded
operation to each reachable entity at most once: the visited set shared
across the whole call tree blocks re-entry, so the pass visits a block of
pairwise-distinct new entities and the ghost operation log records exactly
one dispatch per newly visited entity. -/
theorem cascade_terminates_at_most_once (M : Metadata) (st : UoWState) (e : EntityId)
    (ty : Cascade) (vis : List EntityId) (chk : Bool) (hty : ty ≠ Cascade.all)
    (hnd : vis.Nodup) :
    (∃ fuel r, UnitOfWork.cascade M fuel st e ty vis chk = some r) ∧
    (∀ fuel st' vis', UnitOfWork.cascade M fuel st e ty vis chk = some (st', vis') →
      ∃ nv, vis' = vis ++ nv ∧ nv.Nodup ∧
        st'.opLog = st.opLog ++ nv.map fun i => (ty, i)) := by
  constructor
  · exact cascadeTerm M (pot st vis) st e ty vis chk (Nat.le_refl _)
  · intro fuel st' vis' h
    obtain ⟨nv, hv, hd, hop, _⟩ := (cascadeFamVisLog M fuel).2.2.2.1 _ _ _ _ _ _ h
    simp only [] at hv hd hop
    refine ⟨nv, hv, ?_, hop hty⟩
    have hnd2 := hd hnd
    rw [hv] at hnd2
    exact List.Nodup.of_append_right hnd2

/-- The to-one self-relation of the cyclic cascade scenario, cascading every
operation. -/
def propC8 : EntityProperty :=
  { name := "next", reference := ReferenceType.manyToOne
    cascade := [Cascade.persist, Cascade.merge, Cascade.remove], owner := true
    nullable := false, orphanRemoval := false, type := "B", mappedBy := "" }

/-- Metadata for the cyclic cascade scenario. -/
def MC8 : Metadata := fun t =>
  if t = "B" then
    { name := "B", collection := "b", properties := [propC8], versionProperty := none }
  else { name := "", collection := "", properties := [], versionProperty := none }

/-- Two entities referring to each other through `next`: a two-cycle. -/
def enC8a : Entity :=
  { typeName := "B", pk := some "1", initialized := true, em := false
    props := [("next", PropValue.toOne (some 2))] }

def enC8b : Entity :=
  { typeName := "B", pk := some "2", initialized := true, em := false
    props := [("next", PropValue.toOne (some 1))] }

/-- A state holding the cyclic pair. -/
def stC8 : UoWState := { stEmpty with store := [(1, enC8a), (2, enC8b)] }

theorem cascade_terminates_at_most_once_witness :
    (∃ fuel r, UnitOfWork.cascade MC8 fuel stC8 1 Cascade.persist [] true = some r) ∧
    (∀ fuel st' vis',
      UnitOfWork.cascade MC8 fuel stC8 1 Cascade.persist [] true = some (st', vis') →
      ∃ nv, vis' = [] ++ nv ∧ nv.Nodup ∧
        st'.opLog = stC8.opLog ++ nv.map fun i => (Cascade.persist, i)) :=
  cascade_terminates_at_most_once MC8 stC8 1 Cascade.persist [] true (by decide) (by decide)
